import Mathlib

/-!
# VTable-Exporter: Itanium vtable / RTTI reader

A shallow embedding of `src/base/Loader.h`, `src/format/ELF.cpp` and
`src/abi/itanium/ItaniumVTableReader.cpp`, followed by the properties of the
reader that are established about it.

Conventions.
* An address (`uintptr_t`) is a `Nat` below `2 ^ 64`; a signed word (`intptr_t`,
  `long long`) is an `Int` in `[-2 ^ 63, 2 ^ 63)`.  Conversions are explicit.
* Logging (`spdlog`) has no effect on the results and is left out.
* A C++ exception or the use of an indeterminate value ends a run with a `Fault`.
-/

namespace MetaDumper

/-! ## Machine words -/

/-- The value of a 64-bit pattern read as `intptr_t` (two's complement). -/
def toIntptr (w : Nat) : Int :=
  if w % 2 ^ 64 < 2 ^ 63 then ((w % 2 ^ 64 : Nat) : Int) else ((w % 2 ^ 64 : Nat) : Int) - 2 ^ 64

/-- The conversion `(uintptr_t)v`. -/
def toUintptr (v : Int) : Nat := (v % 2 ^ 64).toNat

/-- Unary minus on `ptrdiff_t`. -/
def negPtrdiff (v : Int) : Int := toIntptr (toUintptr (-v))

/-- Bitwise `&` of two `long long` values, taken on their two's complement patterns. -/
def land64 (a b : Int) : Int := toIntptr (toUintptr a &&& toUintptr b)

/-- The operator `>>` on a `long long` (arithmetic shift). -/
def sar64 (a : Int) (n : Nat) : Int := a >>> n

/-- Little-endian value of a run of bytes. -/
def leDecode : List Nat → Nat
  | [] => 0
  | b :: bs => b + 256 * leDecode bs

/-- The `n` little-endian bytes of a value. -/
def leEncode : Nat → Nat → List Nat
  | 0, _ => []
  | n + 1, v => v % 256 :: leEncode n (v / 256)

/-- The member function `std::string::starts_with`. -/
def starts_with (s p : String) : Bool := p.data.isPrefixOf s.data

/-- The member function `std::string::substr(pos)`; `none` stands for `std::out_of_range`. -/
def substr (s : String) (pos : Nat) : Option String :=
  if pos ≤ s.data.length then some ⟨s.data.drop pos⟩ else none

/-! ## What the binary-format library (LIEF) hands over -/

structure Symbol where
  name : String
  value : Nat
  deriving DecidableEq, Repr

structure Section where
  name : String
  virtual_address : Nat
  size : Nat
  deriving DecidableEq, Repr

structure Segment where
  is_load : Bool
  virtual_address : Nat
  virtual_size : Nat
  file_offset : Nat
  deriving DecidableEq, Repr

/-- The relocation types that `_relocateReadonlyData` tells apart. -/
inductive RELOC where
  | X86_64_64
  | AARCH64_ABS64
  | X86_64_RELATIVE
  | AARCH64_RELATIVE
  | other (code : Nat)
  deriving DecidableEq, Repr

/-- A dynamic relocation; `symbol = none` is `has_symbol() == false`. -/
structure Relocation where
  address : Nat
  type : RELOC
  addend : Int
  symbol : Option Symbol
  deriving DecidableEq, Repr

/-- The parsed `LIEF::ELF::Binary`.  `dynsym_idx` is LIEF's function of that name (its
body is not part of the repository and is kept as a parameter); `has_symtab` and
`has_dynsym` are `has(Section::TYPE::SYMTAB)` and `has(Section::TYPE::DYNSYM)`. -/
structure Binary where
  sections : List Section
  segments : List Segment
  symtab_symbols : List Symbol
  dynamic_symbols : List Symbol
  dynamic_relocations : List Relocation
  has_symtab : Bool
  has_dynsym : Bool
  dynsym_idx : Symbol → Int

/-- The call `get_section(name)` of LIEF: the first section carrying the name. -/
def Binary.get_section (b : Binary) (name : String) : Option Section :=
  b.sections.find? (fun s => s.name == name)

/-! ## `Loader.h`: the stream and its cursor -/

/-- The ways a run can end other than by returning.
* `out_of_range`: `std::out_of_range` thrown by `substr`;
* `runtime_error`: the `std::runtime_error` thrown by `readTypeInfo`;
* `indeterminate`: a `read<T>()` whose `mStream.read` failed returned its
  uninitialised local `value`;
* `empty_optional`: `*symbol` was evaluated on a `std::optional` that holds no value;
* `out_of_fuel`: the bound on loop iterations given to the model was reached. -/
inductive Fault where
  | out_of_range
  | runtime_error
  | indeterminate
  | empty_optional
  | out_of_fuel
  deriving DecidableEq, Repr

/-- The position state of `mStream` (a `std::stringstream`): the offset of the stream
position and the `failbit`.  A seek outside `[0, size]` or a read past the end sets
`failbit`; while it is set seeks and reads do nothing and `tellg()` is `-1`.  Only
`reset()` clears it. -/
structure Cursor where
  pos : Nat
  failed : Bool
  deriving DecidableEq, Repr

inductive RelativePos where
  | Begin
  | Current
  | End
  deriving DecidableEq, Repr

inductive Format where
  | ELF
  | MachO
  deriving DecidableEq, Repr

/-- The image as the reader sees it: the bytes of `mStream` and the virtual member
functions of the loaded format.  `sectionAddress name` is
`get_section(name)->virtual_address()` when the section exists.  `readCString` is
`Loader::readCString(pAddr, pMaxLength)`, whose body (Loader.cpp) is not available:
it is a parameter, taken to leave the cursor where it was.  `getImage` is the parsed
ELF binary, which `_prepareData` walks when the format is ELF. -/
structure Executable where
  format : Format
  isValid : Bool
  getImage : Binary
  mStream : List Nat
  getReadOffset : Nat → Int
  isInSection : Nat → String → Bool
  lookupSymbol : Nat → Option Symbol
  sectionAddress : String → Option Nat
  readCString : Nat → Nat → String

namespace Loader

/-- The member `cur()`: `mStream.tellg()` converted to `uintptr_t`. -/
def cur (c : Cursor) : Nat := if c.failed then 2 ^ 64 - 1 else c.pos

/-- The calls `mStream.seekp(pVal, pRel); mStream.seekg(pVal, pRel)` on a stream
holding `size` bytes. -/
def seek (size : Nat) (pVal : Int) (pRel : RelativePos) (c : Cursor) : Cursor :=
  if c.failed then c
  else
    let target : Int :=
      match pRel with
      | .Begin => pVal
      | .Current => (c.pos : Int) + pVal
      | .End => (size : Int) + pVal
    if 0 ≤ target ∧ target ≤ (size : Int) then ⟨target.toNat, false⟩
    else ⟨c.pos, true⟩

/-- The member `move(pVal, pRel)`. -/
def move (img : Executable) (pVal : Int) (pRel : RelativePos) (c : Cursor) : Cursor :=
  seek img.mStream.length pVal pRel c

/-- Whether the stream is `good()` after a `move`. -/
def good (c : Cursor) : Bool := !c.failed

/-- The member `reset()`. -/
def reset (c : Cursor) : Cursor := ⟨c.pos, false⟩

/-- The member `read<T>()` for a `T` of `n` bytes: the unsigned value of the bytes
and the cursor afterwards. -/
def read (img : Executable) (n : Nat) (c : Cursor) : Except Fault (Nat × Cursor) :=
  let off := img.getReadOffset (cur c)
  let c1 := move img off .Current c
  if c1.failed then .error .indeterminate
  else if c1.pos + n ≤ img.mStream.length then
    let value := leDecode ((img.mStream.drop c1.pos).take n)
    let c2 : Cursor := ⟨c1.pos + n, false⟩
    .ok (value, move img (negPtrdiff off) .Current c2)
  else .error .indeterminate

/-- The instance `read<intptr_t>()`. -/
def read_intptr (img : Executable) (c : Cursor) : Except Fault (Int × Cursor) :=
  match read img 8 c with
  | .ok (v, c1) => .ok (toIntptr v, c1)
  | .error e => .error e

/-- The instance `read<unsigned int>()`. -/
def read_uint (img : Executable) (c : Cursor) : Except Fault (Nat × Cursor) :=
  read img 4 c

/-- The member `moveToSection(name)` of the formats. -/
def moveToSection (img : Executable) (name : String) (c : Cursor) : Bool × Cursor :=
  match img.sectionAddress name with
  | none => (false, c)
  | some va =>
    let c1 := move img (toIntptr va) .Begin c
    (good c1, c1)

/-- The call `write<uintptr_t, false>(pBegin, pData)`: `move(pBegin, Begin)` and then
`mStream.write` of the eight bytes, which overwrites the stream from the cursor on
and lengthens it when it runs past the end.  `mStream.write` moves the put position
only: the position that `cur()` reports and reads start from stays at `pBegin`. -/
def write (st : List Nat × Cursor) (pBegin : Nat) (pData : Nat) : List Nat × Cursor :=
  let c1 := seek st.1.length (toIntptr pBegin) .Begin st.2
  if c1.failed then (st.1, c1)
  else (st.1.take c1.pos ++ leEncode 8 pData ++ st.1.drop (c1.pos + 8), ⟨c1.pos, false⟩)

/-- Modelled from the spec: `Loader::readCString(pAddr, pMaxLength)`, whose body
(Loader.cpp) is absent.  The spec has it read a NUL-terminated byte string bounded
by the maximal length at the given address, empty if the first byte is NUL or the
address is invalid. -/
def readCString (bytes : List Nat) (getReadOffset : Nat → Int) (pAddr pMaxLength : Nat) :
    String :=
  let p : Int := (pAddr : Int) + getReadOffset pAddr
  if 0 ≤ p ∧ p < (bytes.length : Int) then
    ⟨(((bytes.drop p.toNat).take pMaxLength).takeWhile (fun b => b != 0)).map Char.ofNat⟩
  else ""

end Loader

/-! ## `ELF.cpp` -/

/-- One of the two caches `mFromValue`: the pairs in the order in which
`try_emplace` was called.  As `try_emplace` keeps the first value of a key, a
lookup is the first pair with the key. -/
abbrev SymbolCache := List (Nat × Symbol)

def SymbolCache.at? (m : SymbolCache) (pAddr : Nat) : Option Symbol :=
  (m.find? (fun p => p.1 == pAddr)).map (fun p => p.2)

namespace ELF

def getEndOfSections (b : Binary) : Nat :=
  b.sections.foldl
    (fun ret sec =>
      let «end» := (sec.virtual_address + sec.size) % 2 ^ 64
      if ret < «end» then «end» else ret)
    0

def getGapInFront (b : Binary) (pAddr : Nat) : Nat :=
  match b.segments.find? (fun segment =>
      segment.is_load && decide (pAddr ≥ segment.virtual_address)
        && decide (pAddr < (segment.virtual_address + segment.virtual_size) % 2 ^ 64)) with
  | some segment => (segment.virtual_address + 2 ^ 64 - segment.file_offset % 2 ^ 64) % 2 ^ 64
  | none => 2 ^ 64 - 1

def isInSection (b : Binary) (pAddr : Nat) (pSecName : String) : Bool :=
  match b.get_section pSecName with
  | some «section» =>
    decide («section».virtual_address ≤ pAddr)
      && decide ((«section».virtual_address + «section».size) % 2 ^ 64 > pAddr)
  | none => false

/-- The static half of `_buildSymbolCache` (`mSymbolCache.mFromValue`). -/
def symbolCache (b : Binary) : SymbolCache :=
  if b.has_symtab then b.symtab_symbols.map (fun symbol => (symbol.value, symbol)) else []

/-- The sentinel address under which `_buildSymbolCache` files a dynamic symbol. -/
def sentinel (b : Binary) (symbol : Symbol) : Nat :=
  (getEndOfSections b + 8 * toUintptr (b.dynsym_idx symbol)) % 2 ^ 64

/-- The dynamic half of `_buildSymbolCache` (`mDynSymbolCache.mFromValue`). -/
def dynSymbolCache (b : Binary) : SymbolCache :=
  if b.has_dynsym then b.dynamic_symbols.map (fun symbol => (sentinel b symbol, symbol)) else []

def lookupSymbol (b : Binary) (pAddr : Nat) : Option Symbol :=
  match (symbolCache b).at? pAddr with
  | some s => some s
  | none => (dynSymbolCache b).at? pAddr

/-- The value that `_relocateReadonlyData` passes to `write` for a relocation in
range, `none` when the relocation is skipped. -/
def relocationValue (b : Binary) (EOS : Nat) (relocation : Relocation) : Option Nat :=
  match relocation.type with
  | .X86_64_64 | .AARCH64_ABS64 =>
    match relocation.symbol with
    | some symbol =>
      if symbol.value ≠ 0 then
        some ((symbol.value + toUintptr relocation.addend) % 2 ^ 64)
      else
        some ((EOS + toUintptr (b.dynsym_idx symbol) * 8 + toUintptr relocation.addend) % 2 ^ 64)
    | none => none
  | .X86_64_RELATIVE | .AARCH64_RELATIVE =>
    if relocation.symbol.isSome then some (toUintptr relocation.addend) else none
  | .other _ => none

/-- The body of the loop of `_relocateReadonlyData`. -/
def relocateOne (b : Binary) («begin» «end» EOS gapInFront : Nat)
    (st : List Nat × Cursor) (relocation : Relocation) : List Nat × Cursor :=
  let address := relocation.address
  if address < «begin» ∨ address > «end» then st
  else
    let offset := (address + 2 ^ 64 - gapInFront) % 2 ^ 64
    match relocationValue b EOS relocation with
    | some v => Loader.write st offset v
    | none => st

def _relocateReadonlyData (b : Binary) (st : List Nat × Cursor) : List Nat × Cursor :=
  match b.get_section ".data.rel.ro" with
  | none => st
  | some roData =>
    let «begin» := roData.virtual_address
    let «end» := («begin» + roData.size) % 2 ^ 64
    let EOS := getEndOfSections b
    let gapInFront := getGapInFront b «begin»
    b.dynamic_relocations.foldl (relocateOne b «begin» «end» EOS gapInFront) st

/-- Modelled from the spec: `ELF::getReadOffset` is declared in ELF.h, which is
absent.  The spec has a read apply "the VA to file-offset gap for the enclosing load
segment"; the declaration in MachO.h is `-(ptrdiff_t)getGapInFront(pAddr)`. -/
def getReadOffset (b : Binary) (pAddr : Nat) : Int :=
  negPtrdiff (toIntptr (getGapInFront b pAddr))

/-- The image view of an ELF object whose stream holds `bytes`. -/
def view (b : Binary) (bytes : List Nat) : Executable where
  format := .ELF
  isValid := true
  getImage := b
  mStream := bytes
  getReadOffset := getReadOffset b
  isInSection := isInSection b
  lookupSymbol := lookupSymbol b
  sectionAddress := fun name => (b.get_section name).map (fun s => s.virtual_address)
  readCString := Loader.readCString bytes (getReadOffset b)

/-- Modelled from the spec: the constructor of `Loader` (Loader.cpp, absent) fills the
stream with the bytes of the file, which the spec has "slurped into memory".  The
constructor `ELF::ELF` then runs `_relocateReadonlyData` on it; `b` is what the file
parses to. -/
def load (b : Binary) (file : List Nat) : Executable × Cursor :=
  let st := _relocateReadonlyData b (file, ⟨0, false⟩)
  (view b st.1, st.2)

end ELF

/-! ## `MachO.cpp` -/

namespace MachO

/-- A segment of a Mach-O image as LIEF hands it over. -/
structure SegmentCommand where
  virtual_address : Nat
  virtual_size : Nat
  file_offset : Nat
  deriving DecidableEq, Repr

/-- The parsed `LIEF::MachO::Binary`: what `MachO.cpp` reads of it. -/
structure Binary where
  sections : List Section
  segments : List SegmentCommand
  symbols : List Symbol
  deriving DecidableEq, Repr

/-- The call `get_section(name)` of LIEF: the first section carrying the name. -/
def Binary.get_section (b : Binary) (name : String) : Option Section :=
  b.sections.find? (fun s => s.name == name)

def getGapInFront (b : Binary) (pAddr : Nat) : Nat :=
  match b.segments.find? (fun segment =>
      decide (pAddr ≥ segment.virtual_address)
        && decide (pAddr < (segment.virtual_address + segment.virtual_size) % 2 ^ 64)) with
  | some segment => (segment.virtual_address + 2 ^ 64 - segment.file_offset % 2 ^ 64) % 2 ^ 64
  | none => 2 ^ 64 - 1

def isInSection (b : Binary) (pAddr : Nat) (pSecName : String) : Bool :=
  match b.get_section pSecName with
  | some «section» =>
    decide («section».virtual_address ≤ pAddr)
      && decide ((«section».virtual_address + «section».size) % 2 ^ 64 > pAddr)
  | none => false

/-- The cache `mSymbolCache.mFromValue` that `_buildSymbolCache` fills. -/
def symbolCache (b : Binary) : SymbolCache :=
  b.symbols.map (fun symbol => (symbol.value, symbol))

def lookupSymbol (b : Binary) (pAddr : Nat) : Option Symbol :=
  (symbolCache b).at? pAddr

/-- The member `getReadOffset` of `MachO.h`. -/
def getReadOffset (b : Binary) (pAddr : Nat) : Int :=
  negPtrdiff (toIntptr (getGapInFront b pAddr))

/-- The image view of a Mach-O object whose stream holds `bytes`.  The field
`getImage` is the ELF binary that `_prepareData` walks; for a Mach-O image
`_prepareData` reads nothing of the image, and the field holds an empty binary. -/
def view (b : Binary) (bytes : List Nat) : Executable where
  format := .MachO
  isValid := true
  getImage := ⟨[], [], [], [], [], false, false, fun _ => 0⟩
  mStream := bytes
  getReadOffset := getReadOffset b
  isInSection := isInSection b
  lookupSymbol := lookupSymbol b
  sectionAddress := fun name => (b.get_section name).map (fun s => s.virtual_address)
  readCString := Loader.readCString bytes (getReadOffset b)

end MachO

/-! ## `ItaniumVTableReader.cpp` -/

structure VTableColumn where
  mSymbolName : Option String
  mRVA : Nat
  deriving DecidableEq, Repr

/-- The member `mSubTables`, a map from offset-to-top to the columns of the subtable,
is kept as the list of its entries in ascending key order. -/
structure VTable where
  mName : String
  mTypeName : String
  mSubTables : List (Int × List VTableColumn)
  deriving DecidableEq, Repr

structure BaseClassInfo where
  mName : String
  mOffset : Int
  mMask : Int
  deriving DecidableEq, Repr

/-- The three classes derived from `TypeInfo`; `mName` is the first field of each. -/
inductive TypeInfo where
  | NoneInherit (mName : String)
  | SingleInherit (mName : String) (mParentType : String) (mOffset : Int)
  | MultipleInherit (mName : String) (mAttribute : Nat) (mBaseClasses : List BaseClassInfo)
  deriving DecidableEq, Repr

inductive TypeInheritKind where
  | None
  | Single
  | Multiple
  deriving DecidableEq, Repr

def TypeInfo.kind : TypeInfo → TypeInheritKind
  | .NoneInherit _ => .None
  | .SingleInherit _ _ _ => .Single
  | .MultipleInherit _ _ _ => .Multiple

def TypeInfo.mName : TypeInfo → String
  | .NoneInherit n => n
  | .SingleInherit n _ _ => n
  | .MultipleInherit n _ _ => n

structure DumpVFTableResult where
  mTotal : Nat
  mParsed : Nat
  mVFTable : List VTable
  deriving DecidableEq, Repr

structure DumpTypeInfoResult where
  mTotal : Nat
  mParsed : Nat
  mTypeInfo : List TypeInfo
  deriving DecidableEq, Repr

/-- The member `_constant`. -/
structure FormatConstants where
  _segment_data : String
  _segment_text : String
  _prefix_vtable : String
  _prefix_typeinfo : String
  _sym_class_info : String
  _sym_si_class_info : String
  _sym_vmi_class_info : String
  deriving DecidableEq, Repr

/-- The member `mPrepared`.  Each of the two sets is kept as the list of its elements
in the order in which the loops over it visit them. -/
structure PreparedData where
  mVTableBegins : List Nat
  mTypeInfoBegins : List Nat
  deriving DecidableEq, Repr

/-- The call `set.emplace(v)`. -/
def emplace (set : List Nat) (v : Nat) : List Nat :=
  if v ∈ set then set else set ++ [v]

structure ItaniumVTableReader where
  mImage : Executable
  mPrepared : PreparedData
  _constant : FormatConstants

def _initFormatConstants (format : Format) : FormatConstants :=
  match format with
  | .ELF =>
    { _segment_data := ".data.rel.ro"
      _segment_text := ".text"
      _prefix_vtable := "_ZTV"
      _prefix_typeinfo := "_ZTI"
      _sym_class_info := "_ZTVN10__cxxabiv117__class_type_infoE"
      _sym_si_class_info := "_ZTVN10__cxxabiv120__si_class_type_infoE"
      _sym_vmi_class_info := "_ZTVN10__cxxabiv121__vmi_class_type_infoE" }
  | .MachO =>
    { _segment_data := "__text"
      _segment_text := "__const"
      _prefix_vtable := "_ZTV"
      _prefix_typeinfo := "_ZTI"
      _sym_class_info := "__ZTVN10__cxxabiv117__class_type_infoE"
      _sym_si_class_info := "__ZTVN10__cxxabiv120__si_class_type_infoE"
      _sym_vmi_class_info := "__ZTVN10__cxxabiv121__vmi_class_type_infoE" }

/-- The first loop of `_prepareData`, over `symtab_symbols()`. -/
def prepareSymbols (k : FormatConstants) (symbols : List Symbol) (p : PreparedData) :
    PreparedData :=
  symbols.foldl
    (fun p symbol =>
      if starts_with symbol.name k._prefix_vtable then
        { p with mVTableBegins := emplace p.mVTableBegins symbol.value }
      else if starts_with symbol.name k._prefix_typeinfo then
        { p with mTypeInfoBegins := emplace p.mTypeInfoBegins symbol.value }
      else p)
    p

/-- The second loop of `_prepareData`, over `dynamic_relocations()`; the `return` at a
relocation without symbol ends it. -/
def prepareRelocations (k : FormatConstants) : List Relocation → PreparedData → PreparedData
  | [], p => p
  | relocation :: rest, p =>
    match relocation.symbol with
    | none => p
    | some symbol =>
      let name := symbol.name
      if name = k._sym_class_info ∨ name = k._sym_si_class_info ∨ name = k._sym_vmi_class_info then
        prepareRelocations k rest
          { p with mTypeInfoBegins := emplace p.mTypeInfoBegins relocation.address }
      else prepareRelocations k rest p

/-- The member `_prepareData`, run while `_constant` holds `k`. -/
def _prepareData (mImage : Executable) (k : FormatConstants) : PreparedData :=
  if !mImage.isValid then ⟨[], []⟩
  else
    match mImage.format with
    | .ELF =>
      prepareRelocations k mImage.getImage.dynamic_relocations
        (prepareSymbols k mImage.getImage.symtab_symbols ⟨[], []⟩)
    | .MachO => ⟨[], []⟩

/-- The constructor: `_prepareData()` runs first, then `_initFormatConstants()`.
`k0` is the value that `_constant` has before `_initFormatConstants` assigns it,
which the declaration of the member (in the absent header) decides. -/
def ItaniumVTableReader.new (image : Executable) (k0 : FormatConstants) : ItaniumVTableReader where
  mImage := image
  mPrepared := _prepareData image k0
  _constant := _initFormatConstants image.format

namespace ItaniumVTableReader

def _readZTS (rd : ItaniumVTableReader) (c : Cursor) : Except Fault (String × Cursor) :=
  match Loader.read_intptr rd.mImage c with
  | .error e => .error e
  | .ok (value, c1) =>
    let str := rd.mImage.readCString (toUintptr value) 2048
    .ok (if str = "" then str else rd._constant._prefix_typeinfo ++ str, c1)

def _readZTI (rd : ItaniumVTableReader) (c : Cursor) : Except Fault (String × Cursor) :=
  let backAddr := (Loader.cur c + 8) % 2 ^ 64
  match Loader.read_intptr rd.mImage c with
  | .error e => .error e
  | .ok (value, c1) =>
    if !rd.mImage.isInSection (toUintptr value) rd._constant._segment_data then
      match rd.mImage.lookupSymbol (toUintptr value) with
      | some sym => .ok (sym.name, c1)
      | none => .ok ("", c1)
    else
      let c2 := Loader.move rd.mImage value .Begin c1
      let c3 := Loader.move rd.mImage 8 .Current c2
      match _readZTS rd c3 with
      | .error e => .error e
      | .ok (str, c4) => .ok (str, Loader.move rd.mImage (toIntptr backAddr) .Begin c4)

/-- The call `result.mSubTables[offset].emplace_back(col)`. -/
def pushColumn (m : List (Int × List VTableColumn)) (offset : Int) (col : VTableColumn) :
    List (Int × List VTableColumn) :=
  match m with
  | [] => [(offset, [col])]
  | (k, cols) :: rest =>
    if offset = k then (k, cols ++ [col]) :: rest
    else if offset < k then (offset, [col]) :: (k, cols) :: rest
    else (k, cols) :: pushColumn rest offset col

/-- The locals of `readVTable`.  The field `accepted` is not in the source: it lists,
in order, each secondary header the loop went past, as the offset-to-top word and
the name `_readZTI` gave for the typeinfo pointer after it. -/
structure Locals where
  mTypeName : String
  mSubTables : List (Int × List VTableColumn)
  symbol : Option String
  offset : Int
  type : String
  accepted : List (Int × String)
  deriving DecidableEq, Repr

/-- How one turn of the `while (true)` of `readVTable` ends. -/
inductive Turn where
  | «continue» (l : Locals) (c : Cursor)
  | «break» (l : Locals) (c : Cursor)
  | nullopt (c : Cursor)
  deriving DecidableEq, Repr

/-- The body of the `while (true)` of `readVTable`.  The log call of the branch
`TYPEINFO_MISMATCH` has the argument `symbol.has_value() ? "<unknown>" : *symbol`, which
evaluates `*symbol` when `symbol` holds no value, before the `return std::nullopt`. -/
def readVTableTurn (rd : ItaniumVTableReader) (l : Locals) (c : Cursor) : Except Fault Turn :=
  match Loader.read_intptr rd.mImage c with
  | .error e => .error e
  | .ok (value, c1) =>
    if !rd.mImage.isInSection (toUintptr value) rd._constant._segment_text then
      if value > 0 then .ok (.break l c1)
      else if l.mSubTables.isEmpty then
        if value ≠ 0 then .ok (.nullopt c1)
        else
          match _readZTI rd c1 with
          | .error e => .error e
          | .ok (type, c2) =>
            if type ≠ "" then
              match l.symbol with
              | some _ => .ok (.continue { l with type := type, mTypeName := type } c2)
              | none =>
                match substr type 4 with
                | none => .error .out_of_range
                | some tail =>
                  .ok (.continue
                    { l with
                      type := type
                      symbol := some (rd._constant._prefix_vtable ++ tail)
                      mTypeName := type } c2)
            else .ok (.continue { l with type := type } c2)
      else
        if value = 0 then .ok (.break l c1)
        else
          match _readZTI rd c1 with
          | .error e => .error e
          | .ok (name, c2) =>
            if name ≠ l.type then
              match l.symbol with
              | some _ => .ok (.nullopt c2)
              | none => .error .empty_optional
            else .ok (.continue
              { l with offset := value, accepted := l.accepted ++ [(value, name)] } c2)
    else
      let curSym := rd.mImage.lookupSymbol (toUintptr value)
      .ok (.continue
        { l with
          mSubTables :=
            pushColumn l.mSubTables l.offset ⟨curSym.map (fun s => s.name), toUintptr value⟩ }
        c1)

/-- The `while (true)` of `readVTable`, for at most `fuel` turns: the locals at the
`break`, or `none` when a `return std::nullopt` left the loop. -/
def readVTableLoop (rd : ItaniumVTableReader) :
    Nat → Locals → Cursor → Except Fault (Option Locals × Cursor)
  | 0, _, _ => .error .out_of_fuel
  | fuel + 1, l, c =>
    match readVTableTurn rd l c with
    | .error e => .error e
    | .ok (.continue l1 c1) => readVTableLoop rd fuel l1 c1
    | .ok (.break l1 c1) => .ok (some l1, c1)
    | .ok (.nullopt c1) => .ok (none, c1)

/-- The part of `readVTable` after the check of the symbol at the start address,
returning next to the table the list `accepted` of the secondary headers passed. -/
def readVTableFrom (rd : ItaniumVTableReader) (fuel : Nat) (symbol : Option String)
    (c : Cursor) : Except Fault (Option (VTable × List (Int × String)) × Cursor) :=
  match readVTableLoop rd fuel ⟨"", [], symbol, 0, "", []⟩ c with
  | .error e => .error e
  | .ok (none, c1) => .ok (none, c1)
  | .ok (some l, c1) =>
    match l.symbol with
    | none => .ok (none, c1)
    | some name => .ok (some (⟨name, l.mTypeName, l.mSubTables⟩, l.accepted), c1)

/-- The function `readVTable`, with the list `accepted` next to the table. -/
def readVTableTraced (rd : ItaniumVTableReader) (fuel : Nat) (c : Cursor) :
    Except Fault (Option (VTable × List (Int × String)) × Cursor) :=
  match rd.mImage.lookupSymbol (Loader.cur c) with
  | some symbol_ =>
    if !starts_with symbol_.name rd._constant._prefix_vtable then .ok (none, c)
    else readVTableFrom rd fuel (some symbol_.name) c
  | none => readVTableFrom rd fuel none c

/-- The function `readVTable`. -/
def readVTable (rd : ItaniumVTableReader) (fuel : Nat) (c : Cursor) :
    Except Fault (Option VTable × Cursor) :=
  match readVTableTraced rd fuel c with
  | .error e => .error e
  | .ok (r, c1) => .ok (r.map (fun p => p.1), c1)

/-- The decoding of one flag word of a base class in `readTypeInfo`. -/
def decodeBase (mName : String) (flag : Int) : BaseClassInfo where
  mName := mName
  mOffset := land64 (sar64 flag 8) 0xFF
  mMask := land64 flag 0xFF

/-- The `for` loop of `readTypeInfo` over the base classes, `count` turns of it left:
the list of bases, or `none` at the `return nullptr`. -/
def readBases (rd : ItaniumVTableReader) :
    Nat → List BaseClassInfo → Cursor → Except Fault (Option (List BaseClassInfo) × Cursor)
  | 0, acc, c => .ok (some acc, c)
  | count + 1, acc, c =>
    match _readZTI rd c with
    | .error e => .error e
    | .ok (mName, c1) =>
      if mName = "" then .ok (none, c1)
      else
        match Loader.read rd.mImage 8 c1 with
        | .error e => .error e
        | .ok (flag, c2) => readBases rd count (acc ++ [decodeBase mName (toIntptr flag)]) c2

def readTypeInfo (rd : ItaniumVTableReader) (c : Cursor) :
    Except Fault (Option TypeInfo × Cursor) :=
  let beginAddr := Loader.cur c
  if beginAddr = 0xffffffffffffffff then .error .runtime_error
  else
    match Loader.read_intptr rd.mImage c with
    | .error e => .error e
    | .ok (word, c1) =>
      let inheritIndicatorValue := word - 0x10
      match rd.mImage.lookupSymbol (toUintptr inheritIndicatorValue) with
      | none => .ok (none, c1)
      | some inheritIndicator =>
        let name := inheritIndicator.name
        if name = rd._constant._sym_class_info then
          match _readZTS rd c1 with
          | .error e => .error e
          | .ok (mName, c2) =>
            if mName = "" then .ok (none, c2) else .ok (some (.NoneInherit mName), c2)
        else if name = rd._constant._sym_si_class_info then
          match _readZTS rd c1 with
          | .error e => .error e
          | .ok (mName, c2) =>
            match _readZTI rd c2 with
            | .error e => .error e
            | .ok (mParentType, c3) =>
              if mName = "" ∨ mParentType = "" then .ok (none, c3)
              else .ok (some (.SingleInherit mName mParentType 0x0), c3)
        else if name = rd._constant._sym_vmi_class_info then
          match _readZTS rd c1 with
          | .error e => .error e
          | .ok (mName, c2) =>
            if mName = "" then .ok (none, c2)
            else
              match Loader.read_uint rd.mImage c2 with
              | .error e => .error e
              | .ok (mAttribute, c3) =>
                match Loader.read_uint rd.mImage c3 with
                | .error e => .error e
                | .ok (baseCount, c4) =>
                  match readBases rd baseCount [] c4 with
                  | .error e => .error e
                  | .ok (none, c5) => .ok (none, c5)
                  | .ok (some mBaseClasses, c5) =>
                    .ok (some (.MultipleInherit mName mAttribute mBaseClasses), c5)
        else .ok (none, c1)

/-- The `for` loop of `dumpTypeInfo`; the `catch` of `std::runtime_error` ends it. -/
def dumpTypeInfoLoop (rd : ItaniumVTableReader) :
    List Nat → DumpTypeInfoResult → Cursor → Except Fault (DumpTypeInfoResult × Cursor)
  | [], result, c => .ok (result, c)
  | addr :: rest, result, c =>
    let c1 := Loader.move rd.mImage (toIntptr addr) .Begin c
    match readTypeInfo rd c1 with
    | .error .runtime_error => .ok (result, c1)
    | .error e => .error e
    | .ok (some type, c2) =>
      dumpTypeInfoLoop rd rest
        { result with mTypeInfo := result.mTypeInfo ++ [type], mParsed := result.mParsed + 1 } c2
    | .ok (none, c2) => dumpTypeInfoLoop rd rest result c2

def dumpTypeInfo (rd : ItaniumVTableReader) (c : Cursor) :
    Except Fault (DumpTypeInfoResult × Cursor) :=
  dumpTypeInfoLoop rd rd.mPrepared.mTypeInfoBegins
    ⟨rd.mPrepared.mTypeInfoBegins.length, 0, []⟩ c

/-- The `for` loop of `dumpVFTable` over `mVTableBegins`. -/
def dumpVFTableSymbols (rd : ItaniumVTableReader) (fuel : Nat) :
    List Nat → DumpVFTableResult → Cursor → Except Fault (DumpVFTableResult × Cursor)
  | [], result, c => .ok (result, c)
  | addr :: rest, result, c =>
    let c1 := Loader.move rd.mImage (toIntptr addr) .Begin c
    match readVTable rd fuel c1 with
    | .error e => .error e
    | .ok (some vt, c2) =>
      dumpVFTableSymbols rd fuel rest
        ⟨result.mTotal + 1, result.mParsed + 1, result.mVFTable ++ [vt]⟩ c2
    | .ok (none, c2) =>
      dumpVFTableSymbols rd fuel rest { result with mTotal := result.mTotal + 1 } c2

/-- The `while` loop of `dumpVFTable` over the data section, for at most `fuel` turns. -/
def dumpVFTableScan (rd : ItaniumVTableReader) (fuel : Nat) :
    Nat → DumpVFTableResult → Cursor → Except Fault (DumpVFTableResult × Cursor)
  | 0, _, _ => .error .out_of_fuel
  | turns + 1, result, c =>
    if !rd.mImage.isInSection (Loader.cur c) rd._constant._segment_data then .ok (result, c)
    else
      let backAddr := Loader.cur c
      match Loader.read_intptr rd.mImage c with
      | .error e => .error e
      | .ok (expect1, c1) =>
        match Loader.read_intptr rd.mImage c1 with
        | .error e => .error e
        | .ok (expect2, c2) =>
          match Loader.read_intptr rd.mImage c2 with
          | .error e => .error e
          | .ok (expect3, c3) =>
            let c4 := Loader.move rd.mImage (toIntptr backAddr) .Begin c3
            if expect1 = 0
                ∧ (expect2 = 0 ∨ toUintptr expect2 ∈ rd.mPrepared.mTypeInfoBegins)
                ∧ rd.mImage.isInSection (toUintptr expect3) rd._constant._segment_text = true then
              match readVTable rd fuel c4 with
              | .error e => .error e
              | .ok (some vt, c5) =>
                dumpVFTableScan rd fuel turns
                  { result with
                    mVFTable := result.mVFTable ++ [vt], mParsed := result.mParsed + 1 } c5
              | .ok (none, c5) => dumpVFTableScan rd fuel turns result c5
            else
              dumpVFTableScan rd fuel turns result (Loader.move rd.mImage 8 .Current c4)

/-- The function `dumpVFTable`; `fuel` bounds the turns of each `while` loop. -/
def dumpVFTable (rd : ItaniumVTableReader) (fuel : Nat) (c : Cursor) :
    Except Fault (DumpVFTableResult × Cursor) :=
  if !rd.mPrepared.mVTableBegins.isEmpty then
    dumpVFTableSymbols rd fuel rd.mPrepared.mVTableBegins ⟨0, 0, []⟩ c
  else
    match Loader.moveToSection rd.mImage rd._constant._segment_data c with
    | (false, c1) => .ok (⟨0, 0, []⟩, c1)
    | (true, c1) => dumpVFTableScan rd fuel fuel ⟨0, 0, []⟩ c1

end ItaniumVTableReader

/-! ## Example images -/

/-- The stream bytes of a run of 64-bit words. -/
def words (ws : List Int) : List Nat :=
  (ws.map (fun w => leEncode 8 (toUintptr w))).flatten

/-- The value of `_constant` before `_initFormatConstants` when the strings are
default-constructed. -/
def emptyConstants : FormatConstants := ⟨"", "", "", "", "", "", ""⟩

/-- The stream bytes of a NUL-terminated string, padded with NUL to `n` bytes. -/
def cstring (s : String) (n : Nat) : List Nat :=
  let bytes := s.data.map Char.toNat
  bytes ++ List.replicate (n - bytes.length) 0

/-- The dynamic symbols of the example image: the null symbol and the three RTTI
classes of the C++ runtime, all undefined (value 0). -/
def exampleDynamicSymbols : List Symbol :=
  [⟨"", 0⟩,
   ⟨"_ZTVN10__cxxabiv117__class_type_infoE", 0⟩,
   ⟨"_ZTVN10__cxxabiv120__si_class_type_infoE", 0⟩,
   ⟨"_ZTVN10__cxxabiv121__vmi_class_type_infoE", 0⟩]

/-- The dynamic relocations of the example image that refer to the RTTI classes: the
first words of the three typeinfo records (with the addend 16 that leads past the
header of the vtable of the class) and the two pointers to the symbol itself. -/
def exampleRelocations : List Relocation :=
  [⟨128, .X86_64_64, 16, some ⟨"_ZTVN10__cxxabiv117__class_type_infoE", 0⟩⟩,
   ⟨248, .X86_64_64, 16, some ⟨"_ZTVN10__cxxabiv120__si_class_type_infoE", 0⟩⟩,
   ⟨280, .X86_64_64, 16, some ⟨"_ZTVN10__cxxabiv121__vmi_class_type_infoE", 0⟩⟩,
   ⟨320, .X86_64_64, 0, some ⟨"_ZTVN10__cxxabiv117__class_type_infoE", 0⟩⟩,
   ⟨352, .X86_64_64, 0, some ⟨"_ZTVN10__cxxabiv117__class_type_infoE", 0⟩⟩]

/-- An ELF image of 512 bytes mapped at address 0: `.data.rel.ro` is `[64, 416)`,
`.text` is `[432, 448)`, so the end of sections is 448 and the dynamic symbols have
the sentinel addresses 448, 456, 464, 472. -/
def exampleBinary : Binary where
  sections := [⟨".data.rel.ro", 64, 352⟩, ⟨".text", 432, 16⟩]
  segments := [⟨true, 0, 512, 0⟩]
  symtab_symbols :=
    [⟨"_ZTV1A", 64⟩, ⟨"_ZTV1B", 152⟩, ⟨"_ZTV1C", 176⟩, ⟨"_ZTV1D", 344⟩,
     ⟨"_ZN1A1fEv", 432⟩, ⟨"_ZN1A1gEv", 440⟩]
  dynamic_symbols := exampleDynamicSymbols
  dynamic_relocations := exampleRelocations
  has_symtab := true
  has_dynsym := true
  dynsym_idx := fun symbol => (exampleDynamicSymbols.indexOf symbol : Nat)

/-- The stream of the example image after relocation.
* 64: a table with a primary and a secondary subtable, both with typeinfo 128;
* 128: a `__class_type_info` record named by the string `1A` at 144;
* 152: a primary header with typeinfo 128 followed by the word 5;
* 176: two primary headers (typeinfo 128, then a pointer 500 that resolves to
  nothing), a slot, and a secondary header whose typeinfo pointer is 500 as well;
* 248: a `__si_class_type_info` record named `1B` (string at 272) with parent 128;
* 280: a `__vmi_class_type_info` record named `1C` (string at 336), attribute 0, with
  two bases: typeinfo 128 with flags `0x102`, and the symbol at 456 with flags `-1`;
* 344: a primary header whose typeinfo pointer is the sentinel address 456;
* 376: a table with one slot and typeinfo 128, at an address without symbol. -/
def exampleBytes : List Nat :=
  List.replicate 64 0
    ++ words [0, 128, 432, 440, -16, 128, 440, 0]
    ++ words [472, 144] ++ cstring "1A" 8
    ++ words [0, 128, 5]
    ++ words [0, 128, 0, 500, 432, -16, 500, 440, 0]
    ++ words [480, 272, 128] ++ cstring "1B" 8
    ++ words [488, 336] ++ leEncode 4 0 ++ leEncode 4 2 ++ words [128, 0x102, 456, -1]
    ++ cstring "1C" 8
    ++ words [0, 456, 432, 0]
    ++ words [0, 128, 432, 0]
    ++ List.replicate 104 0

/-- A reader on the example image, with the start addresses of its tables and of its
typeinfo records as the discovered sets. -/
def exampleReader : ItaniumVTableReader where
  mImage := ELF.view exampleBinary exampleBytes
  mPrepared := ⟨[64, 152, 176, 344], [128, 248, 280]⟩
  _constant := _initFormatConstants .ELF

/-- The table at 64 of the example image. -/
def tableA : VTable :=
  ⟨"_ZTV1A", "_ZTI1A",
    [(-16, [⟨some "_ZN1A1gEv", 440⟩]),
     (0, [⟨some "_ZN1A1fEv", 432⟩, ⟨some "_ZN1A1gEv", 440⟩])]⟩

/-- What `readVTable` makes of the words at 152 of the example image. -/
def tableB : VTable := ⟨"_ZTV1B", "_ZTI1A", []⟩

/-- What `readVTable` makes of the words at 176 of the example image. -/
def tableC : VTable :=
  ⟨"_ZTV1C", "_ZTI1A",
    [(-16, [⟨some "_ZN1A1gEv", 440⟩]), (0, [⟨some "_ZN1A1fEv", 432⟩])]⟩

/-- What `readVTable` makes of the words at 344 of the example image. -/
def tableD : VTable :=
  ⟨"_ZTV1D", "_ZTVN10__cxxabiv117__class_type_infoE", [(0, [⟨some "_ZN1A1fEv", 432⟩])]⟩

/-- The table at 376 of the example image, named after its typeinfo. -/
def tableE : VTable := ⟨"_ZTV1A", "_ZTI1A", [(0, [⟨some "_ZN1A1fEv", 432⟩])]⟩

/-- The record at 128 of the example image. -/
def typeInfoA : TypeInfo := .NoneInherit "_ZTI1A"

/-- The record at 248 of the example image. -/
def typeInfoB : TypeInfo := .SingleInherit "_ZTI1B" "_ZTI1A" 0

/-- The record at 280 of the example image. -/
def typeInfoC : TypeInfo :=
  .MultipleInherit "_ZTI1C" 0
    [⟨"_ZTI1A", 1, 2⟩, ⟨"_ZTVN10__cxxabiv117__class_type_infoE", 255, 255⟩]

/-- The dynamic symbols of the image `tailBinary`. -/
def tailDynamicSymbols : List Symbol :=
  [⟨"", 0⟩,
   ⟨"_ZTVN10__cxxabiv117__class_type_infoE", 0⟩,
   ⟨"_ZTVN10__cxxabiv120__si_class_type_infoE", 0⟩,
   ⟨"_ZTVN10__cxxabiv121__vmi_class_type_infoE", 0⟩,
   ⟨"_ZTI1A", 0⟩]

/-- An image of 80 bytes mapped at address 8 (the file offset of an address is the
address minus 8): `.data.rel.ro` is `[8, 88)`, `.text` is `[96, 112)`, the dynamic
symbols have the sentinel addresses 112, 120, 128, 136 and 144.  Two dynamic relocations
bind the first word of the record at 64 to `__si_class_type_info` and its third word to
the external symbol `_ZTI1A`. -/
def tailBinary : Binary where
  sections := [⟨".data.rel.ro", 8, 80⟩, ⟨".text", 96, 16⟩]
  segments := [⟨true, 8, 80, 0⟩]
  symtab_symbols := []
  dynamic_symbols := tailDynamicSymbols
  dynamic_relocations :=
    [⟨64, .X86_64_64, 16, some ⟨"_ZTVN10__cxxabiv120__si_class_type_infoE", 0⟩⟩,
     ⟨80, .X86_64_64, 0, some ⟨"_ZTI1A", 0⟩⟩]
  has_symtab := false
  has_dynsym := true
  dynsym_idx := fun symbol => (tailDynamicSymbols.indexOf symbol : Nat)

/-- The stream of the image: the string `1B` at address 16, and in the last 24 bytes,
at address 64, a `__si_class_type_info` record with the name pointer 16 and the parent
pointer 144, the sentinel address of the external symbol `_ZTI1A`. -/
def tailBytes : List Nat :=
  List.replicate 8 0 ++ cstring "1B" 8 ++ List.replicate 40 0 ++ words [144, 16, 144]

/-- A reader on that image whose only known typeinfo record is the one at 64. -/
def tailReader : ItaniumVTableReader where
  mImage := ELF.view tailBinary tailBytes
  mPrepared := ⟨[], [64]⟩
  _constant := _initFormatConstants .ELF

/-- The dynamic symbols of the image `strippedBinary`. -/
def strippedDynamicSymbols : List Symbol := exampleDynamicSymbols ++ [⟨"_ZTV1A", 64⟩]

/-- The example image without its static symbol table, and with the table at 64
exported as the dynamic symbol `_ZTV1A`. -/
def strippedBinary : Binary where
  sections := exampleBinary.sections
  segments := exampleBinary.segments
  symtab_symbols := []
  dynamic_symbols := strippedDynamicSymbols
  dynamic_relocations := exampleRelocations
  has_symtab := false
  has_dynsym := true
  dynsym_idx := fun symbol => (strippedDynamicSymbols.indexOf symbol : Nat)

/-- The dynamic relocations of the image `secondBinary`: the pointers to the RTTI
classes at 128 and 248, a relative relocation with the null symbol at 72, a relative
relocation without symbol at 80, the pointer to the RTTI class at 280, and a relative
relocation at 416, the end of `.data.rel.ro`. -/
def secondRelocations : List Relocation :=
  [⟨128, .X86_64_64, 16, some ⟨"_ZTVN10__cxxabiv117__class_type_infoE", 0⟩⟩,
   ⟨248, .X86_64_64, 16, some ⟨"_ZTVN10__cxxabiv120__si_class_type_infoE", 0⟩⟩,
   ⟨72, .X86_64_RELATIVE, 128, some ⟨"", 0⟩⟩,
   ⟨80, .X86_64_RELATIVE, 432, none⟩,
   ⟨280, .X86_64_64, 16, some ⟨"_ZTVN10__cxxabiv121__vmi_class_type_infoE", 0⟩⟩,
   ⟨416, .X86_64_RELATIVE, 4660, some ⟨"", 0⟩⟩]

/-- The example image with more static symbols (two typeinfo symbols and vtable
symbols at 168, where the word 5 stands, at 360, where a function pointer stands, and
at 376) and the relocations above. -/
def secondBinary : Binary where
  sections := exampleBinary.sections
  segments := exampleBinary.segments
  symtab_symbols :=
    exampleBinary.symtab_symbols
      ++ [⟨"_ZTI1A", 128⟩, ⟨"_ZTI1C", 280⟩, ⟨"_ZTV1V", 168⟩, ⟨"_ZTV1W", 360⟩,
        ⟨"_ZTV1E", 376⟩]
  dynamic_symbols := exampleDynamicSymbols
  dynamic_relocations := secondRelocations
  has_symtab := true
  has_dynsym := true
  dynsym_idx := fun symbol => (exampleDynamicSymbols.indexOf symbol : Nat)

/-- The bytes of the file of `secondBinary`: those of the example image with the two
words at 72 and 80 still zero, as they are before relocation. -/
def secondFile : List Nat :=
  exampleBytes.take 72 ++ List.replicate 16 0 ++ exampleBytes.drop 88

/-- A reader on the image `secondBinary` with the stream of the example image. -/
def secondReader : ItaniumVTableReader where
  mImage := ELF.view secondBinary exampleBytes
  mPrepared := ⟨[64, 152, 176, 344, 168, 360, 376], [128, 280, 248]⟩
  _constant := _initFormatConstants .ELF

/-- A reader on the stripped example image: no table start is known, the typeinfo
records are. -/
def strippedReader : ItaniumVTableReader where
  mImage := ELF.view strippedBinary exampleBytes
  mPrepared := ⟨[], [128, 248, 280]⟩
  _constant := _initFormatConstants .ELF

/-- The stream of the example image with the second base pointer of the record at 280
replaced by 500, an address at which no symbol is found. -/
def emptyBaseBytes : List Nat :=
  exampleBytes.take 320 ++ words [500] ++ exampleBytes.drop 328

/-- A reader on the example image with that stream. -/
def emptyBaseReader : ItaniumVTableReader where
  mImage := ELF.view exampleBinary emptyBaseBytes
  mPrepared := ⟨[64, 152, 176, 344], [128, 248, 280]⟩
  _constant := _initFormatConstants .ELF

/-- A reader on the example image whose second typeinfo start address, 600, lies past
the end of the stream. -/
def brokenReader : ItaniumVTableReader where
  mImage := ELF.view exampleBinary exampleBytes
  mPrepared := ⟨[64, 152, 176, 344], [128, 600, 248]⟩
  _constant := _initFormatConstants .ELF

/-- A Mach-O image of 256 bytes mapped at address 0, with the sections `__text`,
`[64, 128)`, and `__const`, `[128, 192)`, and a symbol at 64 and at 128. -/
def machoBinary : MachO.Binary where
  sections := [⟨"__text", 64, 64⟩, ⟨"__const", 128, 64⟩]
  segments := [⟨0, 256, 0⟩]
  symbols := [⟨"__ZTV1A", 64⟩, ⟨"__ZN1A1fEv", 128⟩]

/-- The stream of that image: at 64 the words 0, 0 and 128, zero bytes elsewhere. -/
def machoBytes : List Nat :=
  List.replicate 64 0 ++ words [0, 0, 128] ++ List.replicate 168 0

/-- The reader that the constructor makes for that image: `_prepareData` leaves both
sets empty for a Mach-O image. -/
def machoReader : ItaniumVTableReader where
  mImage := MachO.view machoBinary machoBytes
  mPrepared := ⟨[], []⟩
  _constant := _initFormatConstants .MachO

/-- The stream of the example image with the words at 200, 208 and 216 replaced by 248,
432 and 0: at 176 stand two primary headers, with the typeinfo pointers 128 and 248,
one function slot and a zero word. -/
def doubleHeaderBytes : List Nat :=
  exampleBytes.take 200 ++ words [248, 432, 0] ++ exampleBytes.drop 224

/-- A reader on the stripped example image with that stream. -/
def doubleHeaderReader : ItaniumVTableReader where
  mImage := ELF.view strippedBinary doubleHeaderBytes
  mPrepared := ⟨[], [128, 248, 280]⟩
  _constant := _initFormatConstants .ELF

/-! ## Notions used in the statements -/

/-- The keys of a subtable map. -/
def keys (m : List (Int × List VTableColumn)) : List Int := m.map Prod.fst

/-- The columns of all subtables of a map. -/
def columns (m : List (Int × List VTableColumn)) : List VTableColumn :=
  (m.map Prod.snd).flatten

instance instDecidableEqExcept {ε α : Type} [DecidableEq ε] [DecidableEq α] :
    DecidableEq (Except ε α)
  | .ok a, .ok b =>
    if h : a = b then isTrue (by rw [h]) else isFalse (by intro h2; cases h2; exact h rfl)
  | .error a, .error b =>
    if h : a = b then isTrue (by rw [h]) else isFalse (by intro h2; cases h2; exact h rfl)
  | .ok _, .error _ => isFalse (by intro h; cases h)
  | .error _, .ok _ => isFalse (by intro h; cases h)

/-- Two cursors that no function of the reader tells apart: the same cursor, or two
cursors of a failed stream. -/
def Cursor.same (c d : Cursor) : Prop := c = d ∨ (c.failed = true ∧ d.failed = true)

/-- Two cursors at the entry of a dump: both of a good stream, or not told apart. -/
def Cursor.alike (c d : Cursor) : Prop :=
  (c.failed = false ∧ d.failed = false) ∨ Cursor.same c d

/-- Two runs that end alike: with the same fault, or with the same value and cursors
related by `rel`. -/
def agree {α : Type} (rel : Cursor → Cursor → Prop) (x y : Except Fault (α × Cursor)) : Prop :=
  match x, y with
  | .ok (a, c), .ok (b, d) => a = b ∧ rel c d
  | .error e, .error f => e = f
  | _, _ => False

namespace ItaniumVTableReader

/-- The invariant of the loop of `readVTable` behind the shape of the keys. -/
def KeysInv (l : Locals) : Prop :=
  (∀ k ∈ keys l.mSubTables, k ≤ 0) ∧ (l.mSubTables ≠ [] → (0 : Int) ∈ keys l.mSubTables) ∧
    l.offset ≤ 0 ∧ (l.mSubTables = [] → l.offset = 0)

/-- The invariant of the loop of `readVTable` behind the agreement of the typeinfo
names: the name compared at secondary headers is the type name of the table or
empty, every secondary header passed so far was followed by that name, and none was
passed before the first function slot. -/
def TypeInv (l : Locals) : Prop :=
  (l.type = l.mTypeName ∨ l.type = "") ∧ (∀ p ∈ l.accepted, p.1 < 0 ∧ p.2 = l.type) ∧
    (l.accepted ≠ [] → l.mSubTables ≠ [])

/-- The invariant of the loop of `readVTable` behind the shape of the name: a name
found at the start address is kept, and a name made up by the loop is the vtable
prefix followed by something. -/
def NameInv (rd : ItaniumVTableReader) (symbol : Option String) (l : Locals) : Prop :=
  (∀ s, symbol = some s → l.symbol = some s) ∧
    (symbol = none → ∀ s, l.symbol = some s → ∃ tail, s = rd._constant._prefix_vtable ++ tail)

/-- The two kinds of non-empty name that `_readZTI` gives: a name that starts with the
typeinfo prefix (the pointer lies in the data section and the name is read through
`_readZTS`), or the plain name of the symbol found at a pointer outside the data
section. -/
def ReadZTIName (rd : ItaniumVTableReader) (s : String) : Prop :=
  starts_with s rd._constant._prefix_typeinfo = true ∨
    ∃ addr sym, rd.mImage.isInSection addr rd._constant._segment_data = false ∧
      rd.mImage.lookupSymbol addr = some sym ∧ s = sym.name

/-- The list of bases that the record holds between two cursors: each entry is decoded
from one pair of a typeinfo pointer, read by `_readZTI` to a non-empty name, and the
64-bit flag word after it, the pairs following each other from `c` to `c'`. -/
def basesFrom (rd : ItaniumVTableReader) : List BaseClassInfo → Cursor → Cursor → Prop
  | [], c, c' => c = c'
  | b :: rest, c, c' =>
    ∃ mName c1 flag c2, _readZTI rd c = .ok (mName, c1) ∧ mName ≠ "" ∧
      Loader.read rd.mImage 8 c1 = .ok (flag, c2) ∧ b = decodeBase mName (toIntptr flag) ∧
      basesFrom rd rest c2 c'

end ItaniumVTableReader

/-- The eight bytes of a stream from the offset `o` on. -/
def slot (bytes : List Nat) (o : Nat) : List Nat := (bytes.drop o).take 8

/-- The stream after the loop of `_relocateReadonlyData` has run over the relocations
`rs` only. -/
def ELF.relocateUpTo (b : Binary) (rs : List Relocation) (st : List Nat × Cursor) :
    List Nat × Cursor :=
  match b.get_section ".data.rel.ro" with
  | none => st
  | some roData =>
    rs.foldl
      (ELF.relocateOne b roData.virtual_address
        ((roData.virtual_address + roData.size) % 2 ^ 64) (ELF.getEndOfSections b)
        (ELF.getGapInFront b roData.virtual_address))
      st

namespace ItaniumVTableReader

/-- The records that `readTypeInfo` returns for the start addresses of a list, visited
in order from the cursor `c` as the loop of `dumpTypeInfo` does, none of the calls
throwing; `c'` is the cursor after the last of them. -/
def recordsFrom (rd : ItaniumVTableReader) : List Nat → Cursor → List TypeInfo → Cursor → Prop
  | [], c, ts, c' => ts = [] ∧ c = c'
  | addr :: rest, c, ts, c' =>
    ∃ t c2 ts', readTypeInfo rd (Loader.move rd.mImage (toIntptr addr) .Begin c) = .ok (t, c2) ∧
      ts = t.toList ++ ts' ∧ recordsFrom rd rest c2 ts' c'

/-- The words that `read<intptr_t>()` yields one after the other from the cursor `c`,
`c'` being the cursor after the last of them. -/
def wordsFrom (img : Executable) : List Int → Cursor → Cursor → Prop
  | [], c, c' => c = c'
  | w :: ws, c, c' => ∃ c1, Loader.read_intptr img c = .ok (w, c1) ∧ wordsFrom img ws c1 c'

/-- The column that `readVTable` makes of a function slot. -/
def column (rd : ItaniumVTableReader) (f : Int) : VTableColumn :=
  ⟨(rd.mImage.lookupSymbol (toUintptr f)).map (fun s => s.name), toUintptr f⟩

end ItaniumVTableReader

/-- The entry that the spec describes for the name of a base and its 64-bit flag word:
the mask is bits 7..0 of the word, the offset is bits 15..8, the higher bits are
dropped. -/
def bitsOfFlag (mName : String) (flag : Nat) : BaseClassInfo :=
  ⟨mName, ((flag % 2 ^ 64 / 256 % 256 : Nat) : Int), ((flag % 2 ^ 64 % 256 : Nat) : Int)⟩

namespace ItaniumVTableReader

/-- The pairs of a base name and a flag word that the image holds between two cursors:
for each pair `_readZTI` decodes the typeinfo pointer at the cursor to the name, which
is not empty, and the 64-bit word after it is the flag word; the pairs follow each
other from `c` to `c'`. -/
def flagsFrom (rd : ItaniumVTableReader) : List (String × Nat) → Cursor → Cursor → Prop
  | [], c, c' => c = c'
  | e :: rest, c, c' =>
    ∃ c1 c2, _readZTI rd c = .ok (e.1, c1) ∧ e.1 ≠ "" ∧
      Loader.read rd.mImage 8 c1 = .ok (e.2, c2) ∧ flagsFrom rd rest c2 c'

end ItaniumVTableReader

/-! ## Properties of `readVTable` -/

namespace ItaniumVTableReader

/-- What a turn of the loop that goes on to the next turn has done. -/
theorem readVTableTurn_continue {rd : ItaniumVTableReader} {l l' : Locals} {c c' : Cursor}
    (h : readVTableTurn rd l c = .ok (.continue l' c')) :
    ∃ value c1, Loader.read_intptr rd.mImage c = .ok (value, c1) ∧
      ((rd.mImage.isInSection (toUintptr value) rd._constant._segment_text = true ∧ c' = c1 ∧
          l' = { l with mSubTables := pushColumn l.mSubTables l.offset (VTableColumn.mk
                  ((rd.mImage.lookupSymbol (toUintptr value)).map (fun s => s.name))
                    (toUintptr value)) }) ∨
       (rd.mImage.isInSection (toUintptr value) rd._constant._segment_text = false ∧
          value = 0 ∧ l.mSubTables = [] ∧
          ∃ type, _readZTI rd c1 = .ok (type, c') ∧
            l'.mSubTables = l.mSubTables ∧ l'.offset = l.offset ∧ l'.accepted = l.accepted ∧
            l'.type = type ∧
            ((type ≠ "" ∧ l'.mTypeName = type ∧
                ((∃ s, l.symbol = some s ∧ l'.symbol = some s) ∨
                 (l.symbol = none ∧ ∃ tail, substr type 4 = some tail ∧
                    l'.symbol = some (rd._constant._prefix_vtable ++ tail)))) ∨
             (type = "" ∧ l'.mTypeName = l.mTypeName ∧ l'.symbol = l.symbol))) ∨
       (rd.mImage.isInSection (toUintptr value) rd._constant._segment_text = false ∧
          value < 0 ∧ l.mSubTables ≠ [] ∧ _readZTI rd c1 = .ok (l.type, c') ∧
          l' = { l with offset := value, accepted := l.accepted ++ [(value, l.type)] })) := by
  unfold readVTableTurn at h
  split at h
  · cases h
  · rename_i value c1 hread
    refine ⟨value, c1, hread, ?_⟩
    split at h
    · rename_i hsec
      have hsec' : rd.mImage.isInSection (toUintptr value) rd._constant._segment_text = false := by
        simpa using hsec
      split at h
      · cases h
      · rename_i hpos
        split at h
        · rename_i hempty
          have hnil : l.mSubTables = [] := by simpa using hempty
          split at h
          · cases h
          · rename_i hz
            have hz' : value = 0 := by simpa using hz
            right; left
            refine ⟨hsec', hz', hnil, ?_⟩
            split at h
            · cases h
            · rename_i type c2 hzti
              refine ⟨type, ?_⟩
              split at h
              · rename_i hne
                split at h
                · rename_i s hs
                  injection h with h; injection h with h1 h2
                  subst h1; subst h2
                  exact ⟨hzti, rfl, rfl, rfl, rfl, Or.inl ⟨hne, rfl, Or.inl ⟨s, hs, hs⟩⟩⟩
                · rename_i hs
                  split at h
                  · cases h
                  · rename_i tail htail
                    injection h with h; injection h with h1 h2
                    subst h1; subst h2
                    exact ⟨hzti, rfl, rfl, rfl, rfl,
                      Or.inl ⟨hne, rfl, Or.inr ⟨hs, tail, htail, rfl⟩⟩⟩
              · rename_i he
                have he' : type = "" := by simpa using he
                injection h with h; injection h with h1 h2
                subst h1; subst h2
                exact ⟨hzti, rfl, rfl, rfl, rfl, Or.inr ⟨he', rfl, rfl⟩⟩
        · rename_i hne
          have hne' : l.mSubTables ≠ [] := by simpa using hne
          split at h
          · cases h
          · rename_i hz
            split at h
            · cases h
            · rename_i name c2 hzti
              split at h
              · split at h <;> cases h
              · rename_i hnm
                have hnm' : name = l.type := by simpa using hnm
                injection h with h; injection h with h1 h2
                subst h1; subst h2; subst hnm'
                right; right
                exact ⟨hsec', by omega, hne', hzti, rfl⟩
    · rename_i hsec
      have hsec' : rd.mImage.isInSection (toUintptr value) rd._constant._segment_text = true := by
        simpa using hsec
      injection h with h; injection h with h1 h2
      subst h1; subst h2
      left
      exact ⟨hsec', rfl, rfl⟩

/-- A turn that leaves the loop by `break` leaves the locals as they were. -/
theorem readVTableTurn_break {rd : ItaniumVTableReader} {l l' : Locals} {c c' : Cursor}
    (h : readVTableTurn rd l c = .ok (.break l' c')) : l' = l := by
  unfold readVTableTurn at h
  repeat' split at h
  all_goals first
    | (cases h; done)
    | (cases h; rfl)

/-- A property of the locals that every turn keeps holds when the loop is left. -/
theorem readVTableLoop_invariant {rd : ItaniumVTableReader} (P : Locals → Prop)
    (hstep : ∀ l c l' c', P l → readVTableTurn rd l c = .ok (.continue l' c') → P l') :
    ∀ (fuel : Nat) (l : Locals) (c : Cursor) (l' : Locals) (c' : Cursor),
      P l → readVTableLoop rd fuel l c = .ok (some l', c') → P l' := by
  intro fuel
  induction fuel with
  | zero => intro l c l' c' _ h; simp [readVTableLoop] at h
  | succ n ih =>
    intro l c l' c' hP h
    unfold readVTableLoop at h
    split at h
    · cases h
    · rename_i l1 c1 hturn
      exact ih l1 c1 l' c' (hstep l c l1 c1 hP hturn) h
    · rename_i l1 c1 hturn
      injection h with h; injection h with h1 h2; injection h1 with h1
      subst h1
      rw [readVTableTurn_break hturn]; exact hP
    · cases h

/-- A table returned by `readVTable` is made of the locals with which the loop was
left; the loop was entered with empty locals and the name of the symbol at the
start address, if there is one, which then begins with the vtable prefix. -/
theorem readVTableTraced_some {rd : ItaniumVTableReader} {fuel : Nat} {c c' : Cursor}
    {v : VTable} {acc : List (Int × String)}
    (h : readVTableTraced rd fuel c = .ok (some (v, acc), c')) :
    ∃ (symbol : Option String) (l : Locals),
      readVTableLoop rd fuel ⟨"", [], symbol, 0, "", []⟩ c = .ok (some l, c') ∧
      (symbol = (rd.mImage.lookupSymbol (Loader.cur c)).map (fun s => s.name) ∧
        ∀ s, symbol = some s → starts_with s rd._constant._prefix_vtable = true) ∧
      l.symbol = some v.mName ∧ v.mTypeName = l.mTypeName ∧ v.mSubTables = l.mSubTables ∧
      acc = l.accepted := by
  have key : ∀ symbol, readVTableFrom rd fuel symbol c = .ok (some (v, acc), c') →
      ∃ l : Locals, readVTableLoop rd fuel ⟨"", [], symbol, 0, "", []⟩ c = .ok (some l, c') ∧
        l.symbol = some v.mName ∧ v.mTypeName = l.mTypeName ∧ v.mSubTables = l.mSubTables ∧
        acc = l.accepted := by
    intro symbol hf
    unfold readVTableFrom at hf
    split at hf
    · cases hf
    · cases hf
    · rename_i l c1 hloop
      split at hf
      · cases hf
      · rename_i name hname
        injection hf with hf; injection hf with h1 h2; injection h1 with h1
        injection h1 with h1 h3
        subst h1; subst h2; subst h3
        exact ⟨l, hloop, hname, rfl, rfl, rfl⟩
  unfold readVTableTraced at h
  split at h
  · rename_i symbol_ hlook
    split at h
    · cases h
    · rename_i hpre
      obtain ⟨l, h1, h2⟩ := key _ h
      refine ⟨some symbol_.name, l, h1, ⟨by rw [hlook]; rfl, ?_⟩, h2⟩
      intro s hs
      injection hs with hs
      subst hs
      simpa using hpre
  · rename_i hlook
    obtain ⟨l, h1, h2⟩ := key _ h
    exact ⟨none, l, h1, ⟨by rw [hlook]; rfl, fun s hs => (by cases hs)⟩, h2⟩

/-- What `readVTable` returns is what `readVTableTraced` returns, without the list. -/
theorem readVTable_some {rd : ItaniumVTableReader} {fuel : Nat} {c c' : Cursor} {v : VTable}
    (h : readVTable rd fuel c = .ok (some v, c')) :
    ∃ acc, readVTableTraced rd fuel c = .ok (some (v, acc), c') := by
  unfold readVTable at h
  split at h
  · cases h
  · rename_i r c1 htr
    injection h with h; injection h with h1 h2
    subst h2
    cases r with
    | none => cases h1
    | some p =>
      obtain ⟨v1, acc⟩ := p
      simp only [Option.map] at h1
      injection h1 with h1
      subst h1
      exact ⟨acc, htr⟩

theorem mem_keys_pushColumn (m : List (Int × List VTableColumn)) (o : Int) (col : VTableColumn)
    (k : Int) : k ∈ keys (pushColumn m o col) ↔ k = o ∨ k ∈ keys m := by
  induction m with
  | nil => simp [pushColumn, keys]
  | cons p rest ih =>
    obtain ⟨k1, cols⟩ := p
    unfold pushColumn
    split
    · rename_i h
      subst h
      simp [keys]
    · split
      · simp [keys]
      · have ih' := ih
        simp only [keys] at ih' ⊢
        simp only [List.map_cons, List.mem_cons, ih']
        tauto

theorem pushColumn_ne_nil (m : List (Int × List VTableColumn)) (o : Int) (col : VTableColumn) :
    pushColumn m o col ≠ [] := by
  cases m with
  | nil => simp [pushColumn]
  | cons p rest =>
    obtain ⟨k1, cols⟩ := p
    unfold pushColumn
    split
    · simp
    · split <;> simp

theorem keysInv_turn {rd : ItaniumVTableReader} (l : Locals) (c : Cursor) (l' : Locals)
    (c' : Cursor) (hP : KeysInv l) (h : readVTableTurn rd l c = .ok (.continue l' c')) :
    KeysInv l' := by
  obtain ⟨h1, h2, h3, h4⟩ := hP
  obtain ⟨value, c1, _, hcase⟩ := readVTableTurn_continue h
  rcases hcase with ⟨_, _, hl⟩ | ⟨_, _, hnil, type, _, hs, ho, _, _, _⟩ | ⟨_, hneg, hne, _, hl⟩
  · subst hl
    refine ⟨?_, ?_, h3, ?_⟩
    · intro k hk
      rcases (mem_keys_pushColumn _ _ _ k).1 hk with hk | hk
      · rw [hk]; exact h3
      · exact h1 k hk
    · intro _
      by_cases hm : l.mSubTables = []
      · exact (mem_keys_pushColumn _ _ _ 0).2 (Or.inl (h4 hm).symm)
      · exact (mem_keys_pushColumn _ _ _ 0).2 (Or.inr (h2 hm))
    · intro hnil
      exact absurd hnil (pushColumn_ne_nil _ _ _)
  · refine ⟨?_, ?_, ?_, ?_⟩
    · rw [hs]; exact h1
    · rw [hs]; exact h2
    · rw [ho]; exact h3
    · rw [hs, ho]; exact h4
  · subst hl
    exact ⟨h1, h2, by simp only; omega, fun hnil => absurd hnil hne⟩

/-- C1 (amended): in every table that `readVTable` returns, each key of the subtable map
is `0` or strictly negative, and the key `0` is present as soon as the map has any
entry at all. -/
theorem readVTable_subtable_keys (rd : ItaniumVTableReader) (fuel : Nat) (c c' : Cursor)
    (v : VTable) (h : readVTable rd fuel c = .ok (some v, c')) :
    (∀ k ∈ keys v.mSubTables, k = 0 ∨ k < 0) ∧
      (v.mSubTables ≠ [] → (0 : Int) ∈ keys v.mSubTables) := by
  obtain ⟨acc, htr⟩ := readVTable_some h
  obtain ⟨symbol, l, hloop, _, _, _, hsub, _⟩ := readVTableTraced_some htr
  have hinit : KeysInv ⟨"", [], symbol, 0, "", []⟩ :=
    ⟨by intro k hk; simp [keys] at hk, by intro hne; exact absurd rfl hne, le_refl _,
      fun _ => rfl⟩
  obtain ⟨h1, h2, _, _⟩ :=
    readVTableLoop_invariant KeysInv keysInv_turn fuel _ c l c' hinit hloop
  rw [hsub]
  refine ⟨?_, h2⟩
  intro k hk
  have := h1 k hk
  omega

set_option maxRecDepth 100000 in
/-- Witness of C1 (amended): the table at 64 of the example image. -/
theorem readVTable_subtable_keys_witness :
    readVTable exampleReader 16 ⟨64, false⟩ = .ok (some tableA, ⟨128, false⟩) ∧
      ((∀ k ∈ keys tableA.mSubTables, k = 0 ∨ k < 0) ∧
        (tableA.mSubTables ≠ [] → (0 : Int) ∈ keys tableA.mSubTables)) :=
  ⟨by decide, readVTable_subtable_keys exampleReader 16 ⟨64, false⟩ ⟨128, false⟩ tableA (by decide)⟩

set_option maxRecDepth 100000 in
/-- C1 fails as stated: at 152 of the example image stand a zero word, a typeinfo
pointer that resolves to `_ZTI1A` and the word 5, which is positive and outside the
text section; `readVTable` returns a table whose subtable map is empty, so the key
`0` is missing. -/
theorem readVTable_without_key_zero :
    readVTable exampleReader 16 ⟨152, false⟩ = .ok (some tableB, ⟨176, false⟩) ∧
      (0 : Int) ∉ keys tableB.mSubTables :=
  ⟨by decide, by decide⟩

theorem mem_columns_pushColumn (m : List (Int × List VTableColumn)) (o : Int)
    (col x : VTableColumn) : x ∈ columns (pushColumn m o col) ↔ x = col ∨ x ∈ columns m := by
  induction m with
  | nil => simp [pushColumn, columns]
  | cons p rest ih =>
    obtain ⟨k1, cols⟩ := p
    unfold pushColumn
    split
    · simp [columns]; tauto
    · split
      · simp [columns]
      · have ih' := ih
        simp only [columns] at ih' ⊢
        simp only [List.map_cons, List.flatten_cons, List.mem_append, ih']
        tauto

/-- The function `ELF::isInSection` holds of an address exactly when the section of
that name exists and the address is in its half-open range. -/
theorem ELF_isInSection_iff (b : Binary) (pAddr : Nat) (pSecName : String) :
    ELF.isInSection b pAddr pSecName = true ↔
      ∃ sec, b.get_section pSecName = some sec ∧ sec.virtual_address ≤ pAddr ∧
        pAddr < (sec.virtual_address + sec.size) % 2 ^ 64 := by
  unfold ELF.isInSection
  cases h : b.get_section pSecName with
  | none => simp
  | some sec => simp

/-- C2: every column of every subtable of a table that `readVTable` returns has an
`rva` for which `isInSection(rva, text section)` holds; on an ELF image this says
that the text section exists and `virtual_address <= rva < virtual_address + size`. -/
theorem readVTable_columns_in_text (rd : ItaniumVTableReader) (fuel : Nat) (c c' : Cursor)
    (v : VTable) (h : readVTable rd fuel c = .ok (some v, c')) :
    (∀ sub ∈ v.mSubTables, ∀ col ∈ sub.2,
        rd.mImage.isInSection col.mRVA rd._constant._segment_text = true) ∧
      (∀ b bytes, rd.mImage = ELF.view b bytes →
        ∀ sub ∈ v.mSubTables, ∀ col ∈ sub.2,
          ∃ sec, b.get_section rd._constant._segment_text = some sec ∧
            sec.virtual_address ≤ col.mRVA ∧ col.mRVA < sec.virtual_address + sec.size) := by
  obtain ⟨acc, htr⟩ := readVTable_some h
  obtain ⟨symbol, l, hloop, _, _, _, hsub, _⟩ := readVTableTraced_some htr
  have hinv : ∀ col ∈ columns l.mSubTables,
      rd.mImage.isInSection col.mRVA rd._constant._segment_text = true := by
    refine readVTableLoop_invariant
      (fun l => ∀ col ∈ columns l.mSubTables,
        rd.mImage.isInSection col.mRVA rd._constant._segment_text = true)
      ?_ fuel _ c l c' ?_ hloop
    · intro l0 c0 l1 c1 hP hturn
      obtain ⟨value, c2, _, hcase⟩ := readVTableTurn_continue hturn
      rcases hcase with ⟨hsec, _, hl⟩ | ⟨_, _, _, type, _, hs, _⟩ | ⟨_, _, _, _, hl⟩
      · subst hl
        intro col hcol
        rcases (mem_columns_pushColumn _ _ _ col).1 hcol with hc | hc
        · rw [hc]; exact hsec
        · exact hP col hc
      · intro col hcol
        rw [hs] at hcol
        exact hP col hcol
      · subst hl
        exact hP
    · intro col hcol
      simp [columns] at hcol
  have hall : ∀ sub ∈ v.mSubTables, ∀ col ∈ sub.2,
      rd.mImage.isInSection col.mRVA rd._constant._segment_text = true := by
    intro sub hsubm col hcol
    apply hinv
    rw [← hsub]
    simp only [columns, List.mem_flatten, List.mem_map]
    exact ⟨sub.2, ⟨sub, hsubm, rfl⟩, hcol⟩
  refine ⟨hall, ?_⟩
  intro b bytes himg sub hsubm col hcol
  have h1 := hall sub hsubm col hcol
  rw [himg] at h1
  obtain ⟨sec, hsec, hlo, hhi⟩ := (ELF_isInSection_iff b _ _).1 h1
  exact ⟨sec, hsec, hlo, lt_of_lt_of_le hhi (Nat.mod_le _ _)⟩

set_option maxRecDepth 100000 in
/-- Witness of C2: the table at 64 of the example image. -/
theorem readVTable_columns_in_text_witness :
    readVTable exampleReader 16 ⟨64, false⟩ = .ok (some tableA, ⟨128, false⟩) ∧
      ((∀ sub ∈ tableA.mSubTables, ∀ col ∈ sub.2,
          exampleReader.mImage.isInSection col.mRVA exampleReader._constant._segment_text
            = true) ∧
        (∀ b bytes, exampleReader.mImage = ELF.view b bytes →
          ∀ sub ∈ tableA.mSubTables, ∀ col ∈ sub.2,
            ∃ sec, b.get_section exampleReader._constant._segment_text = some sec ∧
              sec.virtual_address ≤ col.mRVA ∧
              col.mRVA < sec.virtual_address + sec.size)) :=
  ⟨by decide,
    readVTable_columns_in_text exampleReader 16 ⟨64, false⟩ ⟨128, false⟩ tableA (by decide)⟩

theorem typeInv_turn {rd : ItaniumVTableReader} (l : Locals) (c : Cursor) (l' : Locals)
    (c' : Cursor) (hP : TypeInv l) (h : readVTableTurn rd l c = .ok (.continue l' c')) :
    TypeInv l' := by
  obtain ⟨h1, h2, h3⟩ := hP
  obtain ⟨value, c1, _, hcase⟩ := readVTableTurn_continue h
  rcases hcase with ⟨_, _, hl⟩ | ⟨_, _, hnil, type, _, hs, _, hacc, hty, hcases⟩ |
    ⟨_, hneg, hne, _, hl⟩
  · subst hl
    exact ⟨h1, h2, fun _ => pushColumn_ne_nil _ _ _⟩
  · have hempty : l.accepted = [] := by
      by_contra hne
      exact h3 hne hnil
    refine ⟨?_, ?_, ?_⟩
    · rcases hcases with ⟨_, htn, _⟩ | ⟨he, _, _⟩
      · left; rw [hty, htn]
      · right; rw [hty, he]
    · intro p hp
      rw [hacc, hempty] at hp
      cases hp
    · intro hne
      rw [hacc] at hne
      exact absurd hempty hne
  · subst hl
    refine ⟨h1, ?_, fun _ => hne⟩
    intro p hp
    simp only [List.mem_append, List.mem_singleton] at hp
    rcases hp with hp | hp
    · exact h2 p hp
    · subst hp
      exact ⟨hneg, rfl⟩

/-- A secondary header whose typeinfo pointer does not give the name held in `type`
ends the loop with `return std::nullopt` when a name for the table is known. -/
theorem readVTableLoop_mismatch {rd : ItaniumVTableReader} {l : Locals} {c c1 c2 : Cursor}
    {value : Int} {name : String} (fuel : Nat)
    (hread : Loader.read_intptr rd.mImage c = .ok (value, c1))
    (hsec : rd.mImage.isInSection (toUintptr value) rd._constant._segment_text = false)
    (hneg : value < 0) (hne : l.mSubTables ≠ [])
    (hzti : _readZTI rd c1 = .ok (name, c2)) (hname : name ≠ l.type)
    (hsym : l.symbol ≠ none) :
    readVTableLoop rd (fuel + 1) l c = .ok (none, c2) := by
  obtain ⟨s, hs⟩ : ∃ s, l.symbol = some s := by
    cases hl : l.symbol with
    | none => exact absurd hl hsym
    | some s => exact ⟨s, rfl⟩
  have hturn : readVTableTurn rd l c = .ok (.nullopt c2) := by
    unfold readVTableTurn
    rw [hread]
    have h1 : ¬ value > 0 := by omega
    have h2 : value ≠ 0 := by omega
    have h3 : l.mSubTables.isEmpty = false := by
      cases hm : l.mSubTables with
      | nil => exact absurd hm hne
      | cons _ _ => rfl
    simp [hsec, h1, h2, h3, hzti, hname, hs]
  unfold readVTableLoop
  rw [hturn]

/-- C3 (amended): when `readVTable` returns a table, every secondary header it went
past (the list `accepted` of the traced run) is a negative word whose typeinfo
pointer `_readZTI` decoded to one and the same name (the local `type`), and that
name is the `typeName` of the table or the empty string; a secondary header whose
typeinfo pointer decodes to anything but `type`, met while a name for the table is
known, makes the loop, and with it `readVTable`, return nothing. -/
theorem readVTable_secondary_typeinfo (rd : ItaniumVTableReader) (fuel : Nat) (c c' : Cursor)
    (v : VTable) (h : readVTable rd fuel c = .ok (some v, c')) :
    (∃ acc type, readVTableTraced rd fuel c = .ok (some (v, acc), c') ∧
        (type = v.mTypeName ∨ type = "") ∧ ∀ p ∈ acc, p.1 < 0 ∧ p.2 = type) ∧
      (∀ (l : Locals) (c0 c1 c2 : Cursor) (value : Int) (name : String) (n : Nat),
        Loader.read_intptr rd.mImage c0 = .ok (value, c1) →
        rd.mImage.isInSection (toUintptr value) rd._constant._segment_text = false →
        value < 0 → l.mSubTables ≠ [] → _readZTI rd c1 = .ok (name, c2) → name ≠ l.type →
        l.symbol ≠ none →
        readVTableLoop rd (n + 1) l c0 = .ok (none, c2)) := by
  obtain ⟨acc, htr⟩ := readVTable_some h
  obtain ⟨symbol, l, hloop, _, _, hty, _, hacc⟩ := readVTableTraced_some htr
  have hinit : TypeInv ⟨"", [], symbol, 0, "", []⟩ :=
    ⟨Or.inl rfl, fun p hp => (by cases hp), fun hne => absurd rfl hne⟩
  obtain ⟨h1, h2, _⟩ :=
    readVTableLoop_invariant TypeInv typeInv_turn fuel _ c l c' hinit hloop
  refine ⟨⟨acc, l.type, htr, ?_, ?_⟩, ?_⟩
  · rw [hty]; exact h1
  · rw [hacc]; exact h2
  · intro l0 c0 c1 c2 value name n hread hsec hneg hne hzti hname hsym
    exact readVTableLoop_mismatch n hread hsec hneg hne hzti hname hsym

set_option maxRecDepth 100000 in
/-- Witness of C3 (amended): the table at 64 of the example image, whose secondary
header `-16` is followed by the typeinfo pointer of the primary header. -/
theorem readVTable_secondary_typeinfo_witness :
    readVTable exampleReader 16 ⟨64, false⟩ = .ok (some tableA, ⟨128, false⟩) ∧
      readVTableTraced exampleReader 16 ⟨64, false⟩
        = .ok (some (tableA, [(-16, "_ZTI1A")]), ⟨128, false⟩) ∧
      ((∃ acc type,
          readVTableTraced exampleReader 16 ⟨64, false⟩ = .ok (some (tableA, acc), ⟨128, false⟩) ∧
          (type = tableA.mTypeName ∨ type = "") ∧ ∀ p ∈ acc, p.1 < 0 ∧ p.2 = type) ∧
        (∀ (l : Locals) (c0 c1 c2 : Cursor) (value : Int) (name : String) (n : Nat),
          Loader.read_intptr exampleReader.mImage c0 = .ok (value, c1) →
          exampleReader.mImage.isInSection (toUintptr value)
            exampleReader._constant._segment_text = false →
          value < 0 → l.mSubTables ≠ [] → _readZTI exampleReader c1 = .ok (name, c2) →
          name ≠ l.type → l.symbol ≠ none →
          readVTableLoop exampleReader (n + 1) l c0 = .ok (none, c2))) :=
  ⟨by decide, by decide,
    readVTable_secondary_typeinfo exampleReader 16 ⟨64, false⟩ ⟨128, false⟩ tableA (by decide)⟩

set_option maxRecDepth 100000 in
/-- C3 fails as stated: at 176 of the example image a primary header whose typeinfo
decodes to `_ZTI1A` is followed by a second primary header whose typeinfo pointer
resolves to nothing, a function slot, and the secondary header `-16` whose typeinfo
pointer resolves to nothing either.  The header is accepted with the empty name,
and the table is returned with the type name `_ZTI1A`. -/
theorem readVTable_secondary_other_name :
    readVTable exampleReader 16 ⟨176, false⟩ = .ok (some tableC, ⟨248, false⟩) ∧
      readVTableTraced exampleReader 16 ⟨176, false⟩
        = .ok (some (tableC, [(-16, "")]), ⟨248, false⟩) ∧
      tableC.mTypeName = "_ZTI1A" ∧ ("" : String) ≠ tableC.mTypeName :=
  ⟨by decide, by decide, by decide, by decide⟩

theorem starts_with_append (p t : String) : starts_with (p ++ t) p = true := by
  unfold starts_with
  rw [String.data_append, List.isPrefixOf_iff_prefix]
  exact List.prefix_append _ _

/-- Both formats have the same two prefixes. -/
theorem _initFormatConstants_prefixes (format : Format) :
    (_initFormatConstants format)._prefix_vtable = "_ZTV" ∧
      (_initFormatConstants format)._prefix_typeinfo = "_ZTI" := by
  cases format <;> exact ⟨rfl, rfl⟩

theorem nameInv_turn {rd : ItaniumVTableReader} (symbol : Option String) (l : Locals)
    (c : Cursor) (l' : Locals) (c' : Cursor) (hP : NameInv rd symbol l)
    (h : readVTableTurn rd l c = .ok (.continue l' c')) : NameInv rd symbol l' := by
  obtain ⟨h1, h2⟩ := hP
  obtain ⟨value, c1, _, hcase⟩ := readVTableTurn_continue h
  rcases hcase with ⟨_, _, hl⟩ | ⟨_, _, _, type, _, _, _, _, _, hcases⟩ | ⟨_, _, _, _, hl⟩
  · subst hl; exact ⟨h1, h2⟩
  · rcases hcases with ⟨_, _, ⟨s0, hs0, hs1⟩ | ⟨hnone, tail, _, hs1⟩⟩ | ⟨_, _, hsame⟩
    · refine ⟨?_, ?_⟩
      · intro s hs
        have := h1 s hs
        rw [hs0] at this
        rw [hs1]; exact this
      · intro hn s hs
        rw [hs1] at hs
        rw [← hs0] at hs
        exact h2 hn s hs
    · refine ⟨?_, ?_⟩
      · intro s hs
        have := h1 s hs
        rw [hnone] at this
        cases this
      · intro _ s hs
        rw [hs1] at hs
        injection hs with hs
        exact ⟨tail, hs.symm⟩
    · rw [NameInv, hsame]; exact ⟨h1, h2⟩
  · subst hl; exact ⟨h1, h2⟩

/-- C4: the name of every table that `readVTable` returns starts with `_ZTV`: it is
the name of the symbol found at the start address, which was checked to start with
the prefix, or else the prefix followed by a piece of the decoded typeinfo name. -/
theorem readVTable_name_prefix (rd : ItaniumVTableReader)
    (hk : rd._constant = _initFormatConstants rd.mImage.format) (fuel : Nat) (c c' : Cursor)
    (v : VTable) (h : readVTable rd fuel c = .ok (some v, c')) :
    starts_with v.mName "_ZTV" = true ∧
      (∀ s, rd.mImage.lookupSymbol (Loader.cur c) = some s → v.mName = s.name) ∧
      (rd.mImage.lookupSymbol (Loader.cur c) = none → ∃ tail, v.mName = "_ZTV" ++ tail) := by
  have hpre : rd._constant._prefix_vtable = "_ZTV" := by
    rw [hk]; exact (_initFormatConstants_prefixes _).1
  obtain ⟨acc, htr⟩ := readVTable_some h
  obtain ⟨symbol, l, hloop, ⟨hsym, hstart⟩, hname, _, _, _⟩ := readVTableTraced_some htr
  have hinit : NameInv rd symbol ⟨"", [], symbol, 0, "", []⟩ :=
    ⟨fun s hs => hs, fun hn s hs => (by rw [hn] at hs; cases hs)⟩
  obtain ⟨h1, h2⟩ :=
    readVTableLoop_invariant (NameInv rd symbol) (nameInv_turn symbol) fuel _ c l c' hinit hloop
  have hfound : ∀ s, rd.mImage.lookupSymbol (Loader.cur c) = some s → v.mName = s.name := by
    intro s hs
    rw [hs] at hsym
    have := h1 s.name hsym
    rw [hname] at this
    injection this
  have hmade : rd.mImage.lookupSymbol (Loader.cur c) = none →
      ∃ tail, v.mName = "_ZTV" ++ tail := by
    intro hn
    rw [hn] at hsym
    obtain ⟨tail, ht⟩ := h2 hsym v.mName hname
    exact ⟨tail, by rw [ht, hpre]⟩
  refine ⟨?_, hfound, hmade⟩
  cases hlook : rd.mImage.lookupSymbol (Loader.cur c) with
  | some s =>
    rw [hlook] at hsym
    rw [hfound s hlook, ← hpre]
    exact hstart s.name hsym
  | none =>
    obtain ⟨tail, ht⟩ := hmade hlook
    rw [ht]
    exact starts_with_append _ _

set_option maxRecDepth 100000 in
/-- Witness of C4: the table at 376 of the example image, where no symbol is found
and the name is made from the typeinfo name. -/
theorem readVTable_name_prefix_witness :
    exampleReader._constant = _initFormatConstants exampleReader.mImage.format ∧
      readVTable exampleReader 16 ⟨376, false⟩ = .ok (some tableE, ⟨408, false⟩) ∧
      (starts_with tableE.mName "_ZTV" = true ∧
        (∀ s, exampleReader.mImage.lookupSymbol (Loader.cur ⟨376, false⟩) = some s →
          tableE.mName = s.name) ∧
        (exampleReader.mImage.lookupSymbol (Loader.cur ⟨376, false⟩) = none →
          ∃ tail, tableE.mName = "_ZTV" ++ tail)) :=
  ⟨rfl, by decide,
    readVTable_name_prefix exampleReader rfl 16 ⟨376, false⟩ ⟨408, false⟩ tableE (by decide)⟩

/-- What `_readZTS` returns: the string at the address held in the word at the
cursor, with the typeinfo prefix in front unless it is empty. -/
theorem _readZTS_ok {rd : ItaniumVTableReader} {c c' : Cursor} {s : String}
    (h : _readZTS rd c = .ok (s, c')) :
    ∃ value, Loader.read_intptr rd.mImage c = .ok (value, c') ∧
      ((rd.mImage.readCString (toUintptr value) 2048 = "" ∧ s = "") ∨
       (rd.mImage.readCString (toUintptr value) 2048 ≠ "" ∧
          s = rd._constant._prefix_typeinfo ++ rd.mImage.readCString (toUintptr value) 2048)) := by
  unfold _readZTS at h
  split at h
  · cases h
  · rename_i value c1 hread
    injection h with h; injection h with h1 h2
    subst h2
    refine ⟨value, hread, ?_⟩
    by_cases he : rd.mImage.readCString (toUintptr value) 2048 = ""
    · left
      simp only [he, if_true] at h1
      exact ⟨he, h1.symm⟩
    · right
      simp only [he, if_false] at h1
      exact ⟨he, h1.symm⟩

/-- C5: the name of every record that `readTypeInfo` returns is `_ZTI` followed by
the non-empty string that `_readZTS` read at the address held in the second word of
the record; so it is not empty and starts with `_ZTI`. -/
theorem readTypeInfo_name (rd : ItaniumVTableReader)
    (hk : rd._constant = _initFormatConstants rd.mImage.format) (c c' : Cursor) (t : TypeInfo)
    (h : readTypeInfo rd c = .ok (some t, c')) :
    (∃ word c1 value c2, Loader.read_intptr rd.mImage c = .ok (word, c1) ∧
        Loader.read_intptr rd.mImage c1 = .ok (value, c2) ∧
        rd.mImage.readCString (toUintptr value) 2048 ≠ "" ∧
        t.mName = "_ZTI" ++ rd.mImage.readCString (toUintptr value) 2048) ∧
      t.mName ≠ "" ∧ starts_with t.mName "_ZTI" = true := by
  have hpre : rd._constant._prefix_typeinfo = "_ZTI" := by
    rw [hk]; exact (_initFormatConstants_prefixes _).2
  have key : ∀ (c1 c2 : Cursor) (mName : String), _readZTS rd c1 = .ok (mName, c2) →
      mName ≠ "" →
      ∃ value, Loader.read_intptr rd.mImage c1 = .ok (value, c2) ∧
        rd.mImage.readCString (toUintptr value) 2048 ≠ "" ∧
        mName = "_ZTI" ++ rd.mImage.readCString (toUintptr value) 2048 := by
    intro c1 c2 mName hz hne
    obtain ⟨value, hread, hcase⟩ := _readZTS_ok hz
    rcases hcase with ⟨_, he⟩ | ⟨hs, he⟩
    · exact absurd he hne
    · exact ⟨value, hread, hs, by rw [he, hpre]⟩
  have main : ∃ word c1 mName c2, Loader.read_intptr rd.mImage c = .ok (word, c1) ∧
      _readZTS rd c1 = .ok (mName, c2) ∧ mName ≠ "" ∧ t.mName = mName := by
    unfold readTypeInfo at h
    simp only at h
    split at h
    · cases h
    · split at h
      · cases h
      · rename_i word c1 hread
        split at h
        · cases h
        · split at h
          · split at h
            · cases h
            · rename_i mName c2 hz
              split at h
              · cases h
              · rename_i hne
                injection h with h; injection h with h1 h2; injection h1 with h1
                subst h1
                exact ⟨word, c1, mName, c2, hread, hz, hne, rfl⟩
          · split at h
            · split at h
              · cases h
              · rename_i mName c2 hz
                split at h
                · cases h
                · split at h
                  · cases h
                  · rename_i hne
                    injection h with h; injection h with h1 h2; injection h1 with h1
                    subst h1
                    exact ⟨word, c1, mName, c2, hread, hz, fun he => hne (Or.inl he), rfl⟩
            · split at h
              · split at h
                · cases h
                · rename_i mName c2 hz
                  split at h
                  · cases h
                  · rename_i hne
                    split at h
                    · cases h
                    · split at h
                      · cases h
                      · split at h
                        · cases h
                        · cases h
                        · injection h with h; injection h with h1 h2; injection h1 with h1
                          subst h1
                          exact ⟨word, c1, mName, c2, hread, hz, hne, rfl⟩
              · cases h
  obtain ⟨word, c1, mName, c2, hread, hz, hne, hname⟩ := main
  obtain ⟨value, hread2, hstr, hm⟩ := key c1 c2 mName hz hne
  refine ⟨⟨word, c1, value, c2, hread, hread2, hstr, by rw [hname, hm]⟩, ?_, ?_⟩
  · rw [hname]; exact hne
  · rw [hname, hm]; exact starts_with_append _ _

set_option maxRecDepth 100000 in
/-- Witness of C5: the `__si_class_type_info` record at 248 of the example image. -/
theorem readTypeInfo_name_witness :
    exampleReader._constant = _initFormatConstants exampleReader.mImage.format ∧
      readTypeInfo exampleReader ⟨248, false⟩ = .ok (some typeInfoB, ⟨272, false⟩) ∧
      ((∃ word c1 value c2,
          Loader.read_intptr exampleReader.mImage ⟨248, false⟩ = .ok (word, c1) ∧
          Loader.read_intptr exampleReader.mImage c1 = .ok (value, c2) ∧
          exampleReader.mImage.readCString (toUintptr value) 2048 ≠ "" ∧
          typeInfoB.mName = "_ZTI" ++ exampleReader.mImage.readCString (toUintptr value) 2048) ∧
        typeInfoB.mName ≠ "" ∧ starts_with typeInfoB.mName "_ZTI" = true) :=
  ⟨rfl, by decide,
    readTypeInfo_name exampleReader rfl ⟨248, false⟩ ⟨272, false⟩ typeInfoB (by decide)⟩

/-- What `_readZTI` returns is empty or one of the two kinds of name. -/
theorem _readZTI_ok {rd : ItaniumVTableReader} {c c' : Cursor} {s : String}
    (h : _readZTI rd c = .ok (s, c')) : s = "" ∨ ReadZTIName rd s := by
  unfold _readZTI at h
  simp only at h
  split at h
  · cases h
  · rename_i value c1 hread
    split at h
    · rename_i hsec
      have hsec' : rd.mImage.isInSection (toUintptr value) rd._constant._segment_data = false := by
        simpa using hsec
      split at h
      · rename_i sym hsym
        injection h with h; injection h with h1 h2
        right; right
        exact ⟨toUintptr value, sym, hsec', hsym, h1.symm⟩
      · injection h with h; injection h with h1 h2
        left; exact h1.symm
    · split at h
      · cases h
      · rename_i str c4 hz
        injection h with h; injection h with h1 h2
        subst h1
        obtain ⟨v2, _, hcase⟩ := _readZTS_ok hz
        rcases hcase with ⟨_, he⟩ | ⟨_, he⟩
        · left; exact he
        · right; left
          rw [he]; exact starts_with_append _ _

theorem readBases_names {rd : ItaniumVTableReader} (count : Nat) :
    ∀ (acc : List BaseClassInfo) (c c' : Cursor) (bs : List BaseClassInfo),
      readBases rd count acc c = .ok (some bs, c') →
      (∀ b ∈ acc, b.mName ≠ "" ∧ ReadZTIName rd b.mName) →
      ∀ b ∈ bs, b.mName ≠ "" ∧ ReadZTIName rd b.mName := by
  induction count with
  | zero =>
    intro acc c c' bs h hacc
    unfold readBases at h
    injection h with h; injection h with h1 h2; injection h1 with h1
    subst h1
    exact hacc
  | succ n ih =>
    intro acc c c' bs h hacc
    unfold readBases at h
    split at h
    · cases h
    · rename_i mName c1 hz
      split at h
      · cases h
      · rename_i hne
        split at h
        · cases h
        · rename_i flag c2 hread
          refine ih _ c2 c' bs h ?_
          intro b hb
          simp only [List.mem_append, List.mem_singleton] at hb
          rcases hb with hb | hb
          · exact hacc b hb
          · subst hb
            rcases _readZTI_ok hz with he | hp
            · exact absurd he hne
            · exact ⟨hne, hp⟩

/-- A `__vmi_class_type_info` record that `readTypeInfo` returns has the bases that
`readBases` collected. -/
theorem readTypeInfo_multiple {rd : ItaniumVTableReader} {c c' : Cursor} {n : String} {a : Nat}
    {bs : List BaseClassInfo} (h : readTypeInfo rd c = .ok (some (.MultipleInherit n a bs), c')) :
    ∃ baseCount c4, readBases rd baseCount [] c4 = .ok (some bs, c') := by
  unfold readTypeInfo at h
  simp only at h
  repeat' split at h
  all_goals first
    | (cases h; done)
    | (injection h with h; injection h with h1 h2; injection h1 with h1
       injection h1 with h3 h4 h5
       subst h5; subst h2
       exact ⟨_, _, by assumption⟩)

/-- C6 (amended): the `typeName` of a table that `readVTable` returns is empty, or
starts with `_ZTI`, or is the unchanged name of the symbol found at a typeinfo pointer
outside the data section; the name of every base of a `__vmi_class_type_info` record
that `readTypeInfo` returns is not empty and is of one of the latter two kinds. -/
theorem readZTI_names (rd : ItaniumVTableReader)
    (hk : rd._constant = _initFormatConstants rd.mImage.format) :
    (∀ fuel c c' v, readVTable rd fuel c = .ok (some v, c') →
        v.mTypeName = "" ∨ starts_with v.mTypeName "_ZTI" = true ∨
          ∃ addr sym, rd.mImage.isInSection addr rd._constant._segment_data = false ∧
            rd.mImage.lookupSymbol addr = some sym ∧ v.mTypeName = sym.name) ∧
      (∀ c c' n a bs, readTypeInfo rd c = .ok (some (.MultipleInherit n a bs), c') →
        ∀ b ∈ bs, b.mName ≠ "" ∧
          (starts_with b.mName "_ZTI" = true ∨
            ∃ addr sym, rd.mImage.isInSection addr rd._constant._segment_data = false ∧
              rd.mImage.lookupSymbol addr = some sym ∧ b.mName = sym.name)) := by
  have hpre : rd._constant._prefix_typeinfo = "_ZTI" := by
    rw [hk]; exact (_initFormatConstants_prefixes _).2
  have hunfold : ∀ s, ReadZTIName rd s →
      (starts_with s "_ZTI" = true ∨
        ∃ addr sym, rd.mImage.isInSection addr rd._constant._segment_data = false ∧
          rd.mImage.lookupSymbol addr = some sym ∧ s = sym.name) := by
    intro s hs
    unfold ReadZTIName at hs
    rw [hpre] at hs
    exact hs
  refine ⟨?_, ?_⟩
  · intro fuel c c' v h
    obtain ⟨acc, htr⟩ := readVTable_some h
    obtain ⟨symbol, l, hloop, _, _, hty, _, _⟩ := readVTableTraced_some htr
    have hinv : l.mTypeName = "" ∨ ReadZTIName rd l.mTypeName := by
      refine readVTableLoop_invariant (fun l => l.mTypeName = "" ∨ ReadZTIName rd l.mTypeName)
        ?_ fuel _ c l c' (Or.inl rfl) hloop
      intro l0 c0 l1 c1 hP hturn
      obtain ⟨value, c2, _, hcase⟩ := readVTableTurn_continue hturn
      rcases hcase with ⟨_, _, hl⟩ | ⟨_, _, _, type, hz, _, _, _, _, hcases⟩ | ⟨_, _, _, _, hl⟩
      · subst hl; exact hP
      · rcases hcases with ⟨hne, htn, _⟩ | ⟨_, htn, _⟩
        · rw [htn]
          rcases _readZTI_ok hz with he | hp
          · exact absurd he hne
          · exact Or.inr hp
        · rw [htn]; exact hP
      · subst hl; exact hP
    rw [hty]
    rcases hinv with he | hp
    · exact Or.inl he
    · exact Or.inr (hunfold _ hp)
  · intro c c' n a bs h b hb
    obtain ⟨baseCount, c4, hbases⟩ := readTypeInfo_multiple h
    obtain ⟨h1, h2⟩ := readBases_names baseCount [] c4 c' bs hbases
      (fun b hb => (by cases hb)) b hb
    exact ⟨h1, hunfold _ h2⟩

set_option maxRecDepth 100000 in
/-- Witness of C6 (amended): the table at 64 and the record at 280 of the example
image. -/
theorem readZTI_names_witness :
    exampleReader._constant = _initFormatConstants exampleReader.mImage.format ∧
      readVTable exampleReader 16 ⟨64, false⟩ = .ok (some tableA, ⟨128, false⟩) ∧
      (tableA.mTypeName = "" ∨ starts_with tableA.mTypeName "_ZTI" = true ∨
        ∃ addr sym,
          exampleReader.mImage.isInSection addr exampleReader._constant._segment_data = false ∧
          exampleReader.mImage.lookupSymbol addr = some sym ∧ tableA.mTypeName = sym.name) ∧
      readTypeInfo exampleReader ⟨280, false⟩
        = .ok (some (.MultipleInherit "_ZTI1C" 0
            [⟨"_ZTI1A", 1, 2⟩, ⟨"_ZTVN10__cxxabiv117__class_type_infoE", 255, 255⟩]),
          ⟨336, false⟩) ∧
      (∀ b ∈ [(⟨"_ZTI1A", 1, 2⟩ : BaseClassInfo),
              ⟨"_ZTVN10__cxxabiv117__class_type_infoE", 255, 255⟩],
        b.mName ≠ "" ∧
          (starts_with b.mName "_ZTI" = true ∨
            ∃ addr sym,
              exampleReader.mImage.isInSection addr exampleReader._constant._segment_data
                = false ∧
              exampleReader.mImage.lookupSymbol addr = some sym ∧ b.mName = sym.name)) :=
  ⟨rfl, by decide,
    (readZTI_names exampleReader rfl).1 16 ⟨64, false⟩ ⟨128, false⟩ tableA (by decide),
    by decide,
    (readZTI_names exampleReader rfl).2 ⟨280, false⟩ ⟨336, false⟩ "_ZTI1C" 0 _ (by decide)⟩

set_option maxRecDepth 100000 in
/-- C6 fails as stated: in the example image the typeinfo pointer of the table at 344
and the second base pointer of the record at 280 are the address 456, outside the
data section, where the symbol `_ZTVN10__cxxabiv117__class_type_infoE` is found; its
name becomes the `typeName` and the base name as it is. -/
theorem readZTI_name_without_prefix :
    readVTable exampleReader 16 ⟨344, false⟩ = .ok (some tableD, ⟨376, false⟩) ∧
      starts_with tableD.mTypeName "_ZTI" = false ∧
      readTypeInfo exampleReader ⟨280, false⟩
        = .ok (some (.MultipleInherit "_ZTI1C" 0
            [⟨"_ZTI1A", 1, 2⟩, ⟨"_ZTVN10__cxxabiv117__class_type_infoE", 255, 255⟩]),
          ⟨336, false⟩) ∧
      starts_with "_ZTVN10__cxxabiv117__class_type_infoE" "_ZTI" = false :=
  ⟨by decide, by decide, by decide, by decide⟩

theorem toUintptr_255 : toUintptr 0xFF = 2 ^ 8 - 1 := by decide

theorem toIntptr_small (n : Nat) (h : n < 256) : toIntptr n = (n : Int) := by
  unfold toIntptr
  have h1 : n % 2 ^ 64 = n := Nat.mod_eq_of_lt (by omega)
  rw [h1]
  have h2 : n < 2 ^ 63 := by omega
  rw [if_pos h2]

/-- The two fields that `decodeBase` takes from a flag word, as bits of the word. -/
theorem decodeBase_fields (mName : String) (w : Nat) :
    decodeBase mName (toIntptr w)
      = ⟨mName, ((w % 2 ^ 64 / 256 % 256 : Nat) : Int), ((w % 2 ^ 64 % 256 : Nat) : Int)⟩ := by
  have hmask : land64 (toIntptr w) 0xFF = ((w % 2 ^ 64 % 256 : Nat) : Int) := by
    unfold land64
    rw [toUintptr_255, Nat.and_pow_two_sub_one_eq_mod]
    rw [toIntptr_small _ (Nat.mod_lt _ (by norm_num))]
    congr 1
    unfold toUintptr toIntptr
    split <;> omega
  have hoff : land64 (sar64 (toIntptr w) 8) 0xFF = ((w % 2 ^ 64 / 256 % 256 : Nat) : Int) := by
    unfold land64 sar64
    rw [toUintptr_255, Nat.and_pow_two_sub_one_eq_mod]
    rw [toIntptr_small _ (Nat.mod_lt _ (by norm_num))]
    congr 1
    rw [Int.shiftRight_eq_div_pow]
    unfold toUintptr toIntptr
    split <;> omega
  unfold decodeBase
  rw [hmask, hoff]

end ItaniumVTableReader

/-! ## Properties of `ELF.cpp` -/

namespace ELF

/-- A lookup in a cache built from a list of symbols finds a symbol of the list that
no other symbol of the list shares its key with. -/
theorem at?_map_of_unique (f : Symbol → Nat) (s : Symbol) :
    ∀ (l : List Symbol), s ∈ l → (∀ s' ∈ l, f s' = f s → s' = s) →
      SymbolCache.at? (l.map (fun x => (f x, x))) (f s) = some s := by
  intro l
  induction l with
  | nil => intro h; cases h
  | cons x rest ih =>
    intro hmem huniq
    by_cases hx : f x = f s
    · have : x = s := huniq x (List.mem_cons_self _ _) hx
      subst this
      simp [SymbolCache.at?, List.find?]
    · have hs : s ∈ rest := by
        rcases List.mem_cons.1 hmem with h | h
        · subst h; exact absurd rfl hx
        · exact h
      have hrest := ih hs (fun s' hs' => huniq s' (List.mem_cons_of_mem _ hs'))
      have hb : (f x == f s) = false := beq_eq_false_iff_ne.2 hx
      unfold SymbolCache.at? at hrest ⊢
      rw [List.map_cons, List.find?_cons]
      simp only [hb]
      exact hrest

/-- C8 (amended): for a relocation of type `R_X86_64_64` or `R_AARCH64_ABS64` in the
range of `.data.rel.ro` that refers to an external symbol `s` (value 0), the word that
`_relocateReadonlyData` writes is the sentinel address of `s` plus the addend.  When
the image has a `.dynsym` section, `s` is a dynamic symbol, no other dynamic symbol has
its sentinel address and no static symbol has that address as value, `lookupSymbol`
at the sentinel address returns `s`; so it does at the word written when the addend
is 0. -/
theorem relocateOne_external (b : Binary) (relocation : Relocation) (s : Symbol)
    (lo hi gapInFront : Nat) (st : List Nat × Cursor)
    (htype : relocation.type = .X86_64_64 ∨ relocation.type = .AARCH64_ABS64)
    (hsym : relocation.symbol = some s) (hval : s.value = 0)
    (hrange : ¬ (relocation.address < lo ∨ relocation.address > hi))
    (hdyn : b.has_dynsym = true) (hmem : s ∈ b.dynamic_symbols)
    (huniq : ∀ s' ∈ b.dynamic_symbols, sentinel b s' = sentinel b s → s' = s)
    (hstatic : (symbolCache b).at? (sentinel b s) = none) :
    ∃ v, relocateOne b lo hi (getEndOfSections b) gapInFront st relocation
          = Loader.write st ((relocation.address + 2 ^ 64 - gapInFront) % 2 ^ 64) v ∧
      v = (sentinel b s + toUintptr relocation.addend) % 2 ^ 64 ∧
      lookupSymbol b (sentinel b s) = some s ∧
      (relocation.addend = 0 → lookupSymbol b v = some s) := by
  have hvalue : relocationValue b (getEndOfSections b) relocation
      = some ((sentinel b s + toUintptr relocation.addend) % 2 ^ 64) := by
    unfold relocationValue
    rcases htype with ht | ht <;>
    · rw [ht]
      simp only [hsym, hval]
      unfold sentinel
      simp only [ne_eq, not_true_eq_false, if_false, Option.some.injEq]
      omega
  have hlook : lookupSymbol b (sentinel b s) = some s := by
    unfold lookupSymbol
    rw [hstatic]
    unfold dynSymbolCache
    rw [if_pos hdyn]
    exact at?_map_of_unique (sentinel b) s b.dynamic_symbols hmem huniq
  refine ⟨_, ?_, rfl, hlook, ?_⟩
  · unfold relocateOne
    simp only [hrange, if_false, hvalue]
  · intro h0
    have hs : sentinel b s < 2 ^ 64 := by
      unfold sentinel
      exact Nat.mod_lt _ (by norm_num)
    have : (sentinel b s + toUintptr relocation.addend) % 2 ^ 64 = sentinel b s := by
      rw [h0]
      have : toUintptr 0 = 0 := by decide
      rw [this, Nat.add_zero, Nat.mod_eq_of_lt hs]
    rw [this]
    exact hlook

set_option maxRecDepth 100000 in
/-- Witness of C8 (amended): the relocation at 352 of the example image, which refers
to `_ZTVN10__cxxabiv117__class_type_infoE` with addend 0; the word written is 456. -/
theorem relocateOne_external_witness :
    ((RELOC.X86_64_64 = .X86_64_64 ∨ RELOC.X86_64_64 = .AARCH64_ABS64) ∧
      ¬ (352 < 64 ∨ 352 > 416) ∧ exampleBinary.has_dynsym = true ∧
      (⟨"_ZTVN10__cxxabiv117__class_type_infoE", 0⟩ : Symbol) ∈ exampleBinary.dynamic_symbols) ∧
    ∃ v, relocateOne exampleBinary 64 416 (getEndOfSections exampleBinary) 0
            (exampleBytes, ⟨0, false⟩)
            ⟨352, .X86_64_64, 0, some ⟨"_ZTVN10__cxxabiv117__class_type_infoE", 0⟩⟩
          = Loader.write (exampleBytes, ⟨0, false⟩) ((352 + 2 ^ 64 - 0) % 2 ^ 64) v ∧
      v = (sentinel exampleBinary ⟨"_ZTVN10__cxxabiv117__class_type_infoE", 0⟩
            + toUintptr 0) % 2 ^ 64 ∧
      lookupSymbol exampleBinary
          (sentinel exampleBinary ⟨"_ZTVN10__cxxabiv117__class_type_infoE", 0⟩)
        = some ⟨"_ZTVN10__cxxabiv117__class_type_infoE", 0⟩ ∧
      ((0 : Int) = 0 → lookupSymbol exampleBinary v
        = some ⟨"_ZTVN10__cxxabiv117__class_type_infoE", 0⟩) :=
  ⟨⟨by decide, by decide, by decide, by decide⟩,
    relocateOne_external exampleBinary
      ⟨352, .X86_64_64, 0, some ⟨"_ZTVN10__cxxabiv117__class_type_infoE", 0⟩⟩
      ⟨"_ZTVN10__cxxabiv117__class_type_infoE", 0⟩ 64 416 0 (exampleBytes, ⟨0, false⟩)
      (by decide) rfl rfl (by decide) (by decide) (by decide) (by decide) (by decide)⟩

set_option maxRecDepth 100000 in
/-- C8 fails as stated: the relocation at 128 of the example image refers to the
external symbol `_ZTVN10__cxxabiv117__class_type_infoE` with the addend 16.  The word
written for it is 472, and `lookupSymbol(472)` returns the symbol
`_ZTVN10__cxxabiv121__vmi_class_type_infoE`, whose sentinel address that is. -/
theorem relocateOne_external_addend :
    relocationValue exampleBinary (getEndOfSections exampleBinary)
        ⟨128, .X86_64_64, 16, some ⟨"_ZTVN10__cxxabiv117__class_type_infoE", 0⟩⟩ = some 472 ∧
      relocateOne exampleBinary 64 416 (getEndOfSections exampleBinary) 0
          (exampleBytes, ⟨0, false⟩)
          ⟨128, .X86_64_64, 16, some ⟨"_ZTVN10__cxxabiv117__class_type_infoE", 0⟩⟩
        = Loader.write (exampleBytes, ⟨0, false⟩) 128 472 ∧
      lookupSymbol exampleBinary 472 = some ⟨"_ZTVN10__cxxabiv121__vmi_class_type_infoE", 0⟩ ∧
      lookupSymbol exampleBinary 472 ≠ some ⟨"_ZTVN10__cxxabiv117__class_type_infoE", 0⟩ :=
  ⟨by decide, by decide, by decide, by decide⟩

end ELF

/-! ## Properties of the dump functions -/

theorem Cursor.same_refl (c : Cursor) : Cursor.same c c := Or.inl rfl

theorem agree_refl {α : Type} (x : Except Fault (α × Cursor)) : agree Cursor.same x x := by
  unfold agree
  cases x with
  | error e => rfl
  | ok p => exact ⟨rfl, Cursor.same_refl _⟩

theorem agree_map_fst {α : Type} {rel : Cursor → Cursor → Prop}
    {x y : Except Fault (α × Cursor)} (h : agree rel x y) :
    Except.map Prod.fst x = Except.map Prod.fst y := by
  unfold agree at h
  cases x with
  | error e =>
    cases y with
    | error f => simp only at h; rw [h]
    | ok q => exact absurd h id
  | ok p =>
    cases y with
    | error f => exact absurd h id
    | ok q =>
      obtain ⟨a, c⟩ := p
      obtain ⟨b, d⟩ := q
      simp only at h
      simp [Except.map, h.1]

namespace Loader

theorem cur_failed {c : Cursor} (h : c.failed = true) : cur c = 2 ^ 64 - 1 := by
  unfold cur; rw [if_pos h]

theorem move_failed (img : Executable) (v : Int) (rel : RelativePos) {c : Cursor}
    (h : c.failed = true) : move img v rel c = c := by
  unfold move seek; rw [if_pos h]

theorem read_failed (img : Executable) (n : Nat) {c : Cursor} (h : c.failed = true) :
    read img n c = .error .indeterminate := by
  unfold read
  simp only [move_failed img _ _ h, h, if_true]

theorem read_intptr_failed (img : Executable) {c : Cursor} (h : c.failed = true) :
    read_intptr img c = .error .indeterminate := by
  unfold read_intptr
  rw [read_failed img 8 h]

theorem cur_same {c d : Cursor} (h : Cursor.same c d) : cur c = cur d := by
  rcases h with h | ⟨h1, h2⟩
  · rw [h]
  · rw [cur_failed h1, cur_failed h2]

/-- An absolute `move` takes two cursors of a good stream to the same cursor or to
two failed ones. -/
theorem move_begin_alike (img : Executable) (v : Int) {c d : Cursor} (h : Cursor.alike c d) :
    Cursor.same (move img v .Begin c) (move img v .Begin d) := by
  rcases h with ⟨hc, hd⟩ | h | ⟨hc, hd⟩
  · unfold move seek
    simp only [hc, hd, Bool.false_eq_true, if_false]
    split
    · exact Or.inl rfl
    · exact Or.inr ⟨rfl, rfl⟩
  · rw [h]; exact Or.inl rfl
  · rw [move_failed img _ _ hc, move_failed img _ _ hd]
    exact Or.inr ⟨hc, hd⟩

end Loader

namespace ItaniumVTableReader

theorem readVTableLoop_failed (rd : ItaniumVTableReader) (fuel : Nat) (l : Locals) {c : Cursor}
    (h : c.failed = true) :
    readVTableLoop rd fuel l c = .error (if fuel = 0 then .out_of_fuel else .indeterminate) := by
  cases fuel with
  | zero => rfl
  | succ n =>
    unfold readVTableLoop readVTableTurn
    rw [Loader.read_intptr_failed _ h]
    simp

theorem readVTableFrom_failed (rd : ItaniumVTableReader) (fuel : Nat) (symbol : Option String)
    {c : Cursor} (h : c.failed = true) :
    readVTableFrom rd fuel symbol c
      = .error (if fuel = 0 then .out_of_fuel else .indeterminate) := by
  unfold readVTableFrom
  rw [readVTableLoop_failed rd fuel _ h]

theorem readVTable_same (rd : ItaniumVTableReader) (fuel : Nat) {c d : Cursor}
    (h : Cursor.same c d) : agree Cursor.same (readVTable rd fuel c) (readVTable rd fuel d) := by
  rcases h with h | ⟨hc, hd⟩
  · rw [h]; exact agree_refl _
  · unfold readVTable readVTableTraced
    rw [Loader.cur_failed hc, Loader.cur_failed hd]
    cases rd.mImage.lookupSymbol (2 ^ 64 - 1) with
    | none =>
      simp only [readVTableFrom_failed rd fuel _ hc, readVTableFrom_failed rd fuel _ hd]
      rfl
    | some s =>
      simp only [readVTableFrom_failed rd fuel _ hc, readVTableFrom_failed rd fuel _ hd]
      by_cases hp : (!starts_with s.name rd._constant._prefix_vtable) = true
      · simp only [hp, if_true]
        exact ⟨rfl, Or.inr ⟨hc, hd⟩⟩
      · simp only [hp, if_false]
        rfl

theorem readTypeInfo_failed (rd : ItaniumVTableReader) {c : Cursor} (h : c.failed = true) :
    readTypeInfo rd c = .error .runtime_error := by
  unfold readTypeInfo
  simp only [Loader.cur_failed h]
  rw [if_pos (by norm_num)]

theorem readTypeInfo_same (rd : ItaniumVTableReader) {c d : Cursor} (h : Cursor.same c d) :
    agree Cursor.same (readTypeInfo rd c) (readTypeInfo rd d) := by
  rcases h with h | ⟨hc, hd⟩
  · rw [h]; exact agree_refl _
  · rw [readTypeInfo_failed rd hc, readTypeInfo_failed rd hd]
    rfl

theorem dumpTypeInfoLoop_alike (rd : ItaniumVTableReader) :
    ∀ (l : List Nat) (result : DumpTypeInfoResult) (c d : Cursor), Cursor.alike c d →
      agree Cursor.alike (dumpTypeInfoLoop rd l result c) (dumpTypeInfoLoop rd l result d) := by
  intro l
  induction l with
  | nil => intro result c d h; exact ⟨rfl, h⟩
  | cons addr rest ih =>
    intro result c d h
    have hm := Loader.move_begin_alike rd.mImage (toIntptr addr) h
    have hr := readTypeInfo_same rd hm
    unfold dumpTypeInfoLoop
    simp only
    generalize Loader.move rd.mImage (toIntptr addr) .Begin c = c1 at hm hr ⊢
    generalize Loader.move rd.mImage (toIntptr addr) .Begin d = d1 at hm hr ⊢
    unfold agree at hr
    cases hx : readTypeInfo rd c1 with
    | error e =>
      cases hy : readTypeInfo rd d1 with
      | error f =>
        rw [hx, hy] at hr
        simp only at hr
        subst hr
        cases e <;> first | exact ⟨rfl, Or.inr hm⟩ | rfl
      | ok q => rw [hx, hy] at hr; exact absurd hr id
    | ok p =>
      cases hy : readTypeInfo rd d1 with
      | error f => rw [hx, hy] at hr; exact absurd hr id
      | ok q =>
        obtain ⟨a, c2⟩ := p
        obtain ⟨b, d2⟩ := q
        rw [hx, hy] at hr
        simp only at hr
        obtain ⟨hab, hcd⟩ := hr
        subst hab
        cases a with
        | none => exact ih result c2 d2 (Or.inr hcd)
        | some t => exact ih _ c2 d2 (Or.inr hcd)

theorem dumpVFTableSymbols_alike (rd : ItaniumVTableReader) (fuel : Nat) :
    ∀ (l : List Nat) (result : DumpVFTableResult) (c d : Cursor), Cursor.alike c d →
      agree Cursor.alike (dumpVFTableSymbols rd fuel l result c)
        (dumpVFTableSymbols rd fuel l result d) := by
  intro l
  induction l with
  | nil => intro result c d h; exact ⟨rfl, h⟩
  | cons addr rest ih =>
    intro result c d h
    have hm := Loader.move_begin_alike rd.mImage (toIntptr addr) h
    have hr := readVTable_same rd fuel hm
    unfold dumpVFTableSymbols
    simp only
    generalize Loader.move rd.mImage (toIntptr addr) .Begin c = c1 at hm hr ⊢
    generalize Loader.move rd.mImage (toIntptr addr) .Begin d = d1 at hm hr ⊢
    unfold agree at hr
    cases hx : readVTable rd fuel c1 with
    | error e =>
      cases hy : readVTable rd fuel d1 with
      | error f =>
        rw [hx, hy] at hr
        simp only at hr
        subst hr
        rfl
      | ok q => rw [hx, hy] at hr; exact absurd hr id
    | ok p =>
      cases hy : readVTable rd fuel d1 with
      | error f => rw [hx, hy] at hr; exact absurd hr id
      | ok q =>
        obtain ⟨a, c2⟩ := p
        obtain ⟨b, d2⟩ := q
        rw [hx, hy] at hr
        simp only at hr
        obtain ⟨hab, hcd⟩ := hr
        subst hab
        cases a with
        | none => exact ih _ c2 d2 (Or.inr hcd)
        | some t => exact ih _ c2 d2 (Or.inr hcd)

theorem dumpVFTableScan_same (rd : ItaniumVTableReader) (fuel turns : Nat)
    (result : DumpVFTableResult) {c d : Cursor} (h : Cursor.same c d) :
    agree Cursor.alike (dumpVFTableScan rd fuel turns result c)
      (dumpVFTableScan rd fuel turns result d) := by
  rcases h with h | ⟨hc, hd⟩
  · rw [h]
    cases dumpVFTableScan rd fuel turns result d with
    | error e => rfl
    | ok p => exact ⟨rfl, Or.inr (Or.inl rfl)⟩
  · cases turns with
    | zero => rfl
    | succ n =>
      unfold dumpVFTableScan
      rw [Loader.cur_failed hc, Loader.cur_failed hd, Loader.read_intptr_failed _ hc,
        Loader.read_intptr_failed _ hd]
      simp only
      split
      · exact ⟨rfl, Or.inr (Or.inr ⟨hc, hd⟩)⟩
      · rfl

theorem dumpVFTable_alike (rd : ItaniumVTableReader) (fuel : Nat) {c d : Cursor}
    (h : Cursor.alike c d) :
    agree Cursor.alike (dumpVFTable rd fuel c) (dumpVFTable rd fuel d) := by
  unfold dumpVFTable
  split
  · exact dumpVFTableSymbols_alike rd fuel _ _ c d h
  · unfold Loader.moveToSection
    cases rd.mImage.sectionAddress rd._constant._segment_data with
    | none => exact ⟨rfl, h⟩
    | some va =>
      have hm := Loader.move_begin_alike rd.mImage (toIntptr va) h
      simp only
      generalize Loader.move rd.mImage (toIntptr va) .Begin c = c1 at hm ⊢
      generalize Loader.move rd.mImage (toIntptr va) .Begin d = d1 at hm ⊢
      have hg : Loader.good c1 = Loader.good d1 := by
        rcases hm with hm | ⟨h1, h2⟩
        · rw [hm]
        · unfold Loader.good; rw [h1, h2]
      rw [hg]
      cases Loader.good d1 with
      | false => exact ⟨rfl, Or.inr hm⟩
      | true => exact dumpVFTableScan_same rd fuel fuel _ hm

/-- C9 (amended): while the stream is good at entry, the results of `dumpVFTable` and
of `dumpTypeInfo` do not depend on the cursor position at entry; so a run of a dump
that ends with the stream still good is followed by a run with the same result. -/
theorem dump_entry_cursor (rd : ItaniumVTableReader) (fuel : Nat) (c d : Cursor)
    (hc : c.failed = false) (hd : d.failed = false) :
    Except.map Prod.fst (dumpVFTable rd fuel c) = Except.map Prod.fst (dumpVFTable rd fuel d) ∧
      Except.map Prod.fst (dumpTypeInfo rd c) = Except.map Prod.fst (dumpTypeInfo rd d) ∧
      (∀ r c', dumpVFTable rd fuel c = .ok (r, c') → c'.failed = false →
        Except.map Prod.fst (dumpVFTable rd fuel c') = .ok r) ∧
      (∀ r c', dumpTypeInfo rd c = .ok (r, c') → c'.failed = false →
        Except.map Prod.fst (dumpTypeInfo rd c') = .ok r) := by
  have hv : ∀ c d : Cursor, c.failed = false → d.failed = false →
      Except.map Prod.fst (dumpVFTable rd fuel c) = Except.map Prod.fst (dumpVFTable rd fuel d) :=
    fun c d hc hd => agree_map_fst (dumpVFTable_alike rd fuel (Or.inl ⟨hc, hd⟩))
  have ht : ∀ c d : Cursor, c.failed = false → d.failed = false →
      Except.map Prod.fst (dumpTypeInfo rd c) = Except.map Prod.fst (dumpTypeInfo rd d) :=
    fun c d hc hd =>
      agree_map_fst (dumpTypeInfoLoop_alike rd _ _ c d (Or.inl ⟨hc, hd⟩))
  refine ⟨hv c d hc hd, ht c d hc hd, ?_, ?_⟩
  · intro r c' hrun hc'
    rw [← hv c c' hc hc', hrun]
    rfl
  · intro r c' hrun hc'
    rw [← ht c c' hc hc', hrun]
    rfl

set_option maxRecDepth 100000 in
/-- Witness of C9 (amended): two runs of `dumpTypeInfo` on the example image; the
first ends with the stream good at 336, where the second starts. -/
theorem dump_entry_cursor_witness :
    dumpTypeInfo exampleReader ⟨0, false⟩
        = .ok (⟨3, 3, [typeInfoA, typeInfoB, typeInfoC]⟩, ⟨336, false⟩) ∧
      dumpTypeInfo exampleReader ⟨336, false⟩
        = .ok (⟨3, 3, [typeInfoA, typeInfoB, typeInfoC]⟩, ⟨336, false⟩) ∧
      (Except.map Prod.fst (dumpVFTable exampleReader 16 ⟨0, false⟩)
          = Except.map Prod.fst (dumpVFTable exampleReader 16 ⟨336, false⟩) ∧
        Except.map Prod.fst (dumpTypeInfo exampleReader ⟨0, false⟩)
          = Except.map Prod.fst (dumpTypeInfo exampleReader ⟨336, false⟩) ∧
        (∀ r c', dumpVFTable exampleReader 16 ⟨0, false⟩ = .ok (r, c') → c'.failed = false →
          Except.map Prod.fst (dumpVFTable exampleReader 16 c') = .ok r) ∧
        (∀ r c', dumpTypeInfo exampleReader ⟨0, false⟩ = .ok (r, c') → c'.failed = false →
          Except.map Prod.fst (dumpTypeInfo exampleReader c') = .ok r)) :=
  ⟨by decide, by decide, dump_entry_cursor exampleReader 16 ⟨0, false⟩ ⟨336, false⟩ rfl rfl⟩

set_option maxRecDepth 100000 in
/-- C9 fails as stated: in the image `tailBinary` the record at 64 takes up the last
24 bytes of the stream.  The first run of `dumpTypeInfo` reads its three words and
returns the record; the `move(-off)` that ends the third `read` aims at 88, past the
80 bytes of the stream, and leaves the stream failed.  In the second run
`move(64, Begin)` does nothing, `cur()` is `0xffffffffffffffff`, `readTypeInfo` throws
and the loop breaks: no record is returned. -/
theorem dumpTypeInfo_twice_differs :
    dumpTypeInfo tailReader ⟨0, false⟩
        = .ok (⟨1, 1, [.SingleInherit "_ZTI1B" "_ZTI1A" 0]⟩, ⟨80, true⟩) ∧
      dumpTypeInfo tailReader ⟨80, true⟩ = .ok (⟨1, 0, []⟩, ⟨80, true⟩) :=
  ⟨by decide, by decide⟩

/-! ## Properties of the constructor -/

theorem mem_emplace (set : List Nat) (v a : Nat) : a ∈ emplace set v ↔ a ∈ set ∨ a = v := by
  unfold emplace
  split
  · rename_i h
    constructor
    · intro ha; exact Or.inl ha
    · rintro (ha | ha)
      · exact ha
      · rw [ha]; exact h
  · simp

theorem prepareSymbols_vtableBegins (k : FormatConstants) (a : Nat) :
    ∀ (symbols : List Symbol) (p : PreparedData),
      a ∈ (prepareSymbols k symbols p).mVTableBegins ↔
        a ∈ p.mVTableBegins ∨
          ∃ s ∈ symbols, starts_with s.name k._prefix_vtable = true ∧ s.value = a := by
  intro symbols
  induction symbols with
  | nil => intro p; simp [prepareSymbols]
  | cons x rest ih =>
    intro p
    have ih' := ih
    unfold prepareSymbols at ih' ⊢
    rw [List.foldl_cons, ih']
    by_cases hx : starts_with x.name k._prefix_vtable = true
    · simp only [hx, if_true, mem_emplace, List.mem_cons, exists_eq_or_imp, true_and]
      constructor
      · rintro ((h | h) | h)
        · exact Or.inl h
        · exact Or.inr (Or.inl h.symm)
        · exact Or.inr (Or.inr h)
      · rintro (h | h | h)
        · exact Or.inl (Or.inl h)
        · exact Or.inl (Or.inr h.symm)
        · exact Or.inr h
    · have hmem : ∀ q : PreparedData,
          (if starts_with x.name k._prefix_typeinfo = true then
            ({ q with mTypeInfoBegins := emplace q.mTypeInfoBegins x.value } : PreparedData)
          else q).mVTableBegins = q.mVTableBegins := by
        intro q; split <;> rfl
      simp only [hx, if_false, hmem, List.mem_cons, exists_eq_or_imp, false_and, false_or,
        Bool.false_eq_true]

theorem prepareRelocations_vtableBegins (k : FormatConstants) :
    ∀ (relocations : List Relocation) (p : PreparedData),
      (prepareRelocations k relocations p).mVTableBegins = p.mVTableBegins := by
  intro relocations
  induction relocations with
  | nil => intro p; rfl
  | cons r rest ih =>
    intro p
    unfold prepareRelocations
    split
    · rfl
    · simp only
      split
      · rw [ih]
      · rw [ih]

/-- C10 (amended): on a valid ELF image `_prepareData` takes the members of
`mVTableBegins` from the static symbols (`symtab_symbols()`) alone.  Whatever
`_constant` holds while the constructor runs it, every member is the value of a static
symbol, and dynamic symbols are not looked at; run with the ELF constants in
`_constant`, `_prepareData` leaves `mVTableBegins` exactly the set of the values of the
static symbols whose name begins with `_ZTV`. -/
theorem new_vtableBegins (image : Executable)
    (hvalid : image.isValid = true) (hformat : image.format = .ELF) (a : Nat) :
    (∀ k0, a ∈ (ItaniumVTableReader.new image k0).mPrepared.mVTableBegins →
        ∃ s ∈ image.getImage.symtab_symbols, s.value = a) ∧
      (a ∈ (_prepareData image (_initFormatConstants image.format)).mVTableBegins ↔
        ∃ s ∈ image.getImage.symtab_symbols, starts_with s.name "_ZTV" = true ∧ s.value = a) := by
  have key : ∀ k, a ∈ (_prepareData image k).mVTableBegins ↔
      ∃ s ∈ image.getImage.symtab_symbols,
        starts_with s.name k._prefix_vtable = true ∧ s.value = a := by
    intro k
    unfold _prepareData
    simp only [hvalid, hformat, Bool.not_true, Bool.false_eq_true, if_false]
    rw [prepareRelocations_vtableBegins, prepareSymbols_vtableBegins]
    simp
  refine ⟨?_, ?_⟩
  · intro k0 ha
    have ha' : a ∈ (_prepareData image k0).mVTableBegins := ha
    obtain ⟨s, hs, _, hv⟩ := (key k0).mp ha'
    exact ⟨s, hs, hv⟩
  · rw [key, (_initFormatConstants_prefixes image.format).1]

set_option maxRecDepth 100000 in
/-- Witness of C10 (amended): the example image.  Run with the ELF constants,
`_prepareData` leaves the values 64, 152, 176 and 344 of the four symbols whose name
begins with `_ZTV`, and not the values 432 and 440 of the two function symbols. -/
theorem new_vtableBegins_witness :
    (ELF.view exampleBinary exampleBytes).isValid = true ∧
      (ELF.view exampleBinary exampleBytes).format = .ELF ∧
      (_prepareData (ELF.view exampleBinary exampleBytes)
          (_initFormatConstants (ELF.view exampleBinary exampleBytes).format)).mVTableBegins
        = [64, 152, 176, 344] ∧
      ((∀ k0,
          152 ∈ (ItaniumVTableReader.new (ELF.view exampleBinary exampleBytes)
            k0).mPrepared.mVTableBegins →
          ∃ s ∈ (ELF.view exampleBinary exampleBytes).getImage.symtab_symbols, s.value = 152) ∧
        (152 ∈ (_prepareData (ELF.view exampleBinary exampleBytes)
            (_initFormatConstants (ELF.view exampleBinary exampleBytes).format)).mVTableBegins ↔
          ∃ s ∈ (ELF.view exampleBinary exampleBytes).getImage.symtab_symbols,
            starts_with s.name "_ZTV" = true ∧ s.value = 152)) :=
  ⟨rfl, rfl, by decide,
    new_vtableBegins (ELF.view exampleBinary exampleBytes) rfl rfl 152⟩

set_option maxRecDepth 100000 in
/-- C10 fails as stated: the image `strippedBinary` has no static symbols and the
dynamic symbol `_ZTV1A` with value 64.  Whatever prefix is in force while
`_prepareData` runs (empty strings, or `_ZTV` already), `mVTableBegins` is left
empty, so 64 is not a member. -/
theorem new_vtableBegins_dynamic :
    (⟨"_ZTV1A", 64⟩ : Symbol) ∈ strippedBinary.dynamic_symbols ∧
      starts_with "_ZTV1A" "_ZTV" = true ∧
      (ItaniumVTableReader.new (ELF.view strippedBinary exampleBytes)
          emptyConstants).mPrepared.mVTableBegins = [] ∧
      (ItaniumVTableReader.new (ELF.view strippedBinary exampleBytes)
          (_initFormatConstants .ELF)).mPrepared.mVTableBegins = [] :=
  ⟨by decide, by decide, by decide, by decide⟩

theorem prepareSymbols_typeInfoBegins (k : FormatConstants) (a : Nat) :
    ∀ (symbols : List Symbol) (p : PreparedData),
      a ∈ (prepareSymbols k symbols p).mTypeInfoBegins ↔
        a ∈ p.mTypeInfoBegins ∨
          ∃ s ∈ symbols, starts_with s.name k._prefix_vtable = false ∧
            starts_with s.name k._prefix_typeinfo = true ∧ s.value = a := by
  intro symbols
  induction symbols with
  | nil => intro p; simp [prepareSymbols]
  | cons x rest ih =>
    intro p
    have ih' := ih
    unfold prepareSymbols at ih' ⊢
    rw [List.foldl_cons, ih']
    by_cases hv : starts_with x.name k._prefix_vtable = true
    · simp [hv]
    · have hv' : starts_with x.name k._prefix_vtable = false := by simpa using hv
      by_cases ht : starts_with x.name k._prefix_typeinfo = true
      · simp only [hv', ht, if_true, Bool.false_eq_true, if_false, mem_emplace, List.mem_cons,
          exists_eq_or_imp, true_and]
        constructor
        · rintro ((h | h) | h)
          · exact Or.inl h
          · exact Or.inr (Or.inl h.symm)
          · exact Or.inr (Or.inr h)
        · rintro (h | h | h)
          · exact Or.inl (Or.inl h)
          · exact Or.inl (Or.inr h.symm)
          · exact Or.inr h
      · simp [hv', ht]

theorem prepareRelocations_typeInfoBegins (k : FormatConstants) (a : Nat) :
    ∀ (relocations : List Relocation) (p : PreparedData),
      a ∈ (prepareRelocations k relocations p).mTypeInfoBegins ↔
        a ∈ p.mTypeInfoBegins ∨
          ∃ r ∈ relocations.takeWhile (fun r => r.symbol.isSome), ∃ sym, r.symbol = some sym ∧
            (sym.name = k._sym_class_info ∨ sym.name = k._sym_si_class_info ∨
              sym.name = k._sym_vmi_class_info) ∧ r.address = a := by
  intro relocations
  induction relocations with
  | nil => intro p; simp [prepareRelocations]
  | cons r rest ih =>
    intro p
    unfold prepareRelocations
    cases hs : r.symbol with
    | none => simp [List.takeWhile, hs]
    | some sym =>
      simp only [List.takeWhile, hs, Option.isSome_some, List.mem_cons, exists_eq_or_imp,
        Option.some.injEq, exists_eq_left']
      by_cases hn : sym.name = k._sym_class_info ∨ sym.name = k._sym_si_class_info ∨
          sym.name = k._sym_vmi_class_info
      · rw [if_pos hn, ih]
        simp only [mem_emplace, hn, true_and]
        constructor
        · rintro ((h | h) | h)
          · exact Or.inl h
          · exact Or.inr (Or.inl h.symm)
          · exact Or.inr (Or.inr h)
        · rintro (h | h | h)
          · exact Or.inl (Or.inl h)
          · exact Or.inl (Or.inr h.symm)
          · exact Or.inr h
      · rw [if_neg hn, ih]
        simp only [hn, false_and, false_or]

/-- The contents of `mTypeInfoBegins` after the constructor, in terms of the constants
that `_constant` holds while `_prepareData` runs. -/
theorem new_typeInfoBegins (image : Executable) (k0 : FormatConstants)
    (hvalid : image.isValid = true) (hformat : image.format = .ELF) (a : Nat) :
    a ∈ (ItaniumVTableReader.new image k0).mPrepared.mTypeInfoBegins ↔
      (∃ s ∈ image.getImage.symtab_symbols, starts_with s.name k0._prefix_vtable = false ∧
          starts_with s.name k0._prefix_typeinfo = true ∧ s.value = a) ∨
        ∃ r ∈ image.getImage.dynamic_relocations.takeWhile (fun r => r.symbol.isSome),
          ∃ sym, r.symbol = some sym ∧
            (sym.name = k0._sym_class_info ∨ sym.name = k0._sym_si_class_info ∨
              sym.name = k0._sym_vmi_class_info) ∧ r.address = a := by
  unfold ItaniumVTableReader.new _prepareData
  simp only [hvalid, hformat, Bool.not_true, Bool.false_eq_true, if_false]
  rw [prepareRelocations_typeInfoBegins, prepareSymbols_typeInfoBegins]
  simp

set_option maxRecDepth 100000 in
/-- C11, the code at the failing input: on the image `secondBinary` the constructor runs
`_prepareData` while the strings of `_constant` are still empty.  Every static symbol
name starts with the empty vtable prefix, so all their values go to `mVTableBegins`
and the value 128 of `_ZTI1A` is not in `mTypeInfoBegins`; the only relocation taken
is the one at 72, whose symbol has the empty name.  Had `_constant` held the ELF
constants, the set would be as C11 says: 128 and 280 from the symbols, 248 from the
relocations before the one without symbol. -/
theorem new_typeInfoBegins_before_constants :
    (⟨"_ZTI1A", 128⟩ : Symbol) ∈ secondBinary.symtab_symbols ∧
      (ItaniumVTableReader.new (ELF.view secondBinary exampleBytes) emptyConstants).mPrepared
        = ⟨[64, 152, 176, 344, 432, 440, 128, 280, 168, 360, 376], [72]⟩ ∧
      128 ∉ (ItaniumVTableReader.new (ELF.view secondBinary exampleBytes)
        emptyConstants).mPrepared.mTypeInfoBegins ∧
      (ItaniumVTableReader.new (ELF.view secondBinary exampleBytes)
        (_initFormatConstants .ELF)).mPrepared.mTypeInfoBegins = [128, 280, 248] :=
  ⟨by decide, by decide, by decide, by decide⟩

/-! ## Further properties of `readVTable` -/

/-- With no fuel the model of `readVTable` returns no table. -/
theorem readVTable_zero_fuel {rd : ItaniumVTableReader} {c c' : Cursor} {v : VTable}
    (h : readVTable rd 0 c = .ok (some v, c')) : False := by
  unfold readVTable readVTableTraced at h
  have hfrom : ∀ symbol, readVTableFrom rd 0 symbol c = .error .out_of_fuel := by
    intro symbol; rfl
  split at h
  · cases h
  · rename_i r c1 htr
    split at htr
    · split at htr
      · injection htr with htr; injection htr with h1 h2
        subst h1
        injection h with h; injection h with h3 h4
        cases h3
      · rw [hfrom] at htr; cases htr
    · rw [hfrom] at htr; cases htr

/-- A negative first word outside the text section makes the loop return nothing. -/
theorem readVTableFrom_negative {rd : ItaniumVTableReader} {c c1 : Cursor} {value : Int}
    (fuel : Nat) (symbol : Option String)
    (hread : Loader.read_intptr rd.mImage c = .ok (value, c1))
    (hsec : rd.mImage.isInSection (toUintptr value) rd._constant._segment_text = false)
    (hneg : value < 0) : readVTableFrom rd (fuel + 1) symbol c = .ok (none, c1) := by
  have hturn : readVTableTurn rd ⟨"", [], symbol, 0, "", []⟩ c = .ok (.nullopt c1) := by
    unfold readVTableTurn
    rw [hread]
    have h1 : ¬ value > 0 := by omega
    have h2 : value ≠ 0 := by omega
    simp [hsec, h1, h2]
  unfold readVTableFrom readVTableLoop
  rw [hturn]

/-- C12 (amended): when the first word at the start address is negative and outside the
text section, `readVTable` returns nothing.  So every table that `readVTable` returns
was parsed from an address whose first word is 0, or positive, or an address of the
text section. -/
theorem readVTable_first_word (rd : ItaniumVTableReader) (c c1 : Cursor) (value : Int)
    (hread : Loader.read_intptr rd.mImage c = .ok (value, c1)) :
    (rd.mImage.isInSection (toUintptr value) rd._constant._segment_text = false → value < 0 →
        ∀ fuel, ∃ c', readVTable rd (fuel + 1) c = .ok (none, c')) ∧
      (∀ fuel v c', readVTable rd fuel c = .ok (some v, c') →
        value = 0 ∨ value > 0 ∨
          rd.mImage.isInSection (toUintptr value) rd._constant._segment_text = true) := by
  have hfirst : rd.mImage.isInSection (toUintptr value) rd._constant._segment_text = false →
      value < 0 → ∀ fuel, ∃ c', readVTable rd (fuel + 1) c = .ok (none, c') := by
    intro hsec hneg fuel
    unfold readVTable readVTableTraced
    cases rd.mImage.lookupSymbol (Loader.cur c) with
    | none =>
      simp only [readVTableFrom_negative fuel none hread hsec hneg]
      exact ⟨c1, rfl⟩
    | some s =>
      simp only [readVTableFrom_negative fuel (some s.name) hread hsec hneg]
      by_cases hp : (!starts_with s.name rd._constant._prefix_vtable) = true
      · simp only [hp, if_true]
        exact ⟨c, rfl⟩
      · simp only [hp, if_false]
        exact ⟨c1, rfl⟩
  refine ⟨hfirst, ?_⟩
  intro fuel v c' h
  by_contra hcon
  have h0 : value ≠ 0 := fun h0 => hcon (Or.inl h0)
  have hpos : ¬ value > 0 := fun hp => hcon (Or.inr (Or.inl hp))
  have hsec : rd.mImage.isInSection (toUintptr value) rd._constant._segment_text = false := by
    cases hs : rd.mImage.isInSection (toUintptr value) rd._constant._segment_text with
    | false => rfl
    | true => exact absurd (Or.inr (Or.inr hs)) hcon
  cases fuel with
  | zero => exact readVTable_zero_fuel h
  | succ n =>
    obtain ⟨c2, hnone⟩ := hfirst hsec (by omega) n
    rw [hnone] at h
    injection h with h; injection h with h1 h2
    cases h1

set_option maxRecDepth 100000 in
/-- Witness of C12 (amended): at 96 of the example image stands the word `-16`. -/
theorem readVTable_first_word_witness :
    Loader.read_intptr exampleReader.mImage ⟨96, false⟩ = .ok (-16, ⟨104, false⟩) ∧
      readVTable exampleReader 16 ⟨96, false⟩ = .ok (none, ⟨104, false⟩) ∧
      ((exampleReader.mImage.isInSection (toUintptr (-16)) exampleReader._constant._segment_text
            = false → (-16 : Int) < 0 →
          ∀ fuel, ∃ c', readVTable exampleReader (fuel + 1) ⟨96, false⟩ = .ok (none, c')) ∧
        (∀ fuel v c', readVTable exampleReader fuel ⟨96, false⟩ = .ok (some v, c') →
          (-16 : Int) = 0 ∨ (-16 : Int) > 0 ∨
            exampleReader.mImage.isInSection (toUintptr (-16))
              exampleReader._constant._segment_text = true)) :=
  ⟨by decide, by decide,
    readVTable_first_word exampleReader ⟨96, false⟩ ⟨104, false⟩ (-16) (by decide)⟩

set_option maxRecDepth 100000 in
/-- C12 fails as stated: in the image `secondBinary` the symbol `_ZTV1V` is at 168, where
the positive word 5 stands, and the symbol `_ZTV1W` is at 360, where a pointer into the
text section stands.  From 168 `readVTable` returns a table without subtable, from 360 a
table whose subtable 0 starts with that pointer. -/
theorem readVTable_first_word_nonzero :
    Loader.read_intptr secondReader.mImage ⟨168, false⟩ = .ok (5, ⟨176, false⟩) ∧
      readVTable secondReader 16 ⟨168, false⟩ = .ok (some ⟨"_ZTV1V", "", []⟩, ⟨176, false⟩) ∧
      Loader.read_intptr secondReader.mImage ⟨360, false⟩ = .ok (432, ⟨368, false⟩) ∧
      readVTable secondReader 16 ⟨360, false⟩
        = .ok (some ⟨"_ZTV1W", "", [(0, [⟨some "_ZN1A1fEv", 432⟩])]⟩, ⟨376, false⟩) :=
  ⟨by decide, by decide, by decide, by decide⟩

/-- C13: when `lookupSymbol` at the cursor finds a symbol whose name does not begin with
`_ZTV`, `readVTable` returns nothing and leaves the cursor as it was; it does so with
no fuel at all, that is, before the first turn of its loop reads a word. -/
theorem readVTable_not_vtable (rd : ItaniumVTableReader)
    (hk : rd._constant = _initFormatConstants rd.mImage.format) (c : Cursor) (s : Symbol)
    (hsym : rd.mImage.lookupSymbol (Loader.cur c) = some s)
    (hname : starts_with s.name "_ZTV" = false) (fuel : Nat) :
    readVTable rd fuel c = .ok (none, c) := by
  have hpre : rd._constant._prefix_vtable = "_ZTV" := by
    rw [hk]; exact (_initFormatConstants_prefixes _).1
  unfold readVTable readVTableTraced
  rw [hsym]
  simp only [hpre, hname, Bool.not_false, if_true]
  rfl

set_option maxRecDepth 100000 in
/-- Witness of C13: at 432 of the example image the symbol `_ZN1A1fEv` is found. -/
theorem readVTable_not_vtable_witness :
    exampleReader._constant = _initFormatConstants exampleReader.mImage.format ∧
      exampleReader.mImage.lookupSymbol (Loader.cur ⟨432, false⟩) = some ⟨"_ZN1A1fEv", 432⟩ ∧
      starts_with "_ZN1A1fEv" "_ZTV" = false ∧
      readVTable exampleReader 0 ⟨432, false⟩ = .ok (none, ⟨432, false⟩) :=
  ⟨rfl, by decide, by decide,
    readVTable_not_vtable exampleReader rfl ⟨432, false⟩ ⟨"_ZN1A1fEv", 432⟩ (by decide)
      (by decide) 0⟩

/-! ## Further properties of `readTypeInfo` -/

/-- The three indicator names of a format are different from each other. -/
theorem _initFormatConstants_distinct (format : Format) :
    (_initFormatConstants format)._sym_class_info ≠ (_initFormatConstants format)._sym_si_class_info ∧
      (_initFormatConstants format)._sym_class_info
        ≠ (_initFormatConstants format)._sym_vmi_class_info ∧
      (_initFormatConstants format)._sym_si_class_info
        ≠ (_initFormatConstants format)._sym_vmi_class_info := by
  cases format <;> exact ⟨by decide, by decide, by decide⟩

/-- The branch of `readTypeInfo` that a returned record comes from. -/
theorem readTypeInfo_some {rd : ItaniumVTableReader} {c c' : Cursor} {t : TypeInfo}
    (h : readTypeInfo rd c = .ok (some t, c')) :
    ∃ word c1 sym, Loader.cur c ≠ 0xffffffffffffffff ∧
      Loader.read_intptr rd.mImage c = .ok (word, c1) ∧
      rd.mImage.lookupSymbol (toUintptr (word - 0x10)) = some sym ∧
      ((sym.name = rd._constant._sym_class_info ∧ t.kind = .None) ∨
       (sym.name ≠ rd._constant._sym_class_info ∧ sym.name = rd._constant._sym_si_class_info ∧
          t.kind = .Single) ∨
       (sym.name ≠ rd._constant._sym_class_info ∧ sym.name ≠ rd._constant._sym_si_class_info ∧
          sym.name = rd._constant._sym_vmi_class_info ∧ t.kind = .Multiple)) := by
  unfold readTypeInfo at h
  simp only at h
  split at h
  · cases h
  · rename_i hcur
    split at h
    · cases h
    · rename_i word c1 hread
      split at h
      · cases h
      · rename_i sym hsym
        refine ⟨word, c1, sym, hcur, hread, hsym, ?_⟩
        split at h
        · rename_i hn
          left
          refine ⟨hn, ?_⟩
          repeat' split at h
          all_goals first
            | (cases h; done)
            | (injection h with h; injection h with h1 h2; injection h1 with h1
               subst h1; rfl)
        · rename_i hn1
          split at h
          · rename_i hn2
            right; left
            refine ⟨hn1, hn2, ?_⟩
            repeat' split at h
            all_goals first
              | (cases h; done)
              | (injection h with h; injection h with h1 h2; injection h1 with h1
                 subst h1; rfl)
          · rename_i hn2
            split at h
            · rename_i hn3
              right; right
              refine ⟨hn1, hn2, hn3, ?_⟩
              repeat' split at h
              all_goals first
                | (cases h; done)
                | (injection h with h; injection h with h1 h2; injection h1 with h1
                   subst h1; rfl)
            · cases h

/-- C14: a record that `readTypeInfo` returns comes from a first word such that
`lookupSymbol` at that word minus `0x10` finds a symbol named as one of the three RTTI
indicators, and its kind is None, Single or Multiple exactly according to which of
the three it is.  When no symbol is found there, or the symbol has another name,
`readTypeInfo` returns nothing. -/
theorem readTypeInfo_dispatch (rd : ItaniumVTableReader)
    (hk : rd._constant = _initFormatConstants rd.mImage.format) (c : Cursor) :
    (∀ t c', readTypeInfo rd c = .ok (some t, c') →
        ∃ word c1 sym, Loader.read_intptr rd.mImage c = .ok (word, c1) ∧
          rd.mImage.lookupSymbol (toUintptr (word - 0x10)) = some sym ∧
          (sym.name = rd._constant._sym_class_info ∨
            sym.name = rd._constant._sym_si_class_info ∨
            sym.name = rd._constant._sym_vmi_class_info) ∧
          (t.kind = .None ↔ sym.name = rd._constant._sym_class_info) ∧
          (t.kind = .Single ↔ sym.name = rd._constant._sym_si_class_info) ∧
          (t.kind = .Multiple ↔ sym.name = rd._constant._sym_vmi_class_info)) ∧
      (∀ word c1, Loader.cur c ≠ 0xffffffffffffffff →
        Loader.read_intptr rd.mImage c = .ok (word, c1) →
        (rd.mImage.lookupSymbol (toUintptr (word - 0x10)) = none ∨
          ∃ sym, rd.mImage.lookupSymbol (toUintptr (word - 0x10)) = some sym ∧
            sym.name ≠ rd._constant._sym_class_info ∧
            sym.name ≠ rd._constant._sym_si_class_info ∧
            sym.name ≠ rd._constant._sym_vmi_class_info) →
        readTypeInfo rd c = .ok (none, c1)) := by
  obtain ⟨d1, d2, d3⟩ := _initFormatConstants_distinct rd.mImage.format
  rw [← hk] at d1 d2 d3
  refine ⟨?_, ?_⟩
  · intro t c' h
    obtain ⟨word, c1, sym, _, hread, hsym, hcase⟩ := readTypeInfo_some h
    refine ⟨word, c1, sym, hread, hsym, ?_⟩
    rcases hcase with ⟨hn, hkind⟩ | ⟨hn1, hn, hkind⟩ | ⟨hn1, hn2, hn, hkind⟩
    · refine ⟨Or.inl hn, ?_, ?_, ?_⟩
      · exact ⟨fun _ => hn, fun _ => hkind⟩
      · rw [hkind, hn]; exact ⟨fun h => (by cases h), fun h => absurd h d1⟩
      · rw [hkind, hn]; exact ⟨fun h => (by cases h), fun h => absurd h d2⟩
    · refine ⟨Or.inr (Or.inl hn), ?_, ?_, ?_⟩
      · rw [hkind]; exact ⟨fun h => (by cases h), fun h => absurd h hn1⟩
      · exact ⟨fun _ => hn, fun _ => hkind⟩
      · rw [hkind, hn]; exact ⟨fun h => (by cases h), fun h => absurd h d3⟩
    · refine ⟨Or.inr (Or.inr hn), ?_, ?_, ?_⟩
      · rw [hkind]; exact ⟨fun h => (by cases h), fun h => absurd h hn1⟩
      · rw [hkind]; exact ⟨fun h => (by cases h), fun h => absurd h hn2⟩
      · exact ⟨fun _ => hn, fun _ => hkind⟩
  · intro word c1 hcur hread hcase
    unfold readTypeInfo
    simp only [hcur, if_false, hread]
    rcases hcase with hnone | ⟨sym, hsym, h1, h2, h3⟩
    · rw [hnone]
    · rw [hsym]
      simp only [h1, h2, h3, if_false]

set_option maxRecDepth 100000 in
/-- Witness of C14: the record at 248 of the example image, and the word at 64, which
leads to no symbol. -/
theorem readTypeInfo_dispatch_witness :
    exampleReader._constant = _initFormatConstants exampleReader.mImage.format ∧
      readTypeInfo exampleReader ⟨248, false⟩ = .ok (some typeInfoB, ⟨272, false⟩) ∧
      (∃ word c1 sym, Loader.read_intptr exampleReader.mImage ⟨248, false⟩ = .ok (word, c1) ∧
        exampleReader.mImage.lookupSymbol (toUintptr (word - 0x10)) = some sym ∧
        (sym.name = exampleReader._constant._sym_class_info ∨
          sym.name = exampleReader._constant._sym_si_class_info ∨
          sym.name = exampleReader._constant._sym_vmi_class_info) ∧
        (typeInfoB.kind = .None ↔ sym.name = exampleReader._constant._sym_class_info) ∧
        (typeInfoB.kind = .Single ↔ sym.name = exampleReader._constant._sym_si_class_info) ∧
        (typeInfoB.kind = .Multiple ↔ sym.name = exampleReader._constant._sym_vmi_class_info)) ∧
      readTypeInfo exampleReader ⟨64, false⟩ = .ok (none, ⟨72, false⟩) :=
  ⟨rfl, by decide,
    (readTypeInfo_dispatch exampleReader rfl ⟨248, false⟩).1 typeInfoB ⟨272, false⟩ (by decide),
    (readTypeInfo_dispatch exampleReader rfl ⟨64, false⟩).2 0 ⟨72, false⟩ (by decide)
      (by decide) (Or.inl (by decide))⟩

/-- The list that `readBases` returns is the list it was given followed by one entry
for each turn, decoded from the pairs that follow each other from the cursor. -/
theorem readBases_some {rd : ItaniumVTableReader} (count : Nat) :
    ∀ (acc : List BaseClassInfo) (c c' : Cursor) (bs : List BaseClassInfo),
      readBases rd count acc c = .ok (some bs, c') →
      ∃ new, bs = acc ++ new ∧ new.length = count ∧ basesFrom rd new c c' := by
  induction count with
  | zero =>
    intro acc c c' bs h
    unfold readBases at h
    injection h with h; injection h with h1 h2; injection h1 with h1
    subst h1; subst h2
    exact ⟨[], by simp, rfl, rfl⟩
  | succ n ih =>
    intro acc c c' bs h
    unfold readBases at h
    split at h
    · cases h
    · rename_i mName c1 hz
      split at h
      · cases h
      · rename_i hne
        split at h
        · cases h
        · rename_i flag c2 hread
          obtain ⟨new, hbs, hlen, hfrom⟩ := ih _ c2 c' bs h
          refine ⟨decodeBase mName (toIntptr flag) :: new, ?_, ?_, ?_⟩
          · rw [hbs]; simp
          · simp [hlen]
          · exact ⟨mName, c1, flag, c2, hz, hne, hread, rfl, hfrom⟩

/-- When the name of a base decodes to the empty string, `readBases` returns nothing,
however many bases were read before it and are still to come. -/
theorem readBases_empty_name {rd : ItaniumVTableReader} (cK cE : Cursor)
    (hz : _readZTI rd cK = .ok ("", cE)) (more : Nat) :
    ∀ (pre acc : List BaseClassInfo) (c : Cursor), basesFrom rd pre c cK →
      readBases rd (pre.length + more + 1) acc c = .ok (none, cE) := by
  intro pre
  induction pre with
  | nil =>
    intro acc c hfrom
    have hc : c = cK := hfrom
    subst hc
    rw [List.length_nil, Nat.zero_add]
    unfold readBases
    rw [hz]
    simp
  | cons b rest ih =>
    intro acc c hfrom
    obtain ⟨mName, c1, flag, c2, hz1, hne, hread, _, hrest⟩ := hfrom
    have hlen : (b :: rest).length + more + 1 = (rest.length + more + 1) + 1 := by
      simp only [List.length_cons]; omega
    rw [hlen]
    unfold readBases
    rw [hz1]
    simp only [hne, if_false, hread]
    exact ih _ c2 hrest

/-- C15: in a `MultipleInheritTypeInfo` that `readTypeInfo` returns, the attribute is the
32-bit word after the name pointer, the number of bases is the 32-bit word after that,
and the bases are decoded, in order, from the pairs of typeinfo pointer and flag word
that follow.  When the name of one of the bases decodes to the empty string,
`readTypeInfo` returns nothing. -/
theorem readTypeInfo_bases (rd : ItaniumVTableReader)
    (hk : rd._constant = _initFormatConstants rd.mImage.format) (c : Cursor) :
    (∀ mName mAttribute mBaseClasses c',
        readTypeInfo rd c = .ok (some (.MultipleInherit mName mAttribute mBaseClasses), c') →
        ∃ word c1 value c2 c3 baseCount c4,
          Loader.read_intptr rd.mImage c = .ok (word, c1) ∧
          Loader.read_intptr rd.mImage c1 = .ok (value, c2) ∧
          Loader.read_uint rd.mImage c2 = .ok (mAttribute, c3) ∧
          Loader.read_uint rd.mImage c3 = .ok (baseCount, c4) ∧
          mBaseClasses.length = baseCount ∧ basesFrom rd mBaseClasses c4 c') ∧
      (∀ word c1 sym mName c2 mAttribute c3 baseCount c4 pre cK cE,
        Loader.cur c ≠ 0xffffffffffffffff →
        Loader.read_intptr rd.mImage c = .ok (word, c1) →
        rd.mImage.lookupSymbol (toUintptr (word - 0x10)) = some sym →
        sym.name = rd._constant._sym_vmi_class_info →
        _readZTS rd c1 = .ok (mName, c2) → mName ≠ "" →
        Loader.read_uint rd.mImage c2 = .ok (mAttribute, c3) →
        Loader.read_uint rd.mImage c3 = .ok (baseCount, c4) →
        basesFrom rd pre c4 cK → pre.length < baseCount → _readZTI rd cK = .ok ("", cE) →
        readTypeInfo rd c = .ok (none, cE)) := by
  obtain ⟨_, d2, d3⟩ := _initFormatConstants_distinct rd.mImage.format
  rw [← hk] at d2 d3
  refine ⟨?_, ?_⟩
  · intro mName mAttribute mBaseClasses c' h
    unfold readTypeInfo at h
    simp only at h
    split at h
    · cases h
    · split at h
      · cases h
      · rename_i word c1 hread
        split at h
        · cases h
        · split at h
          · repeat' split at h
            all_goals cases h
          · split at h
            · repeat' split at h
              all_goals cases h
            · split at h
              · split at h
                · cases h
                · rename_i name c2 hz
                  split at h
                  · cases h
                  · rename_i hne
                    split at h
                    · cases h
                    · rename_i attr c3 hattr
                      split at h
                      · cases h
                      · rename_i baseCount c4 hcount
                        split at h
                        · cases h
                        · cases h
                        · rename_i bs c5 hbases
                          injection h with h; injection h with h1 h2; injection h1 with h1
                          injection h1 with h3 h4 h5
                          subst h3; subst h4; subst h5; subst h2
                          obtain ⟨value, hread2, _⟩ := _readZTS_ok hz
                          obtain ⟨new, hbs, hlen, hfrom⟩ := readBases_some baseCount [] c4 _ _ hbases
                          rw [List.nil_append] at hbs
                          subst hbs
                          exact ⟨word, c1, value, c2, c3, baseCount, c4, hread, hread2, hattr,
                            hcount, hlen, hfrom⟩
              · cases h
  · intro word c1 sym mName c2 mAttribute c3 baseCount c4 pre cK cE hcur hread hsym hname hz hne
      hattr hcount hfrom hlt hempty
    have hcnt : baseCount = pre.length + (baseCount - pre.length - 1) + 1 := by omega
    have hb := readBases_empty_name cK cE hempty (baseCount - pre.length - 1) pre [] c4 hfrom
    rw [← hcnt] at hb
    unfold readTypeInfo
    simp only [hcur, if_false, hread, hsym, hname, Ne.symm d2, Ne.symm d3, if_true, hz, hne,
      hattr, hcount, hb]

set_option maxRecDepth 100000 in
/-- Witness of C15: the record at 280 of the example image, with its two bases; and the
same record with a second base pointer that resolves to nothing, for which
`readTypeInfo` returns nothing. -/
theorem readTypeInfo_bases_witness :
    exampleReader._constant = _initFormatConstants exampleReader.mImage.format ∧
      readTypeInfo exampleReader ⟨280, false⟩
        = .ok (some (.MultipleInherit "_ZTI1C" 0
            [⟨"_ZTI1A", 1, 2⟩, ⟨"_ZTVN10__cxxabiv117__class_type_infoE", 255, 255⟩]),
          ⟨336, false⟩) ∧
      (∃ word c1 value c2 c3 baseCount c4,
        Loader.read_intptr exampleReader.mImage ⟨280, false⟩ = .ok (word, c1) ∧
        Loader.read_intptr exampleReader.mImage c1 = .ok (value, c2) ∧
        Loader.read_uint exampleReader.mImage c2 = .ok (0, c3) ∧
        Loader.read_uint exampleReader.mImage c3 = .ok (baseCount, c4) ∧
        [(⟨"_ZTI1A", 1, 2⟩ : BaseClassInfo),
            ⟨"_ZTVN10__cxxabiv117__class_type_infoE", 255, 255⟩].length = baseCount ∧
        basesFrom exampleReader
          [⟨"_ZTI1A", 1, 2⟩, ⟨"_ZTVN10__cxxabiv117__class_type_infoE", 255, 255⟩] c4
          ⟨336, false⟩) ∧
      readTypeInfo emptyBaseReader ⟨280, false⟩ = .ok (none, ⟨328, false⟩) :=
  ⟨rfl, by decide,
    (readTypeInfo_bases exampleReader rfl ⟨280, false⟩).1 "_ZTI1C" 0 _ ⟨336, false⟩ (by decide),
    (readTypeInfo_bases emptyBaseReader rfl ⟨280, false⟩).2 488 ⟨288, false⟩
      ⟨"_ZTVN10__cxxabiv121__vmi_class_type_infoE", 0⟩ "_ZTI1C" ⟨296, false⟩ 0 ⟨300, false⟩ 2
      ⟨304, false⟩ [⟨"_ZTI1A", 1, 2⟩] ⟨320, false⟩ ⟨328, false⟩ (by decide) (by decide)
      (by decide) (by decide) (by decide) (by decide) (by decide) (by decide)
      ⟨"_ZTI1A", ⟨312, false⟩, 0x102, ⟨320, false⟩, by decide, by decide, by decide, by decide,
        rfl⟩
      (by decide) (by decide)⟩

/-! ## The flag words of the base classes -/

/-- The entry that `decodeBase` makes of a flag word is the one of its bits. -/
theorem decodeBase_bits (mName : String) (flag : Nat) :
    decodeBase mName (toIntptr flag) = bitsOfFlag mName flag :=
  decodeBase_fields mName flag

/-- The loop over the base classes reads `count` pairs of name and flag word that follow
each other, and appends for each the entry made of the bits of its flag word. -/
theorem readBases_flags {rd : ItaniumVTableReader} (count : Nat) :
    ∀ (acc : List BaseClassInfo) (c c' : Cursor) (bs : List BaseClassInfo),
      readBases rd count acc c = .ok (some bs, c') →
      ∃ entries : List (String × Nat), entries.length = count ∧ flagsFrom rd entries c c' ∧
        bs = acc ++ entries.map (fun e => bitsOfFlag e.1 e.2) := by
  induction count with
  | zero =>
    intro acc c c' bs h
    unfold readBases at h
    injection h with h; injection h with h1 h2; injection h1 with h1
    subst h1; subst h2
    exact ⟨[], rfl, rfl, by simp⟩
  | succ n ih =>
    intro acc c c' bs h
    unfold readBases at h
    split at h
    · cases h
    · rename_i mName c1 hz
      split at h
      · cases h
      · rename_i hne
        split at h
        · cases h
        · rename_i flag c2 hread
          obtain ⟨entries, hlen, hfrom, hbs⟩ := ih _ c2 c' bs h
          refine ⟨(mName, flag) :: entries, by simp [hlen], ⟨c1, c2, hz, hne, hread, hfrom⟩, ?_⟩
          rw [hbs, decodeBase_bits]
          simp

/-- Pairs of name and flag word that follow each other from the cursor make the loop
over the base classes return the list it was given followed by their entries. -/
theorem readBases_of_flags {rd : ItaniumVTableReader} :
    ∀ (entries : List (String × Nat)) (acc : List BaseClassInfo) (c c' : Cursor),
      flagsFrom rd entries c c' →
      readBases rd entries.length acc c
        = .ok (some (acc ++ entries.map (fun e => bitsOfFlag e.1 e.2)), c') := by
  intro entries
  induction entries with
  | nil =>
    intro acc c c' h
    have hc : c = c' := h
    subst hc
    simp [readBases]
  | cons e rest ih =>
    intro acc c c' h
    obtain ⟨c1, c2, hz, hne, hread, hrest⟩ := h
    rw [List.length_cons]
    conv => lhs; unfold readBases
    simp only [hz, hne, if_false, hread]
    rw [ih _ c2 c' hrest, decodeBase_bits]
    simp

/-- The reads behind a `__vmi_class_type_info` record that `readTypeInfo` returns. -/
theorem readTypeInfo_multiple_reads {rd : ItaniumVTableReader} {c c' : Cursor} {n : String}
    {a : Nat} {bs : List BaseClassInfo}
    (h : readTypeInfo rd c = .ok (some (.MultipleInherit n a bs), c')) :
    ∃ word c1 c2 c3 baseCount c4,
      Loader.read_intptr rd.mImage c = .ok (word, c1) ∧
      _readZTS rd c1 = .ok (n, c2) ∧
      Loader.read_uint rd.mImage c2 = .ok (a, c3) ∧
      Loader.read_uint rd.mImage c3 = .ok (baseCount, c4) ∧
      readBases rd baseCount [] c4 = .ok (some bs, c') := by
  unfold readTypeInfo at h
  simp only at h
  split at h
  · cases h
  · split at h
    · cases h
    · rename_i word c1 hread
      split at h
      · cases h
      · split at h
        · repeat' split at h
          all_goals cases h
        · split at h
          · repeat' split at h
            all_goals cases h
          · split at h
            · split at h
              · cases h
              · rename_i name c2 hz
                split at h
                · cases h
                · rename_i hne
                  split at h
                  · cases h
                  · rename_i attr c3 hattr
                    split at h
                    · cases h
                    · rename_i baseCount c4 hcount
                      split at h
                      · cases h
                      · cases h
                      · rename_i bs0 c5 hbases
                        injection h with h; injection h with h1 h2; injection h1 with h1
                        injection h1 with h3 h4 h5
                        subst h3; subst h4; subst h5; subst h2
                        exact ⟨word, c1, c2, c3, baseCount, c4, hread, hz, hattr, hcount,
                          hbases⟩
            · cases h

/-- C7: the base-class entries of a record that `readTypeInfo` returns are made of the
bits of the flag words it reads.  In a `MultipleInheritTypeInfo` that is returned, the
bases are, in order, one entry for each pair of name and 64-bit flag word read after
the count, with mask = bits 7..0 and offset = bits 15..8 of the flag word, whatever its
higher bits (the sign bit included); and a record that holds such pairs after its count
is returned with exactly those entries.  The flag word `0x0000000000000102` gives
offset 1 and mask 2. -/
theorem readTypeInfo_flag_bits (rd : ItaniumVTableReader)
    (hk : rd._constant = _initFormatConstants rd.mImage.format) (c : Cursor) :
    (∀ mName mAttribute mBaseClasses c',
        readTypeInfo rd c = .ok (some (.MultipleInherit mName mAttribute mBaseClasses), c') →
        ∃ word c1 c2 c3 c4, ∃ entries : List (String × Nat),
          Loader.read_intptr rd.mImage c = .ok (word, c1) ∧
          _readZTS rd c1 = .ok (mName, c2) ∧
          Loader.read_uint rd.mImage c2 = .ok (mAttribute, c3) ∧
          Loader.read_uint rd.mImage c3 = .ok (entries.length, c4) ∧
          flagsFrom rd entries c4 c' ∧
          mBaseClasses = entries.map (fun e => bitsOfFlag e.1 e.2)) ∧
      (∀ word c1 sym mName c2 mAttribute c3 c4 (entries : List (String × Nat)) c5,
        Loader.cur c ≠ 0xffffffffffffffff →
        Loader.read_intptr rd.mImage c = .ok (word, c1) →
        rd.mImage.lookupSymbol (toUintptr (word - 0x10)) = some sym →
        sym.name = rd._constant._sym_vmi_class_info →
        _readZTS rd c1 = .ok (mName, c2) → mName ≠ "" →
        Loader.read_uint rd.mImage c2 = .ok (mAttribute, c3) →
        Loader.read_uint rd.mImage c3 = .ok (entries.length, c4) →
        flagsFrom rd entries c4 c5 →
        readTypeInfo rd c
          = .ok (some (.MultipleInherit mName mAttribute
              (entries.map (fun e => bitsOfFlag e.1 e.2))), c5)) ∧
      (∀ mName, decodeBase mName (toIntptr 0x0000000000000102) = ⟨mName, 1, 2⟩ ∧
        bitsOfFlag mName 0x0000000000000102 = ⟨mName, 1, 2⟩) := by
  obtain ⟨_, d2, d3⟩ := _initFormatConstants_distinct rd.mImage.format
  rw [← hk] at d2 d3
  refine ⟨?_, ?_, ?_⟩
  · intro mName mAttribute mBaseClasses c' h
    obtain ⟨word, c1, c2, c3, baseCount, c4, hread, hz, hattr, hcount, hbases⟩ :=
      readTypeInfo_multiple_reads h
    obtain ⟨entries, hlen, hfrom, hbs⟩ := readBases_flags baseCount [] c4 c' _ hbases
    rw [List.nil_append] at hbs
    rw [← hlen] at hcount
    exact ⟨word, c1, c2, c3, c4, entries, hread, hz, hattr, hcount, hfrom, hbs⟩
  · intro word c1 sym mName c2 mAttribute c3 c4 entries c5 hcur hread hsym hname hz hne hattr
      hcount hfrom
    have hb := readBases_of_flags entries [] c4 c5 hfrom
    rw [List.nil_append] at hb
    unfold readTypeInfo
    simp only [hcur, if_false, hread, hsym, hname, Ne.symm d2, Ne.symm d3, if_true, hz, hne,
      hattr, hcount, hb]
  · intro mName
    have h : bitsOfFlag mName 0x0000000000000102 = ⟨mName, 1, 2⟩ := by
      unfold bitsOfFlag
      norm_num
    exact ⟨by rw [decodeBase_bits, h], h⟩

set_option maxRecDepth 100000 in
/-- Witness of C7: the record at 280 of the example image.  Its two bases have the flag
words `0x102` and all ones (sign bit set); the record returned has the entries with
offset 1, mask 2 and offset 255, mask 255. -/
theorem readTypeInfo_flag_bits_witness :
    exampleReader._constant = _initFormatConstants exampleReader.mImage.format ∧
      flagsFrom exampleReader
        [("_ZTI1A", 0x102), ("_ZTVN10__cxxabiv117__class_type_infoE", 2 ^ 64 - 1)]
        ⟨304, false⟩ ⟨336, false⟩ ∧
      readTypeInfo exampleReader ⟨280, false⟩
        = .ok (some (.MultipleInherit "_ZTI1C" 0
            ([("_ZTI1A", 0x102), ("_ZTVN10__cxxabiv117__class_type_infoE", 2 ^ 64 - 1)].map
              (fun e => bitsOfFlag e.1 e.2))), ⟨336, false⟩) ∧
      [("_ZTI1A", 0x102), ("_ZTVN10__cxxabiv117__class_type_infoE", 2 ^ 64 - 1)].map
          (fun e => bitsOfFlag e.1 e.2)
        = [⟨"_ZTI1A", 1, 2⟩, ⟨"_ZTVN10__cxxabiv117__class_type_infoE", 255, 255⟩] ∧
      (∃ word c1 c2 c3 c4, ∃ entries : List (String × Nat),
        Loader.read_intptr exampleReader.mImage ⟨280, false⟩ = .ok (word, c1) ∧
        _readZTS exampleReader c1 = .ok ("_ZTI1C", c2) ∧
        Loader.read_uint exampleReader.mImage c2 = .ok (0, c3) ∧
        Loader.read_uint exampleReader.mImage c3 = .ok (entries.length, c4) ∧
        flagsFrom exampleReader entries c4 ⟨336, false⟩ ∧
        [(⟨"_ZTI1A", 1, 2⟩ : BaseClassInfo),
            ⟨"_ZTVN10__cxxabiv117__class_type_infoE", 255, 255⟩]
          = entries.map (fun e => bitsOfFlag e.1 e.2)) :=
  ⟨rfl,
    ⟨⟨312, false⟩, ⟨320, false⟩, by decide, by decide, by decide,
      ⟨328, false⟩, ⟨336, false⟩, by decide, by decide, by decide, rfl⟩,
    (readTypeInfo_flag_bits exampleReader rfl ⟨280, false⟩).2.1 488 ⟨288, false⟩
      ⟨"_ZTVN10__cxxabiv121__vmi_class_type_infoE", 0⟩ "_ZTI1C" ⟨296, false⟩ 0 ⟨300, false⟩
      ⟨304, false⟩
      [("_ZTI1A", 0x102), ("_ZTVN10__cxxabiv117__class_type_infoE", 2 ^ 64 - 1)] ⟨336, false⟩
      (by decide) (by decide) (by decide) (by decide) (by decide) (by decide) (by decide)
      (by decide)
      ⟨⟨312, false⟩, ⟨320, false⟩, by decide, by decide, by decide,
        ⟨328, false⟩, ⟨336, false⟩, by decide, by decide, by decide, rfl⟩,
    by decide,
    (readTypeInfo_flag_bits exampleReader rfl ⟨280, false⟩).1 "_ZTI1C" 0 _ ⟨336, false⟩
      (by decide)⟩

end ItaniumVTableReader

/-! ## Properties of `_relocateReadonlyData` -/

theorem leEncode_length (n v : Nat) : (leEncode n v).length = n := by
  induction n generalizing v with
  | zero => rfl
  | succ k ih => simp [leEncode, ih]

theorem slot_patch_same (bytes enc : List Nat) (p : Nat) (hp : p ≤ bytes.length)
    (henc : enc.length = 8) : slot (bytes.take p ++ enc ++ bytes.drop (p + 8)) p = enc := by
  unfold slot
  rw [List.append_assoc, List.drop_left' (List.length_take_of_le hp), List.take_left' henc]

theorem slot_patch_other (bytes enc : List Nat) (p o : Nat) (hp : p ≤ bytes.length)
    (henc : enc.length = 8) (hdis : o + 8 ≤ p ∨ p + 8 ≤ o) :
    slot (bytes.take p ++ enc ++ bytes.drop (p + 8)) o = slot bytes o := by
  unfold slot
  rcases hdis with h | h
  · rw [List.take_drop, List.take_drop, List.append_assoc,
      List.take_append_of_le_length (by rw [List.length_take_of_le hp]; exact h),
      List.take_take, Nat.min_eq_left h]
  · have hlen : (bytes.take p ++ enc).length = p + 8 := by
      rw [List.length_append, List.length_take_of_le hp, henc]
    have ho : o = (bytes.take p ++ enc).length + (o - (p + 8)) := by rw [hlen]; omega
    conv => lhs; rw [ho, List.drop_append, List.drop_drop]
    have : p + 8 + (o - (p + 8)) = o := by omega
    rw [this]

theorem length_patch (bytes enc : List Nat) (p : Nat) (hp : p ≤ bytes.length)
    (henc : enc.length = 8) :
    bytes.length ≤ (bytes.take p ++ enc ++ bytes.drop (p + 8)).length := by
  rw [List.length_append, List.length_append, List.length_take_of_le hp, henc, List.length_drop]
  omega

theorem toIntptr_of_lt {o : Nat} (h : o < 2 ^ 63) : toIntptr o = (o : Int) := by
  unfold toIntptr
  have h1 : o % 2 ^ 64 = o := Nat.mod_eq_of_lt (by omega)
  rw [h1, if_pos h]

theorem toIntptr_nonneg {o : Nat} (h64 : o < 2 ^ 64) (h : 0 ≤ toIntptr o) :
    toIntptr o = (o : Int) := by
  unfold toIntptr at h ⊢
  have h1 : o % 2 ^ 64 = o := Nat.mod_eq_of_lt h64
  rw [h1] at h ⊢
  split
  · rfl
  · rename_i hge
    rw [if_neg hge] at h
    omega

namespace Loader

/-- A `write` on a good stream at an offset whose eight bytes lie inside the stream
puts the value there and leaves the stream good and of the same length. -/
theorem write_slot (st : List Nat × Cursor) (o v : Nat) (hgood : st.2.failed = false)
    (hsmall : o < 2 ^ 63) (hin : o + 8 ≤ st.1.length) :
    slot (write st o v).1 o = leEncode 8 v ∧ (write st o v).2.failed = false ∧
      st.1.length ≤ (write st o v).1.length := by
  have hseek : seek st.1.length (toIntptr o) .Begin st.2 = ⟨o, false⟩ := by
    unfold seek
    rw [toIntptr_of_lt hsmall]
    simp only [hgood, Bool.false_eq_true, if_false]
    rw [if_pos ⟨by omega, by omega⟩]
    simp
  unfold write
  simp only [hseek, Bool.false_eq_true, if_false]
  exact ⟨slot_patch_same _ _ _ (by omega) (leEncode_length 8 v), trivial,
    length_patch _ _ _ (by omega) (leEncode_length 8 v)⟩

/-- A `write` leaves the eight bytes at an offset that does not overlap its own as they
were, and does not shorten the stream. -/
theorem write_frame (st : List Nat × Cursor) (o2 v o : Nat) (h64 : o2 < 2 ^ 64)
    (hdis : o + 8 ≤ o2 ∨ o2 + 8 ≤ o) :
    slot (write st o2 v).1 o = slot st.1 o ∧ st.1.length ≤ (write st o2 v).1.length := by
  unfold write
  simp only
  by_cases hf : st.2.failed = true
  · have : seek st.1.length (toIntptr o2) .Begin st.2 = st.2 := by
      unfold seek; rw [if_pos hf]
    rw [this, if_pos hf]
    exact ⟨rfl, le_refl _⟩
  · by_cases hrange : 0 ≤ toIntptr o2 ∧ toIntptr o2 ≤ (st.1.length : Int)
    · have hseek : seek st.1.length (toIntptr o2) .Begin st.2 = ⟨o2, false⟩ := by
        unfold seek
        simp only [hf, if_false]
        rw [if_pos hrange, toIntptr_nonneg h64 hrange.1]
        simp
      have hle : o2 ≤ st.1.length := by
        have := hrange.2
        rw [toIntptr_nonneg h64 hrange.1] at this
        omega
      simp only [hseek, Bool.false_eq_true, if_false]
      exact ⟨slot_patch_other _ _ _ _ hle (leEncode_length 8 v) hdis,
        length_patch _ _ _ hle (leEncode_length 8 v)⟩
    · have hseek : seek st.1.length (toIntptr o2) .Begin st.2 = ⟨st.2.pos, true⟩ := by
        unfold seek
        simp [hf, hrange]
      rw [hseek, if_pos rfl]
      exact ⟨rfl, le_refl _⟩

end Loader

namespace ELF

/-- A turn of the loop of `_relocateReadonlyData` for a relocation whose slot does not
overlap the eight bytes at `o` leaves these bytes as they were. -/
theorem relocateOne_frame (b : Binary) (lo hi EOS gapInFront : Nat) (st : List Nat × Cursor)
    (q : Relocation) (o : Nat)
    (hdis : o + 8 ≤ (q.address + 2 ^ 64 - gapInFront) % 2 ^ 64 ∨
      (q.address + 2 ^ 64 - gapInFront) % 2 ^ 64 + 8 ≤ o) :
    slot (relocateOne b lo hi EOS gapInFront st q).1 o = slot st.1 o ∧
      st.1.length ≤ (relocateOne b lo hi EOS gapInFront st q).1.length := by
  unfold relocateOne
  simp only
  split
  · exact ⟨rfl, le_refl _⟩
  · split
    · exact Loader.write_frame st _ _ o (Nat.mod_lt _ (by norm_num)) hdis
    · exact ⟨rfl, le_refl _⟩

theorem relocate_foldl_frame (b : Binary) (lo hi EOS gapInFront : Nat) (o : Nat) :
    ∀ (post : List Relocation) (st : List Nat × Cursor),
      (∀ q ∈ post, o + 8 ≤ (q.address + 2 ^ 64 - gapInFront) % 2 ^ 64 ∨
        (q.address + 2 ^ 64 - gapInFront) % 2 ^ 64 + 8 ≤ o) →
      slot (post.foldl (relocateOne b lo hi EOS gapInFront) st).1 o = slot st.1 o := by
  intro post
  induction post with
  | nil => intro st _; rfl
  | cons q rest ih =>
    intro st h
    rw [List.foldl_cons, ih _ (fun q' hq' => h q' (List.mem_cons_of_mem _ hq'))]
    exact (relocateOne_frame b lo hi EOS gapInFront st q o (h q (List.mem_cons_self _ _))).1

/-- C16 (amended): for a relocation of type `R_X86_64_RELATIVE` or `R_AARCH64_RELATIVE`
that has a symbol and whose address passes the range test of `.data.rel.ro`, the eight
bytes at the address minus the gap hold the addend after `_relocateReadonlyData`,
also when the addend is zero, provided the stream is good when the loop reaches the
relocation, the eight bytes lie inside the stream, and no later relocation has a
slot that overlaps them. -/
theorem _relocateReadonlyData_relative (b : Binary) (roData : Section)
    (pre post : List Relocation) (r : Relocation) (s : Symbol) (file : List Nat × Cursor)
    (offset : Nat)
    (hsec : b.get_section ".data.rel.ro" = some roData)
    (hrel : b.dynamic_relocations = pre ++ r :: post)
    (htype : r.type = .X86_64_RELATIVE ∨ r.type = .AARCH64_RELATIVE)
    (hsym : r.symbol = some s)
    (hrange : ¬ (r.address < roData.virtual_address ∨
      r.address > (roData.virtual_address + roData.size) % 2 ^ 64))
    (hoff : offset = (r.address + 2 ^ 64 - getGapInFront b roData.virtual_address) % 2 ^ 64)
    (hgood : (relocateUpTo b pre file).2.failed = false)
    (hin : offset + 8 ≤ (relocateUpTo b pre file).1.length) (hsmall : offset < 2 ^ 63)
    (hpost : ∀ q ∈ post,
      offset + 8 ≤ (q.address + 2 ^ 64 - getGapInFront b roData.virtual_address) % 2 ^ 64 ∨
        (q.address + 2 ^ 64 - getGapInFront b roData.virtual_address) % 2 ^ 64 + 8 ≤ offset) :
    slot (_relocateReadonlyData b file).1 offset = leEncode 8 (toUintptr r.addend) := by
  have hvalue : relocationValue b (getEndOfSections b) r = some (toUintptr r.addend) := by
    unfold relocationValue
    rcases htype with ht | ht <;> simp [ht, hsym]
  unfold relocateUpTo at hgood hin
  rw [hsec] at hgood hin
  simp only at hgood hin
  unfold _relocateReadonlyData
  rw [hsec]
  simp only
  rw [hrel, List.foldl_append, List.foldl_cons, relocate_foldl_frame _ _ _ _ _ offset post _ hpost]
  have hone : ∀ st : List Nat × Cursor, relocateOne b roData.virtual_address
      ((roData.virtual_address + roData.size) % 2 ^ 64) (getEndOfSections b)
      (getGapInFront b roData.virtual_address) st r
      = Loader.write st offset (toUintptr r.addend) := by
    intro st
    unfold relocateOne
    simp only [hrange, if_false, hvalue, ← hoff]
  rw [hone]
  exact (Loader.write_slot _ offset _ hgood hsmall hin).1

set_option maxRecDepth 100000 in
/-- Witness of C16 (amended): the relocation at 72 of the image `secondBinary`, which has
the null symbol and the addend 128. -/
theorem _relocateReadonlyData_relative_witness :
    secondBinary.get_section ".data.rel.ro" = some ⟨".data.rel.ro", 64, 352⟩ ∧
      secondBinary.dynamic_relocations
        = secondRelocations.take 2 ++ ⟨72, .X86_64_RELATIVE, 128, some ⟨"", 0⟩⟩
            :: secondRelocations.drop 3 ∧
      slot secondFile 72 = leEncode 8 0 ∧
      slot (_relocateReadonlyData secondBinary (secondFile, ⟨0, false⟩)).1 72
        = leEncode 8 (toUintptr 128) :=
  ⟨by decide, by decide, by decide,
    _relocateReadonlyData_relative secondBinary ⟨".data.rel.ro", 64, 352⟩
      (secondRelocations.take 2) (secondRelocations.drop 3)
      ⟨72, .X86_64_RELATIVE, 128, some ⟨"", 0⟩⟩ ⟨"", 0⟩ (secondFile, ⟨0, false⟩) 72
      (by decide) (by decide) (Or.inl rfl) rfl (by decide) (by decide) (by decide) (by decide)
      (by decide) (by decide)⟩

set_option maxRecDepth 100000 in
/-- C16 fails as stated: the relocation at 80 of the image `secondBinary` is of type
`R_X86_64_RELATIVE`, lies in `.data.rel.ro` (`[64, 416)`) and has the addend 432, but no
symbol.  `_relocateReadonlyData` skips it: the eight bytes at 80 are zero afterwards, as
they were in the file. -/
theorem _relocateReadonlyData_relative_no_symbol :
    (⟨80, .X86_64_RELATIVE, 432, none⟩ : Relocation) ∈ secondBinary.dynamic_relocations ∧
      getGapInFront secondBinary 64 = 0 ∧
      slot (_relocateReadonlyData secondBinary (secondFile, ⟨0, false⟩)).1 80 = leEncode 8 0 ∧
      leEncode 8 0 ≠ leEncode 8 (toUintptr 432) :=
  ⟨by decide, by decide, by decide, by decide⟩

set_option maxRecDepth 100000 in
/-- C17, the code at the failing input: the section `.data.rel.ro` of the image
`secondBinary` is `[64, 416)`, and the relocation at 416, its end, has the null symbol and
the addend 4660.  The test `address > end` lets it pass, and `_relocateReadonlyData`
writes the addend over the eight bytes at 416, which were zero. -/
theorem _relocateReadonlyData_at_end :
    secondBinary.get_section ".data.rel.ro" = some ⟨".data.rel.ro", 64, 352⟩ ∧
      (⟨416, .X86_64_RELATIVE, 4660, some ⟨"", 0⟩⟩ : Relocation)
        ∈ secondBinary.dynamic_relocations ∧
      slot secondFile 416 = leEncode 8 0 ∧
      slot (_relocateReadonlyData secondBinary (secondFile, ⟨0, false⟩)).1 416
        = leEncode 8 4660 ∧
      (_relocateReadonlyData secondBinary (secondFile, ⟨0, false⟩)).1
        = exampleBytes.take 80 ++ leEncode 8 0 ++ (exampleBytes.drop 88).take 328
            ++ leEncode 8 4660 ++ exampleBytes.drop 424 :=
  ⟨by decide, by decide, by decide, by decide, by decide⟩

end ELF

namespace ItaniumVTableReader

/-! ## Further properties of the dump functions -/

set_option maxRecDepth 1000000 in
/-- C18, the code at the failing input: on the stripped example image no table start is
known, and `dumpVFTable` scans `.data.rel.ro`.  It calls `readVTable` at 64 and at 376
and gets a table each time; the result has `mParsed = 2` and two tables, and
`mTotal = 0`, as the scan never counts an attempt.  On the image with its symbols the
loop over the known starts counts each of its four attempts. -/
theorem dumpVFTable_scan_total :
    strippedReader.mPrepared.mVTableBegins = [] ∧
      dumpVFTable strippedReader 64 ⟨0, false⟩
        = .ok (⟨0, 2,
            [⟨"_ZTV1A", "_ZTI1A", [(-16, [⟨none, 440⟩]), (0, [⟨none, 432⟩, ⟨none, 440⟩])]⟩,
             ⟨"_ZTV1A", "_ZTI1A", [(0, [⟨none, 432⟩])]⟩]⟩, ⟨416, false⟩) ∧
      dumpVFTable exampleReader 16 ⟨0, false⟩
        = .ok (⟨4, 4, [tableA, tableB, tableC, tableD]⟩, ⟨376, false⟩) :=
  ⟨rfl, by decide, by decide⟩

/-- The loop of `dumpTypeInfo` over start addresses at which no call throws adds the
records returned for them to the result and goes on with the rest of the list. -/
theorem dumpTypeInfoLoop_records (rd : ItaniumVTableReader) (total : Nat) (rest : List Nat) :
    ∀ (pre : List Nat) (acc : List TypeInfo) (c : Cursor) (ts : List TypeInfo) (c1 : Cursor),
      recordsFrom rd pre c ts c1 →
      dumpTypeInfoLoop rd (pre ++ rest) ⟨total, acc.length, acc⟩ c
        = dumpTypeInfoLoop rd rest ⟨total, (acc ++ ts).length, acc ++ ts⟩ c1 := by
  intro pre
  induction pre with
  | nil =>
    intro acc c ts c1 h
    obtain ⟨h1, h2⟩ := h
    subst h1; subst h2
    simp
  | cons addr more ih =>
    intro acc c ts c1 h
    obtain ⟨t, c2, ts', hread, hts, hrest⟩ := h
    subst hts
    rw [List.cons_append]
    conv => lhs; unfold dumpTypeInfoLoop
    simp only [hread]
    cases t with
    | none =>
      have := ih acc c2 ts' c1 hrest
      simpa using this
    | some ty =>
      have := ih (acc ++ [ty]) c2 ts' c1 hrest
      simp only [List.length_append, List.length_singleton, List.append_assoc,
        List.singleton_append] at this
      simpa [Nat.add_assoc, Nat.add_comm 1] using this

/-- C19: entered with the cursor `0xffffffffffffffff`, `readTypeInfo` throws.  When the
start addresses before `addr` are visited without a throw and the cursor is
`0xffffffffffffffff` after the `move` to `addr`, `dumpTypeInfo` returns the records
parsed from the addresses before `addr`, with `mParsed` their number and `mTotal` the
size of `mTypeInfoBegins`; the addresses after `addr` are not visited. -/
theorem dumpTypeInfo_fatal (rd : ItaniumVTableReader) (pre post : List Nat) (addr : Nat)
    (c c1 : Cursor) (ts : List TypeInfo)
    (hset : rd.mPrepared.mTypeInfoBegins = pre ++ addr :: post)
    (hpre : recordsFrom rd pre c ts c1)
    (hones : Loader.cur (Loader.move rd.mImage (toIntptr addr) .Begin c1)
      = 0xffffffffffffffff) :
    (∀ c0, Loader.cur c0 = 0xffffffffffffffff → readTypeInfo rd c0 = .error .runtime_error) ∧
      dumpTypeInfo rd c
        = .ok (⟨rd.mPrepared.mTypeInfoBegins.length, ts.length, ts⟩,
            Loader.move rd.mImage (toIntptr addr) .Begin c1) := by
  have hthrow : ∀ c0, Loader.cur c0 = 0xffffffffffffffff →
      readTypeInfo rd c0 = .error .runtime_error := by
    intro c0 h0
    unfold readTypeInfo
    simp only [h0, if_true]
  refine ⟨hthrow, ?_⟩
  unfold dumpTypeInfo
  rw [hset]
  have h := dumpTypeInfoLoop_records rd (pre ++ addr :: post).length (addr :: post) pre [] c ts
    c1 hpre
  simp only [List.length_nil, List.nil_append] at h
  rw [h]
  unfold dumpTypeInfoLoop
  simp only [hthrow _ hones]

set_option maxRecDepth 100000 in
/-- Witness of C19: the reader `brokenReader` knows the start addresses 128, 600 and
248.  The record at 128 is parsed; the `move` to 600 fails on the stream of 512 bytes,
the cursor is `0xffffffffffffffff`, and the result holds the one record, with
`mParsed = 1` and `mTotal = 3`. -/
theorem dumpTypeInfo_fatal_witness :
    brokenReader.mPrepared.mTypeInfoBegins = [128] ++ 600 :: [248] ∧
      recordsFrom brokenReader [128] ⟨0, false⟩ [typeInfoA] ⟨144, false⟩ ∧
      Loader.cur (Loader.move brokenReader.mImage (toIntptr 600) .Begin ⟨144, false⟩)
        = 0xffffffffffffffff ∧
      ((∀ c0, Loader.cur c0 = 0xffffffffffffffff →
          readTypeInfo brokenReader c0 = .error .runtime_error) ∧
        dumpTypeInfo brokenReader ⟨0, false⟩
          = .ok (⟨brokenReader.mPrepared.mTypeInfoBegins.length, [typeInfoA].length,
              [typeInfoA]⟩,
            Loader.move brokenReader.mImage (toIntptr 600) .Begin ⟨144, false⟩)) ∧
      dumpTypeInfo brokenReader ⟨0, false⟩ = .ok (⟨3, 1, [typeInfoA]⟩, ⟨144, true⟩) :=
  ⟨rfl, ⟨some typeInfoA, ⟨144, false⟩, [], by decide, rfl, rfl, rfl⟩, by decide,
    dumpTypeInfo_fatal brokenReader [128] [248] 600 ⟨0, false⟩ ⟨144, false⟩ [typeInfoA] rfl
      ⟨some typeInfoA, ⟨144, false⟩, [], by decide, rfl, rfl, rfl⟩ (by decide),
    by decide⟩

/-! ## The well-formed primary table -/

theorem pushColumn_zero (cs : List VTableColumn) (col : VTableColumn) :
    pushColumn [((0 : Int), cs)] 0 col = [(0, cs ++ [col])] := by
  unfold pushColumn
  simp

/-- Function slots that follow each other are appended, in order, to the subtable of
the offset in force. -/
theorem readVTableLoop_slots (rd : ItaniumVTableReader) (more : Nat) :
    ∀ (fs : List Int) (l : Locals) (c c3 : Cursor), wordsFrom rd.mImage fs c c3 →
      (∀ f ∈ fs, rd.mImage.isInSection (toUintptr f) rd._constant._segment_text = true) →
      readVTableLoop rd (fs.length + more) l c
        = readVTableLoop rd more
            { l with mSubTables :=
                fs.foldl (fun m f => pushColumn m l.offset (column rd f)) l.mSubTables } c3 := by
  intro fs
  induction fs with
  | nil =>
    intro l c c3 hw _
    have hc : c = c3 := hw
    subst hc
    simp
  | cons f rest ih =>
    intro l c c3 hw htext
    obtain ⟨c1, hread, hrest⟩ := hw
    have hf := htext f (List.mem_cons_self _ _)
    have hlen : (f :: rest).length + more = (rest.length + more) + 1 := by
      simp only [List.length_cons]; omega
    have hturn : readVTableTurn rd l c
        = .ok (.continue { l with mSubTables := pushColumn l.mSubTables l.offset (column rd f) }
            c1) := by
      unfold readVTableTurn
      simp only [hread, hf, Bool.not_true, Bool.false_eq_true, if_false]
      rfl
    rw [hlen]
    conv => lhs; unfold readVTableLoop
    simp only [hturn]
    rw [ih _ c1 c3 hrest (fun g hg => htext g (List.mem_cons_of_mem _ hg))]
    rfl

theorem foldl_pushColumn_zero (col : Int → VTableColumn) :
    ∀ (fs : List Int) (cs : List VTableColumn),
      fs.foldl (fun m f => pushColumn m 0 (col f)) [((0 : Int), cs)] = [(0, cs ++ fs.map col)] := by
  intro fs
  induction fs with
  | nil => intro cs; simp
  | cons f rest ih =>
    intro cs
    rw [List.foldl_cons, pushColumn_zero, ih]
    simp

/-- C20: let the image hold, from the start address on, the word 0, a typeinfo pointer
that `_readZTI` decodes to a non-empty name `T`, function pointers `f1 … fn` (`n ≥ 1`)
that all lie in the text section, and a word that is 0 or a positive value outside the
text section; let 0 be no text address and let `lookupSymbol` find at the start address
a symbol whose name `N` begins with `_ZTV`.  Then `readVTable`, given `n + 2` turns or
more, returns the table with name `N`, type name `T` and the one subtable
`0 ↦ [col f1, …, col fn]`. -/
theorem readVTable_primary (rd : ItaniumVTableReader)
    (hk : rd._constant = _initFormatConstants rd.mImage.format)
    (c0 c1 c2 c3 c4 : Cursor) (N : Symbol) (T : String) (fs : List Int) (z : Int) (extra : Nat)
    (hsym : rd.mImage.lookupSymbol (Loader.cur c0) = some N)
    (hN : starts_with N.name "_ZTV" = true)
    (hzero : Loader.read_intptr rd.mImage c0 = .ok (0, c1))
    (h0 : rd.mImage.isInSection (toUintptr 0) rd._constant._segment_text = false)
    (hzti : _readZTI rd c1 = .ok (T, c2)) (hT : T ≠ "")
    (hslots : wordsFrom rd.mImage fs c2 c3) (hn : fs ≠ [])
    (htext : ∀ f ∈ fs, rd.mImage.isInSection (toUintptr f) rd._constant._segment_text = true)
    (hend : Loader.read_intptr rd.mImage c3 = .ok (z, c4))
    (hz : z = 0 ∨
      (z > 0 ∧ rd.mImage.isInSection (toUintptr z) rd._constant._segment_text = false)) :
    readVTable rd (fs.length + 2 + extra) c0
      = .ok (some ⟨N.name, T, [(0, fs.map (column rd))]⟩, c4) := by
  have hpre : rd._constant._prefix_vtable = "_ZTV" := by
    rw [hk]; exact (_initFormatConstants_prefixes _).1
  obtain ⟨f, rest, hfs⟩ : ∃ f rest, fs = f :: rest := by
    cases fs with
    | nil => exact absurd rfl hn
    | cons f rest => exact ⟨f, rest, rfl⟩
  have hzsec : rd.mImage.isInSection (toUintptr z) rd._constant._segment_text = false := by
    rcases hz with hz | ⟨_, hz⟩
    · rw [hz]; exact h0
    · exact hz
  -- the turn of the primary header
  have hturn1 : readVTableTurn rd ⟨"", [], some N.name, 0, "", []⟩ c0
      = .ok (.continue ⟨T, [], some N.name, 0, T, []⟩ c2) := by
    unfold readVTableTurn
    simp [hzero, h0, hzti, hT]
  -- the turn of the word after the slots
  have hturn3 : readVTableTurn rd ⟨T, [(0, fs.map (column rd))], some N.name, 0, T, []⟩ c3
      = .ok (.break ⟨T, [(0, fs.map (column rd))], some N.name, 0, T, []⟩ c4) := by
    unfold readVTableTurn
    rcases hz with hz | ⟨hz, _⟩
    · subst hz
      simp [hend, hzsec]
    · simp [hend, hzsec, hz]
  have hsub : fs.foldl (fun m f => pushColumn m 0 (column rd f)) []
      = [((0 : Int), fs.map (column rd))] := by
    rw [hfs, List.foldl_cons]
    have : pushColumn [] 0 (column rd f) = [((0 : Int), [column rd f])] := rfl
    rw [this, foldl_pushColumn_zero]
    simp
  have hloop : readVTableLoop rd (fs.length + 2 + extra) ⟨"", [], some N.name, 0, "", []⟩ c0
      = .ok (some ⟨T, [(0, fs.map (column rd))], some N.name, 0, T, []⟩, c4) := by
    have hlen : fs.length + 2 + extra = (fs.length + (extra + 1)) + 1 := by omega
    rw [hlen]
    conv => lhs; unfold readVTableLoop
    simp only [hturn1]
    rw [readVTableLoop_slots rd (extra + 1) fs _ c2 c3 hslots htext]
    simp only [hsub]
    conv => lhs; unfold readVTableLoop
    simp only [hturn3]
  unfold readVTable readVTableTraced
  rw [hsym]
  simp only [hpre, hN, Bool.not_true, Bool.false_eq_true, if_false]
  unfold readVTableFrom
  rw [hloop]
  rfl

set_option maxRecDepth 100000 in
/-- Witness of C20: the table at 376 of the image `secondBinary`, where the symbol
`_ZTV1E` is found: the words are 0, the typeinfo pointer 128, the function pointer 432 and
0. -/
theorem readVTable_primary_witness :
    secondReader._constant = _initFormatConstants secondReader.mImage.format ∧
      secondReader.mImage.lookupSymbol (Loader.cur ⟨376, false⟩) = some ⟨"_ZTV1E", 376⟩ ∧
      _readZTI secondReader ⟨384, false⟩ = .ok ("_ZTI1A", ⟨392, false⟩) ∧
      wordsFrom secondReader.mImage [432] ⟨392, false⟩ ⟨400, false⟩ ∧
      Loader.read_intptr secondReader.mImage ⟨400, false⟩ = .ok (0, ⟨408, false⟩) ∧
      readVTable secondReader ([(432 : Int)].length + 2 + 0) ⟨376, false⟩
        = .ok (some ⟨"_ZTV1E", "_ZTI1A", [(0, [(432 : Int)].map (column secondReader))]⟩,
            ⟨408, false⟩) ∧
      [(432 : Int)].map (column secondReader) = [⟨some "_ZN1A1fEv", 432⟩] :=
  ⟨rfl, by decide, by decide, ⟨⟨400, false⟩, by decide, rfl⟩, by decide,
    readVTable_primary secondReader rfl ⟨376, false⟩ ⟨384, false⟩ ⟨392, false⟩ ⟨400, false⟩
      ⟨408, false⟩ ⟨"_ZTV1E", 376⟩ "_ZTI1A" [432] 0 0 (by decide) (by decide) (by decide)
      (by decide) (by decide) (by decide) ⟨⟨400, false⟩, by decide, rfl⟩ (by decide)
      (by decide) (by decide) (Or.inl rfl),
    by decide⟩

/-! ## The secondary subtable -/

theorem pushColumn_negative (cs : List VTableColumn) (o : Int) (ho : o < 0)
    (col : VTableColumn) : pushColumn [((0 : Int), cs)] o col = [(o, [col]), (0, cs)] := by
  unfold pushColumn
  have hne : o ≠ 0 := by omega
  simp [hne, ho]

theorem foldl_pushColumn_front (col : Int → VTableColumn) (o : Int)
    (rest : List (Int × List VTableColumn)) :
    ∀ (gs : List Int) (ds : List VTableColumn),
      gs.foldl (fun m g => pushColumn m o (col g)) ((o, ds) :: rest)
        = (o, ds ++ gs.map col) :: rest := by
  intro gs
  induction gs with
  | nil => intro ds; simp
  | cons g more ih =>
    intro ds
    have hpush : pushColumn ((o, ds) :: rest) o (col g) = (o, ds ++ [col g]) :: rest := by
      unfold pushColumn
      simp
    rw [List.foldl_cons, hpush, ih]
    simp

/-- C21: let the image hold, from the start address on, a well-formed primary table
(the word 0, a typeinfo pointer that `_readZTI` decodes to a non-empty name `T`,
function pointers `f1 … fn`, `n ≥ 1`, in the text section; 0 no text address; at the
start address a symbol whose name `N` begins with `_ZTV`), then a negative word `o`
that is no text address, a typeinfo pointer that `_readZTI` decodes to `T`, function
pointers `g1 … gm` (`m ≥ 1`) in the text section, and a zero word.  Then `readVTable`,
given `n + m + 3` turns or more, returns the table with name `N`, type name `T` and
exactly the two subtables `o ↦ [col g1, …, col gm]` and `0 ↦ [col f1, …, col fn]`. -/
theorem readVTable_secondary (rd : ItaniumVTableReader)
    (hk : rd._constant = _initFormatConstants rd.mImage.format)
    (c0 c1 c2 c3 c4 c5 c6 c7 : Cursor) (N : Symbol) (T : String) (fs gs : List Int) (o : Int)
    (extra : Nat)
    (hsym : rd.mImage.lookupSymbol (Loader.cur c0) = some N)
    (hN : starts_with N.name "_ZTV" = true)
    (hzero : Loader.read_intptr rd.mImage c0 = .ok (0, c1))
    (h0 : rd.mImage.isInSection (toUintptr 0) rd._constant._segment_text = false)
    (hzti : _readZTI rd c1 = .ok (T, c2)) (hT : T ≠ "")
    (hslots : wordsFrom rd.mImage fs c2 c3) (hn : fs ≠ [])
    (htext : ∀ f ∈ fs, rd.mImage.isInSection (toUintptr f) rd._constant._segment_text = true)
    (hoff : Loader.read_intptr rd.mImage c3 = .ok (o, c4)) (ho : o < 0)
    (hosec : rd.mImage.isInSection (toUintptr o) rd._constant._segment_text = false)
    (hzti2 : _readZTI rd c4 = .ok (T, c5))
    (hslots2 : wordsFrom rd.mImage gs c5 c6) (hm : gs ≠ [])
    (htext2 : ∀ g ∈ gs, rd.mImage.isInSection (toUintptr g) rd._constant._segment_text = true)
    (hend : Loader.read_intptr rd.mImage c6 = .ok (0, c7)) :
    readVTable rd (fs.length + gs.length + 3 + extra) c0
        = .ok (some ⟨N.name, T, [(o, gs.map (column rd)), (0, fs.map (column rd))]⟩, c7) ∧
      keys [(o, gs.map (column rd)), (0, fs.map (column rd))] = [o, 0] := by
  refine ⟨?_, rfl⟩
  have hpre : rd._constant._prefix_vtable = "_ZTV" := by
    rw [hk]; exact (_initFormatConstants_prefixes _).1
  obtain ⟨f, frest, hfs⟩ : ∃ f rest, fs = f :: rest := by
    cases fs with
    | nil => exact absurd rfl hn
    | cons f rest => exact ⟨f, rest, rfl⟩
  obtain ⟨g, grest, hgs⟩ : ∃ g rest, gs = g :: rest := by
    cases gs with
    | nil => exact absurd rfl hm
    | cons g rest => exact ⟨g, rest, rfl⟩
  have hfsne : fs.map (column rd) ≠ [] := by rw [hfs]; simp
  -- the turn of the primary header
  have hturn1 : readVTableTurn rd ⟨"", [], some N.name, 0, "", []⟩ c0
      = .ok (.continue ⟨T, [], some N.name, 0, T, []⟩ c2) := by
    unfold readVTableTurn
    simp [hzero, h0, hzti, hT]
  -- the turn of the secondary header
  have hturn2 : readVTableTurn rd ⟨T, [(0, fs.map (column rd))], some N.name, 0, T, []⟩ c3
      = .ok (.continue ⟨T, [(0, fs.map (column rd))], some N.name, o, T, [(o, T)]⟩ c5) := by
    unfold readVTableTurn
    have h1 : ¬ o > 0 := by omega
    have h2 : o ≠ 0 := by omega
    simp [hoff, hosec, h1, h2, hzti2]
  -- the turn of the zero word after the slots of the secondary subtable
  have hturn3 : readVTableTurn rd
      ⟨T, [(o, gs.map (column rd)), (0, fs.map (column rd))], some N.name, o, T, [(o, T)]⟩ c6
      = .ok (.break
          ⟨T, [(o, gs.map (column rd)), (0, fs.map (column rd))], some N.name, o, T, [(o, T)]⟩
          c7) := by
    unfold readVTableTurn
    simp [hend, h0]
  have hsub1 : fs.foldl (fun m f => pushColumn m 0 (column rd f)) []
      = [((0 : Int), fs.map (column rd))] := by
    rw [hfs, List.foldl_cons]
    have : pushColumn [] 0 (column rd f) = [((0 : Int), [column rd f])] := rfl
    rw [this, foldl_pushColumn_zero]
    simp
  have hsub2 : gs.foldl (fun m g => pushColumn m o (column rd g))
      [((0 : Int), fs.map (column rd))]
      = [(o, gs.map (column rd)), (0, fs.map (column rd))] := by
    rw [hgs, List.foldl_cons, pushColumn_negative _ o ho, foldl_pushColumn_front]
    simp
  have hloop : readVTableLoop rd (fs.length + gs.length + 3 + extra)
      ⟨"", [], some N.name, 0, "", []⟩ c0
      = .ok (some
          ⟨T, [(o, gs.map (column rd)), (0, fs.map (column rd))], some N.name, o, T, [(o, T)]⟩,
          c7) := by
    have hlen : fs.length + gs.length + 3 + extra
        = (fs.length + ((gs.length + (extra + 1)) + 1)) + 1 := by omega
    rw [hlen]
    conv => lhs; unfold readVTableLoop
    simp only [hturn1]
    rw [readVTableLoop_slots rd _ fs _ c2 c3 hslots htext]
    simp only [hsub1]
    conv => lhs; unfold readVTableLoop
    simp only [hturn2]
    rw [readVTableLoop_slots rd _ gs _ c5 c6 hslots2 htext2]
    simp only [hsub2]
    conv => lhs; unfold readVTableLoop
    simp only [hturn3]
  unfold readVTable readVTableTraced
  rw [hsym]
  simp only [hpre, hN, Bool.not_true, Bool.false_eq_true, if_false]
  unfold readVTableFrom
  rw [hloop]
  rfl

set_option maxRecDepth 100000 in
/-- Witness of C21: the table at 64 of the example image, where the symbol `_ZTV1A` is
found: the words are 0, the typeinfo pointer 128, the function pointers 432 and 440, the
offset -16, the typeinfo pointer 128 again, the function pointer 440 and 0. -/
theorem readVTable_secondary_witness :
    exampleReader.mImage.lookupSymbol (Loader.cur ⟨64, false⟩) = some ⟨"_ZTV1A", 64⟩ ∧
      _readZTI exampleReader ⟨72, false⟩ = .ok ("_ZTI1A", ⟨80, false⟩) ∧
      wordsFrom exampleReader.mImage [432, 440] ⟨80, false⟩ ⟨96, false⟩ ∧
      Loader.read_intptr exampleReader.mImage ⟨96, false⟩ = .ok (-16, ⟨104, false⟩) ∧
      _readZTI exampleReader ⟨104, false⟩ = .ok ("_ZTI1A", ⟨112, false⟩) ∧
      wordsFrom exampleReader.mImage [440] ⟨112, false⟩ ⟨120, false⟩ ∧
      Loader.read_intptr exampleReader.mImage ⟨120, false⟩ = .ok (0, ⟨128, false⟩) ∧
      (readVTable exampleReader ([(432 : Int), 440].length + [(440 : Int)].length + 3 + 0)
          ⟨64, false⟩
          = .ok (some ⟨"_ZTV1A", "_ZTI1A",
              [(-16, [(440 : Int)].map (column exampleReader)),
               (0, [(432 : Int), 440].map (column exampleReader))]⟩, ⟨128, false⟩) ∧
        keys [(-16, [(440 : Int)].map (column exampleReader)),
              (0, [(432 : Int), 440].map (column exampleReader))] = [-16, 0]) ∧
      [(432 : Int), 440].map (column exampleReader)
        = [⟨some "_ZN1A1fEv", 432⟩, ⟨some "_ZN1A1gEv", 440⟩] ∧
      [(440 : Int)].map (column exampleReader) = [⟨some "_ZN1A1gEv", 440⟩] :=
  ⟨by decide, by decide,
    ⟨⟨88, false⟩, by decide, ⟨96, false⟩, by decide, rfl⟩, by decide, by decide,
    ⟨⟨120, false⟩, by decide, rfl⟩, by decide,
    readVTable_secondary exampleReader rfl ⟨64, false⟩ ⟨72, false⟩ ⟨80, false⟩ ⟨96, false⟩
      ⟨104, false⟩ ⟨112, false⟩ ⟨120, false⟩ ⟨128, false⟩ ⟨"_ZTV1A", 64⟩ "_ZTI1A" [432, 440]
      [440] (-16) 0 (by decide) (by decide) (by decide) (by decide) (by decide) (by decide)
      ⟨⟨88, false⟩, by decide, ⟨96, false⟩, by decide, rfl⟩ (by decide) (by decide)
      (by decide) (by decide) (by decide) (by decide) ⟨⟨120, false⟩, by decide, rfl⟩
      (by decide) (by decide) (by decide),
    by decide, by decide⟩

/-! ## The scan of `dumpVFTable` -/

/-- When a symbol is found at the cursor and its name does not begin with the vtable
prefix, `readVTable` returns nothing and leaves the cursor where it is. -/
theorem readVTable_not_vtable_cursor (rd : ItaniumVTableReader) (fuel : Nat) (c : Cursor)
    (s : Symbol) (hsym : rd.mImage.lookupSymbol (Loader.cur c) = some s)
    (hname : starts_with s.name rd._constant._prefix_vtable = false) :
    readVTable rd fuel c = .ok (none, c) := by
  unfold readVTable readVTableTraced
  simp [hsym, hname]

/-- A turn of the scan that accepts the three words at the cursor, where a symbol
without the vtable prefix is found, hands over to the next turn with the cursor and
the result unchanged. -/
theorem dumpVFTableScan_same_cursor (rd : ItaniumVTableReader) (fuel : Nat)
    (c c1 c2 c3 : Cursor) (expect2 expect3 : Int) (s : Symbol)
    (hin : rd.mImage.isInSection (Loader.cur c) rd._constant._segment_data = true)
    (h1 : Loader.read_intptr rd.mImage c = .ok (0, c1))
    (h2 : Loader.read_intptr rd.mImage c1 = .ok (expect2, c2))
    (h3 : Loader.read_intptr rd.mImage c2 = .ok (expect3, c3))
    (hback : Loader.move rd.mImage (toIntptr (Loader.cur c)) .Begin c3 = c)
    (hacc2 : expect2 = 0 ∨ toUintptr expect2 ∈ rd.mPrepared.mTypeInfoBegins)
    (hacc3 : rd.mImage.isInSection (toUintptr expect3) rd._constant._segment_text = true)
    (hsym : rd.mImage.lookupSymbol (Loader.cur c) = some s)
    (hname : starts_with s.name rd._constant._prefix_vtable = false)
    (turns : Nat) (result : DumpVFTableResult) :
    dumpVFTableScan rd fuel (turns + 1) result c = dumpVFTableScan rd fuel turns result c := by
  conv => lhs; unfold dumpVFTableScan
  simp only [hin, Bool.not_true, Bool.false_eq_true, if_false, h1, h2, h3, hback]
  rw [if_pos ⟨trivial, hacc2, hacc3⟩, readVTable_not_vtable_cursor rd fuel c s hsym hname]

/-- From such a cursor the scan does not end, whatever the number of turns. -/
theorem dumpVFTableScan_no_end (rd : ItaniumVTableReader) (fuel : Nat)
    (c : Cursor)
    (hturn : ∀ turns result,
      dumpVFTableScan rd fuel (turns + 1) result c = dumpVFTableScan rd fuel turns result c)
    (turns : Nat) (result : DumpVFTableResult) :
    dumpVFTableScan rd fuel turns result c = .error .out_of_fuel := by
  induction turns with
  | zero => rfl
  | succ n ih => rw [hturn n result, ih]

set_option maxRecDepth 100000 in
/-- C22, the code at the failing input: the constructor leaves `VTableBegins` empty for
the Mach-O image `machoBinary`, so `dumpVFTable` scans the data section of the Mach-O
constants, `__text`, from 64 on.  The three words at 64 are accepted, `readVTable` finds
the symbol `__ZTV1A` there, whose name does not begin with `_ZTV`, and returns nothing
with the cursor still at 64: the turn ends with the cursor where it began, the next turn
is the same, and `dumpVFTable` does not return for any bound on the number of turns. -/
theorem dumpVFTable_scan_no_progress :
    (∀ k0, (ItaniumVTableReader.new (MachO.view machoBinary machoBytes) k0).mPrepared
        = ⟨[], []⟩) ∧
      (∀ k0 fuel,
        readVTable (ItaniumVTableReader.new (MachO.view machoBinary machoBytes) k0) fuel
          ⟨64, false⟩ = .ok (none, ⟨64, false⟩)) ∧
      (∀ k0 fuel turns result,
        dumpVFTableScan (ItaniumVTableReader.new (MachO.view machoBinary machoBytes) k0) fuel
            (turns + 1) result ⟨64, false⟩
          = dumpVFTableScan (ItaniumVTableReader.new (MachO.view machoBinary machoBytes) k0)
              fuel turns result ⟨64, false⟩) ∧
      (∀ k0 fuel,
        dumpVFTable (ItaniumVTableReader.new (MachO.view machoBinary machoBytes) k0) fuel
          ⟨0, false⟩ = .error .out_of_fuel) := by
  have hnew : ∀ k0, ItaniumVTableReader.new (MachO.view machoBinary machoBytes) k0
      = machoReader := fun _ => rfl
  have hturn : ∀ fuel turns result,
      dumpVFTableScan machoReader fuel (turns + 1) result ⟨64, false⟩
        = dumpVFTableScan machoReader fuel turns result ⟨64, false⟩ := fun fuel =>
    dumpVFTableScan_same_cursor machoReader fuel ⟨64, false⟩ ⟨72, false⟩ ⟨80, false⟩
      ⟨88, false⟩ 0 128 ⟨"__ZTV1A", 64⟩ (by decide) (by decide) (by decide) (by decide)
      (by decide) (Or.inl rfl) (by decide) (by decide) (by decide)
  refine ⟨fun k0 => by rw [hnew k0]; rfl, fun k0 fuel => ?_, fun k0 fuel => ?_,
    fun k0 fuel => ?_⟩
  · rw [hnew k0]
    exact readVTable_not_vtable_cursor machoReader fuel ⟨64, false⟩ ⟨"__ZTV1A", 64⟩
      (by decide) (by decide)
  · rw [hnew k0]
    exact hturn fuel
  · rw [hnew k0]
    have hmove : Loader.moveToSection machoReader.mImage machoReader._constant._segment_data
        ⟨0, false⟩ = (true, ⟨64, false⟩) := by decide
    unfold dumpVFTable
    have hempty : (!machoReader.mPrepared.mVTableBegins.isEmpty) = false := rfl
    simp only [hempty, Bool.false_eq_true, if_false, hmove]
    exact dumpVFTableScan_no_end machoReader fuel ⟨64, false⟩ (hturn fuel) fuel ⟨0, 0, []⟩

/-! ## The name made from the typeinfo name -/

/-- A name that begins with a prefix of four characters is that prefix followed by
what `substr(4)` gives. -/
theorem substr_of_starts_with (T p tail : String) (hp : p.data.length = 4)
    (hsub : substr T 4 = some tail) (hstart : starts_with T p = true) : T = p ++ tail := by
  unfold substr at hsub
  split at hsub
  · injection hsub with hsub
    unfold starts_with at hstart
    rw [List.isPrefixOf_iff_prefix] at hstart
    obtain ⟨rest, hrest⟩ := hstart
    apply String.ext
    rw [String.data_append, ← hsub, ← hrest, ← hp]
    simp
  · cases hsub

/-- Once the loop of `readVTable` holds a name for the table, its turns keep it. -/
theorem symbol_turn {rd : ItaniumVTableReader} (name : String) (l : Locals) (c : Cursor)
    (l' : Locals) (c' : Cursor) (hP : l.symbol = some name)
    (h : readVTableTurn rd l c = .ok (.continue l' c')) : l'.symbol = some name := by
  obtain ⟨value, c1, _, hcase⟩ := readVTableTurn_continue h
  rcases hcase with ⟨_, _, hl⟩ | ⟨_, _, _, type, _, _, _, _, _, hcases⟩ | ⟨_, _, _, _, hl⟩
  · subst hl; exact hP
  · rcases hcases with ⟨_, _, ⟨s0, hs0, hs1⟩ | ⟨hnone, _⟩⟩ | ⟨_, _, hsame⟩
    · rw [hs1, ← hs0]; exact hP
    · rw [hnone] at hP; cases hP
    · rw [hsame]; exact hP
  · subst hl; exact hP

/-- Once the loop of `readVTable` has read a function slot, its turns keep the type
name. -/
theorem typeName_turn {rd : ItaniumVTableReader} (T : String) (l : Locals) (c : Cursor)
    (l' : Locals) (c' : Cursor) (hP : l.mTypeName = T ∧ l.mSubTables ≠ [])
    (h : readVTableTurn rd l c = .ok (.continue l' c')) :
    l'.mTypeName = T ∧ l'.mSubTables ≠ [] := by
  obtain ⟨value, c1, _, hcase⟩ := readVTableTurn_continue h
  rcases hcase with ⟨_, _, hl⟩ | ⟨_, _, hnil, _⟩ | ⟨_, _, _, _, hl⟩
  · subst hl; exact ⟨hP.1, pushColumn_ne_nil _ _ _⟩
  · exact absurd hnil hP.2
  · subst hl; exact hP

/-- C23 as amended: let no symbol be found at the start address, let the first word be a
primary header (the word 0, which is no text address) and let `_readZTI` decode the
typeinfo pointer after it to a non-empty name `T`.  Then `T` has at least four
characters and every table that `readVTable` returns has the name `_ZTV` followed by
`T` without its first four characters; when `T` begins with `_ZTI`, `T` is `_ZTI`
followed by those same characters.  The type name of the table is `T` when the word
after the typeinfo pointer is not another zero header word, that is, when it is not 0
or is a text address. -/
theorem readVTable_synthesized_name (rd : ItaniumVTableReader)
    (hk : rd._constant = _initFormatConstants rd.mImage.format)
    (fuel : Nat) (c c1 c2 c' : Cursor) (T : String) (v : VTable)
    (hsym : rd.mImage.lookupSymbol (Loader.cur c) = none)
    (hzero : Loader.read_intptr rd.mImage c = .ok (0, c1))
    (h0 : rd.mImage.isInSection (toUintptr 0) rd._constant._segment_text = false)
    (hzti : _readZTI rd c1 = .ok (T, c2)) (hT : T ≠ "")
    (hret : readVTable rd fuel c = .ok (some v, c')) :
    ∃ tail, substr T 4 = some tail ∧ v.mName = "_ZTV" ++ tail ∧
      (starts_with T "_ZTI" = true → T = "_ZTI" ++ tail) ∧
      (∀ w c3, Loader.read_intptr rd.mImage c2 = .ok (w, c3) →
        (w ≠ 0 ∨ rd.mImage.isInSection (toUintptr w) rd._constant._segment_text = true) →
        v.mTypeName = T) := by
  have hpre : rd._constant._prefix_vtable = "_ZTV" := by
    rw [hk]; exact (_initFormatConstants_prefixes _).1
  obtain ⟨acc, htr⟩ := readVTable_some hret
  obtain ⟨symbol, l, hloop, ⟨hsymbol, _⟩, hname, htype, _, _⟩ := readVTableTraced_some htr
  rw [hsym] at hsymbol
  simp only [Option.map] at hsymbol
  subst hsymbol
  -- the loop has at least one turn, the turn of the primary header
  cases fuel with
  | zero => simp [readVTableLoop] at hloop
  | succ n =>
    cases hsub : substr T 4 with
    | none =>
      have hturn : readVTableTurn rd ⟨"", [], none, 0, "", []⟩ c = .error .out_of_range := by
        unfold readVTableTurn
        simp [hzero, h0, hzti, hT, hsub]
      unfold readVTableLoop at hloop
      simp [hturn] at hloop
    | some tail =>
      have hturn : readVTableTurn rd ⟨"", [], none, 0, "", []⟩ c
          = .ok (.continue ⟨T, [], some ("_ZTV" ++ tail), 0, T, []⟩ c2) := by
        unfold readVTableTurn
        simp [hzero, h0, hzti, hT, hsub, hpre]
      unfold readVTableLoop at hloop
      simp only [hturn] at hloop
      have hkept : l.symbol = some ("_ZTV" ++ tail) :=
        readVTableLoop_invariant (fun l => l.symbol = some ("_ZTV" ++ tail))
          (symbol_turn ("_ZTV" ++ tail)) n _ c2 l c' rfl hloop
      refine ⟨tail, rfl, ?_, ?_, ?_⟩
      · rw [hkept] at hname
        injection hname with hname
        exact hname.symm
      · intro hstart
        exact substr_of_starts_with T "_ZTI" tail rfl hsub hstart
      · intro w c3 hread hw
        rw [htype]
        -- the turn after the primary header
        cases n with
        | zero => simp [readVTableLoop] at hloop
        | succ m =>
          by_cases hsec : rd.mImage.isInSection (toUintptr w) rd._constant._segment_text = true
          · have hturn2 : readVTableTurn rd ⟨T, [], some ("_ZTV" ++ tail), 0, T, []⟩ c2
                = .ok (.continue
                    ⟨T, pushColumn [] 0 (column rd w), some ("_ZTV" ++ tail), 0, T, []⟩
                    c3) := by
              unfold readVTableTurn
              simp only [hread, hsec, Bool.not_true, Bool.false_eq_true, if_false]
              rfl
            unfold readVTableLoop at hloop
            simp only [hturn2] at hloop
            exact (readVTableLoop_invariant (fun l => l.mTypeName = T ∧ l.mSubTables ≠ [])
              (typeName_turn T) m _ c3 l c' ⟨rfl, pushColumn_ne_nil _ _ _⟩ hloop).1
          · have hsec' :
                rd.mImage.isInSection (toUintptr w) rd._constant._segment_text = false := by
              simpa using hsec
            have hw0 : w ≠ 0 := by
              rcases hw with hw | hw
              · exact hw
              · exact absurd hw hsec
            by_cases hpos : w > 0
            · have hturn2 : readVTableTurn rd ⟨T, [], some ("_ZTV" ++ tail), 0, T, []⟩ c2
                  = .ok (.break ⟨T, [], some ("_ZTV" ++ tail), 0, T, []⟩ c3) := by
                unfold readVTableTurn
                simp [hread, hsec', hpos]
              unfold readVTableLoop at hloop
              simp only [hturn2] at hloop
              injection hloop with hloop
              injection hloop with h1 _
              injection h1 with h1
              rw [← h1]
            · have hturn2 : readVTableTurn rd ⟨T, [], some ("_ZTV" ++ tail), 0, T, []⟩ c2
                  = .ok (.nullopt c3) := by
                unfold readVTableTurn
                simp [hread, hsec', hpos, hw0]
              unfold readVTableLoop at hloop
              simp [hturn2] at hloop

set_option maxRecDepth 100000 in
/-- Witness of the amended C23: the table at 376 of the stripped example image: the
typeinfo pointer 128 decodes to `_ZTI1A`, the word after it is the text address 432, and
the table returned has the name `_ZTV1A` and the type name `_ZTI1A`. -/
theorem readVTable_synthesized_name_witness :
    strippedReader.mImage.lookupSymbol (Loader.cur ⟨376, false⟩) = none ∧
      _readZTI strippedReader ⟨384, false⟩ = .ok ("_ZTI1A", ⟨392, false⟩) ∧
      readVTable strippedReader 16 ⟨376, false⟩
        = .ok (some ⟨"_ZTV1A", "_ZTI1A", [(0, [⟨none, 432⟩])]⟩, ⟨408, false⟩) ∧
      (∃ tail, substr "_ZTI1A" 4 = some tail ∧
        (⟨"_ZTV1A", "_ZTI1A", [(0, [⟨none, 432⟩])]⟩ : VTable).mName = "_ZTV" ++ tail ∧
        (starts_with "_ZTI1A" "_ZTI" = true → "_ZTI1A" = "_ZTI" ++ tail) ∧
        (∀ w c3, Loader.read_intptr strippedReader.mImage ⟨392, false⟩ = .ok (w, c3) →
          (w ≠ 0 ∨ strippedReader.mImage.isInSection (toUintptr w)
            strippedReader._constant._segment_text = true) →
          (⟨"_ZTV1A", "_ZTI1A", [(0, [⟨none, 432⟩])]⟩ : VTable).mTypeName = "_ZTI1A")) ∧
      Loader.read_intptr strippedReader.mImage ⟨392, false⟩ = .ok (432, ⟨400, false⟩) ∧
      strippedReader.mImage.isInSection (toUintptr 432)
        strippedReader._constant._segment_text = true :=
  ⟨by decide, by decide, by decide,
    readVTable_synthesized_name strippedReader rfl 16 ⟨376, false⟩ ⟨384, false⟩ ⟨392, false⟩
      ⟨408, false⟩ "_ZTI1A" ⟨"_ZTV1A", "_ZTI1A", [(0, [⟨none, 432⟩])]⟩ (by decide) (by decide)
      (by decide) (by decide) (by decide) (by decide),
    by decide, by decide⟩

set_option maxRecDepth 100000 in
/-- C23 as stated fails in two ways.  At 344 of the stripped example image no symbol is
found and the typeinfo pointer is the address of the external symbol
`_ZTVN10__cxxabiv117__class_type_infoE`, whose name `_readZTI` returns as it is: it does
not begin with `_ZTI`, and the table has that very string as name and as type name.  At
176 of the image `doubleHeaderReader` no symbol is found and two primary headers follow
each other, decoded to `_ZTI1A` and `_ZTI1B`: the table has the name `_ZTV1A` and the
type name `_ZTI1B`. -/
theorem readVTable_synthesized_name_differs :
    (strippedReader.mImage.lookupSymbol (Loader.cur ⟨344, false⟩) = none ∧
      _readZTI strippedReader ⟨352, false⟩
        = .ok ("_ZTVN10__cxxabiv117__class_type_infoE", ⟨360, false⟩) ∧
      starts_with "_ZTVN10__cxxabiv117__class_type_infoE" "_ZTI" = false ∧
      readVTable strippedReader 16 ⟨344, false⟩
        = .ok (some ⟨"_ZTVN10__cxxabiv117__class_type_infoE",
            "_ZTVN10__cxxabiv117__class_type_infoE", [(0, [⟨none, 432⟩])]⟩, ⟨376, false⟩)) ∧
      (doubleHeaderReader.mImage.lookupSymbol (Loader.cur ⟨176, false⟩) = none ∧
        _readZTI doubleHeaderReader ⟨184, false⟩ = .ok ("_ZTI1A", ⟨192, false⟩) ∧
        _readZTI doubleHeaderReader ⟨200, false⟩ = .ok ("_ZTI1B", ⟨208, false⟩) ∧
        readVTable doubleHeaderReader 16 ⟨176, false⟩
          = .ok (some ⟨"_ZTV1A", "_ZTI1B", [(0, [⟨none, 432⟩])]⟩, ⟨224, false⟩)) :=
  ⟨⟨by decide, by decide, by decide, by decide⟩,
    ⟨by decide, by decide, by decide, by decide⟩⟩

end ItaniumVTableReader

namespace ELF

/-! ## The sentinel addresses of `_buildSymbolCache` -/

/-- The loop of `getEndOfSections` never lowers `ret`, and ends at or above the end of
every section it has visited. -/
theorem foldl_end_bound (secs : List Section) :
    ∀ ret : Nat,
      ret ≤ secs.foldl
          (fun ret sec =>
            let «end» := (sec.virtual_address + sec.size) % 2 ^ 64
            if ret < «end» then «end» else ret) ret ∧
        ∀ sec ∈ secs, (sec.virtual_address + sec.size) % 2 ^ 64 ≤ secs.foldl
          (fun ret sec =>
            let «end» := (sec.virtual_address + sec.size) % 2 ^ 64
            if ret < «end» then «end» else ret) ret := by
  induction secs with
  | nil => intro ret; simp
  | cons s rest ih =>
    intro ret
    rw [List.foldl_cons]
    simp only
    by_cases hlt : ret < (s.virtual_address + s.size) % 2 ^ 64
    · rw [if_pos hlt]
      have h1 := (ih ((s.virtual_address + s.size) % 2 ^ 64)).1
      have h2 := (ih ((s.virtual_address + s.size) % 2 ^ 64)).2
      simp only at h1 h2
      refine ⟨by omega, ?_⟩
      intro sec hsec
      rcases List.mem_cons.mp hsec with hs | hs
      · subst hs; exact h1
      · exact h2 sec hs
    · rw [if_neg hlt]
      have h1 := (ih ret).1
      have h2 := (ih ret).2
      simp only at h1 h2
      refine ⟨h1, ?_⟩
      intro sec hsec
      rcases List.mem_cons.mp hsec with hs | hs
      · subst hs; omega
      · exact h2 sec hs

/-- The loop of `getEndOfSections` ends at the value it started from or at the end of a
section. -/
theorem foldl_end_attained (secs : List Section) :
    ∀ ret : Nat,
      secs.foldl
          (fun ret sec =>
            let «end» := (sec.virtual_address + sec.size) % 2 ^ 64
            if ret < «end» then «end» else ret) ret = ret ∨
        ∃ sec ∈ secs, secs.foldl
          (fun ret sec =>
            let «end» := (sec.virtual_address + sec.size) % 2 ^ 64
            if ret < «end» then «end» else ret) ret
            = (sec.virtual_address + sec.size) % 2 ^ 64 := by
  induction secs with
  | nil => intro ret; simp
  | cons s rest ih =>
    intro ret
    rw [List.foldl_cons]
    rcases ih (if ret < (s.virtual_address + s.size) % 2 ^ 64
      then (s.virtual_address + s.size) % 2 ^ 64 else ret) with h | ⟨sec, hsec, h⟩
    · simp only at h ⊢
      by_cases hlt : ret < (s.virtual_address + s.size) % 2 ^ 64
      · right
        refine ⟨s, List.mem_cons_self _ _, ?_⟩
        rw [h, if_pos hlt]
      · left
        rw [h, if_neg hlt]
    · right
      exact ⟨sec, List.mem_cons_of_mem _ hsec, h⟩

/-- C24: let `_buildSymbolCache` register a dynamic symbol under the address `va`, and
let the sum `EOS + W * dynsym_idx(symbol)` not wrap around.  Then `va` is that sum,
where `EOS = getEndOfSections()` is the maximum of the ends of the sections (an upper
bound of them all, and the end of one of them unless it is 0); `va` is at or above
the end of every section, and `isInSection` is false for `va` in every section. -/
theorem sentinel_outside_sections (b : Binary) (symbol : Symbol) (va : Nat)
    (hreg : (va, symbol) ∈ dynSymbolCache b)
    (hwrap : getEndOfSections b + 8 * toUintptr (b.dynsym_idx symbol) < 2 ^ 64) :
    va = getEndOfSections b + 8 * toUintptr (b.dynsym_idx symbol) ∧
      (∀ sec ∈ b.sections,
        (sec.virtual_address + sec.size) % 2 ^ 64 ≤ getEndOfSections b) ∧
      (getEndOfSections b = 0 ∨ ∃ sec ∈ b.sections,
        getEndOfSections b = (sec.virtual_address + sec.size) % 2 ^ 64) ∧
      (∀ sec ∈ b.sections, sec.virtual_address + sec.size < 2 ^ 64 →
        sec.virtual_address + sec.size ≤ va) ∧
      ∀ pSecName, isInSection b va pSecName = false := by
  have hva : va = getEndOfSections b + 8 * toUintptr (b.dynsym_idx symbol) := by
    unfold dynSymbolCache at hreg
    split at hreg
    · obtain ⟨s, _, hs⟩ := List.mem_map.mp hreg
      injection hs with h1 h2
      subst h2
      rw [← h1]
      unfold sentinel
      exact Nat.mod_eq_of_lt hwrap
    · cases hreg
  have hbound : ∀ sec ∈ b.sections,
      (sec.virtual_address + sec.size) % 2 ^ 64 ≤ getEndOfSections b :=
    (foldl_end_bound b.sections 0).2
  refine ⟨hva, hbound, foldl_end_attained b.sections 0, ?_, ?_⟩
  · intro sec hsec hsmall
    have := hbound sec hsec
    rw [Nat.mod_eq_of_lt hsmall] at this
    omega
  · intro pSecName
    unfold isInSection
    cases hget : b.get_section pSecName with
    | none => rfl
    | some sec =>
      have hmem : sec ∈ b.sections := List.mem_of_find?_eq_some hget
      have := hbound sec hmem
      have hle : (sec.virtual_address + sec.size) % 2 ^ 64 ≤ va := by omega
      simp only [Bool.and_eq_false_imp, decide_eq_true_eq, decide_eq_false_iff_not]
      intro _
      omega

/-- Witness of C24: in the example image the symbol `__si_class_type_info` has the index
2 and is registered under 464; the sections end at 416 and 448. -/
theorem sentinel_outside_sections_witness :
    ((464, (⟨"_ZTVN10__cxxabiv120__si_class_type_infoE", 0⟩ : Symbol)) ∈
        dynSymbolCache exampleBinary) ∧
      getEndOfSections exampleBinary = 448 ∧
      (464 = getEndOfSections exampleBinary
          + 8 * toUintptr
              (exampleBinary.dynsym_idx ⟨"_ZTVN10__cxxabiv120__si_class_type_infoE", 0⟩) ∧
        (∀ sec ∈ exampleBinary.sections,
          (sec.virtual_address + sec.size) % 2 ^ 64 ≤ getEndOfSections exampleBinary) ∧
        (getEndOfSections exampleBinary = 0 ∨ ∃ sec ∈ exampleBinary.sections,
          getEndOfSections exampleBinary = (sec.virtual_address + sec.size) % 2 ^ 64) ∧
        (∀ sec ∈ exampleBinary.sections, sec.virtual_address + sec.size < 2 ^ 64 →
          sec.virtual_address + sec.size ≤ 464) ∧
        ∀ pSecName, isInSection exampleBinary 464 pSecName = false) :=
  ⟨by decide, by decide,
    sentinel_outside_sections exampleBinary ⟨"_ZTVN10__cxxabiv120__si_class_type_infoE", 0⟩
      464 (by decide) (by decide)⟩

end ELF

end MetaDumper
